import Mathlib

/-!
# Virtual-memory manager of the OS/161 teaching kernel: address spaces, coremap, sbrk

A shallow embedding of `kern/vm/addrspace.c` (`as_create`, `as_destroy`, `as_copy`,
`as_define_region`, `as_prepare_load`, `as_define_stack`, `as_activate`) and of `sys_sbrk`
from `syscall.c`, with the data declarations of `addrspace.h` and `vm.h`.

Conventions of the embedding.

* `vaddr_t`, `paddr_t` and `size_t` are 32-bit unsigned words. They are held in `Nat`
  fields and every C operation on them is reduced modulo `2 ^ 32` (`toU32`).
* `int` values are held in `Int`; results of `int` arithmetic are wrapped to the
  two's-complement range (`wrapInt`).
* The globals `coremap`, `num_page_frames` and `first_pageframe_addr` form `vmstate`.
  The coremap array is a list. A C write `coremap[k].f = v` whose index `k` is
  outside the array cannot be represented in the list: it is recorded in the
  field `stray` (in program order) and the list is left as it is.
* A page table is the list of its slots. The tables of this kernel are allocated
  by `as_create` with `num_page_frames * 2` slots; a read at an index outside
  the list yields `page_entry.unset`, and the theorems that depend on a read say
  which length they assume.
* The kernel heap (`kmalloc`, `kfree`) is not part of the sources. An allocation is
  an input of the model: `none` for `NULL`, `some b` for a block whose previous
  contents are `b`. Releasing a block has no effect on the modelled state.
* The translation cache and the interrupt priority level form `cpustate`; the constants
  of `machine/tlb.h` and `machine/spl.h`, which are not among the sources, are the fields
  of the parameter `mips`.
* Physical memory is a function from physical byte addresses to bytes. The kernel
  reaches the byte at physical address `p` through `PADDR_TO_KVADDR(p)`, so a
  `memmove` between two such kernel addresses moves the bytes of the two physical
  ranges.
-/

namespace OS161

/-! ## Machine words -/

/-- Conversion of an integer to `u_int32_t` (reduction modulo `2 ^ 32`). -/
def toU32 (x : Int) : Nat := (x % (2 ^ 32 : Int)).toNat

/-- Conversion of an unsigned 32-bit word to `int` (two's complement). -/
def toInt32 (n : Nat) : Int :=
  if n % 2 ^ 32 < 2 ^ 31 then ((n % 2 ^ 32 : Nat) : Int) else ((n % 2 ^ 32 : Nat) : Int) - 2 ^ 32

/-- Result of an `int` operation, wrapped to the range of `int`. -/
def wrapInt (x : Int) : Int := toInt32 (toU32 x)

/-- Modelled from the spec: the macro `PAGE_SIZE` of `machine/vm.h`, which is not among
the sources. The spec's scenario has a region of 4096 bytes span exactly one page. -/
def PAGE_SIZE : Nat := 4096

/-- Modelled from the spec: the macro `USERTOP` of `machine/vm.h`, which is not among the
sources: the top of the user half of the 32-bit address space, where the stack ends. -/
def USERTOP : Nat := 0x80000000

/-! ## Data declarations (`addrspace.h`, `vm.h`) -/

/-- The record `struct page_entry` of `addrspace.h`. -/
structure page_entry where
  present : Int
  virt_frame_num : Int
  page_frame_num : Int
  in_valid_region : Int
deriving DecidableEq, Repr

/-- The slot contents written by `as_create` and by the release branch of `sys_sbrk`:
not present, both numbers `-1`, not in a valid region. -/
def page_entry.unset : page_entry :=
  { present := 0, virt_frame_num := -1, page_frame_num := -1, in_valid_region := 0 }

/-- The record `struct coremap_entry` of `vm.h`. The pointer `v_page` is `none` for `NULL`
and `some a` for the address `a` of a page entry. -/
structure coremap_entry where
  v_page : Option Nat
  physical_addr : Nat
  num_page_frames : Int
  starting_page : Int
  valid : Int
deriving DecidableEq, Repr

/-- The record `struct addrspace` of `addrspace.h` (the branch without `OPT_DUMBVM`).
`progname` is a pointer value. -/
structure addrspace where
  as_vbase_text : Nat
  as_npages_text : Nat
  as_sizeof_text : Nat
  as_vbase_data : Nat
  as_npages_data : Nat
  as_sizeof_data : Nat
  as_vbase_stack : Nat
  as_npages_stack : Nat
  as_vbase_heap : Nat
  as_vtop_heap : Nat
  pagetable : List page_entry
  num_pt_entries : Int
  progname : Nat
deriving DecidableEq, Repr

/-- The globals of `vm.h`: `coremap`, `num_page_frames`, `first_pageframe_addr`, and the
record `stray` of the coremap writes whose index was outside the array. -/
structure vmstate where
  num_page_frames : Nat
  first_pageframe_addr : Nat
  coremap : List coremap_entry
  stray : List Int
deriving DecidableEq, Repr

/-- Values returned by the functions modelled here: `0` and the codes of `kern/errno.h`
that they use. -/
inductive errno where
  | OK
  | EINVAL
  | ENOMEM
  | EUNIMP
deriving DecidableEq, Repr

/-- Read of `pagetable[i]`. -/
def pt_read (pt : List page_entry) (i : Nat) : page_entry := pt.getD i page_entry.unset

/-- A frame index is free when its coremap entry has `valid == 0`. -/
def frame_free (vm : vmstate) (k : Nat) : Prop :=
  ∃ e, vm.coremap[k]? = some e ∧ e.valid = 0

/-- A frame index is in use when its coremap entry has `valid` other than `0`. -/
def frame_in_use (vm : vmstate) (k : Nat) : Prop :=
  ∃ e, vm.coremap[k]? = some e ∧ e.valid ≠ 0

instance (vm : vmstate) (k : Nat) : Decidable (frame_free vm k) := by
  unfold frame_free
  cases h : vm.coremap[k]? with
  | none => exact isFalse (by simp)
  | some e =>
    by_cases hv : e.valid = 0
    · exact isTrue ⟨e, rfl, hv⟩
    · exact isFalse (by simp [hv])

instance (vm : vmstate) (k : Nat) : Decidable (frame_in_use vm k) := by
  unfold frame_in_use
  cases h : vm.coremap[k]? with
  | none => exact isFalse (by simp)
  | some e =>
    by_cases hv : e.valid = 0
    · exact isFalse (by simp [hv])
    · exact isTrue ⟨e, rfl, hv⟩

/-! ## Releasing a coremap entry -/

/-- The four fields that the release code assigns. -/
def coremap_entry.released (e : coremap_entry) : coremap_entry :=
  { e with v_page := none, starting_page := 0, num_page_frames := 1, valid := 0 }

/-- The four assignments
`coremap[k].v_page = NULL; coremap[k].starting_page = 0; coremap[k].num_page_frames = 1;
coremap[k].valid = 0;` that `as_destroy` and `sys_sbrk` perform with
`k = pagetable[i].page_frame_num`. -/
def coremap_release (vm : vmstate) (k : Int) : vmstate :=
  if 0 ≤ k then
    match vm.coremap[k.toNat]? with
    | some e => { vm with coremap := vm.coremap.set k.toNat e.released }
    | none => { vm with stray := vm.stray ++ [k] }
  else { vm with stray := vm.stray ++ [k] }

/-! ## `as_destroy` -/

/-- The loop of `as_destroy`: `as_destroy_loop pt i r vm` runs the iterations
`i, i + 1, ..., i + r - 1`. -/
def as_destroy_loop (pt : List page_entry) : Nat → Nat → vmstate → vmstate
  | _, 0, vm => vm
  | i, r + 1, vm =>
    if (pt_read pt i).present = 1 then
      as_destroy_loop pt (i + 1) r (coremap_release vm (pt_read pt i).page_frame_num)
    else
      as_destroy_loop pt (i + 1) r vm

/-- The function `as_destroy`: the globals after the call. The two `kfree` calls end the
life of the address space and change nothing modelled. -/
def as_destroy (a : addrspace) (vm : vmstate) : vmstate :=
  as_destroy_loop a.pagetable 0 (vm.num_page_frames * 2) vm

/-! ## `sys_sbrk` -/

/-- What a call of `sys_sbrk` leaves behind: the returned code, the value stored in
`*retval`, the current thread's address space and the globals. -/
structure sbrk_result where
  result : errno
  retval : Int
  as : addrspace
  vm : vmstate
deriving DecidableEq, Repr

/-- The inner loop of the release branch: scan the slots `i, ..., i + r - 1` for the first
one with `virt_frame_num * PAGE_SIZE == target`, release its coremap entry, reset the
slot and stop. -/
def sbrk_scan (target : Nat) : Nat → Nat → List page_entry → vmstate → List page_entry × vmstate
  | _, 0, pt, vm => (pt, vm)
  | i, r + 1, pt, vm =>
    if toU32 ((pt_read pt i).virt_frame_num * (PAGE_SIZE : Int)) = target then
      (pt.set i page_entry.unset, coremap_release vm (pt_read pt i).page_frame_num)
    else
      sbrk_scan target (i + 1) r pt vm

/-- The outer loop of the release branch, `r` iterations left: one scan for the page at
`*vtop_heap - PAGE_SIZE`, then `*vtop_heap -= change`. -/
def sbrk_release (change : Int) : Nat → addrspace → vmstate → addrspace × vmstate
  | 0, a, vm => (a, vm)
  | r + 1, a, vm =>
    let s := sbrk_scan (toU32 ((a.as_vtop_heap : Int) - (PAGE_SIZE : Int))) 0
      (vm.num_page_frames * 2) a.pagetable vm
    sbrk_release change r
      { a with pagetable := s.1, as_vtop_heap := toU32 ((a.as_vtop_heap : Int) - change) } s.2

/-- The number of pages computed by the release branch,
`(((change*-1) - 1) / PAGE_SIZE) + 1`, in `int` arithmetic. -/
def sbrk_npages_release (change : Int) : Int :=
  wrapInt (Int.tdiv (wrapInt (wrapInt (change * -1) - 1)) (PAGE_SIZE : Int) + 1)

/-- The function `sys_sbrk(change, retval)` on the current thread's address space `a`.
`HEAPLIMIT` is a macro that is not among the sources and is a parameter here. -/
def sys_sbrk (HEAPLIMIT : Nat) (change : Int) (a : addrspace) (vm : vmstate) : sbrk_result :=
  if change = 0 then
    { result := errno.OK, retval := toInt32 a.as_vtop_heap, as := a, vm := vm }
  else if change < 0 then
    if toU32 ((a.as_vtop_heap : Int) - change) < a.as_vbase_heap then
      { result := errno.EINVAL, retval := -1, as := a, vm := vm }
    else
      let s := sbrk_release change (sbrk_npages_release change).toNat a vm
      { result := errno.OK, retval := toInt32 a.as_vtop_heap, as := s.1, vm := s.2 }
  else
    if toU32 ((a.as_vtop_heap : Int) + change) > a.as_vbase_stack then
      { result := errno.ENOMEM, retval := -1, as := a, vm := vm }
    else if toU32 ((toU32 ((a.as_vtop_heap : Int) + change) : Int) - (a.as_vbase_heap : Int))
        > HEAPLIMIT then
      { result := errno.ENOMEM, retval := -1, as := a, vm := vm }
    else
      { result := errno.OK, retval := toInt32 a.as_vtop_heap,
        as := { a with as_vtop_heap := toU32 ((a.as_vtop_heap : Int) + change) }, vm := vm }

/-! ## Concrete states used to evaluate the code -/

/-- The address space of the spec's end-to-end scenario: text at `0x400000` (1 page), data at
`0x401000` (2 pages), heap base `0x403000`, stack base `USERTOP`; the heap top and the page
table are given. -/
def scenario_as (top : Nat) (pt : List page_entry) : addrspace :=
  { as_vbase_text := 0x400000, as_npages_text := 1, as_sizeof_text := 4096,
    as_vbase_data := 0x401000, as_npages_data := 2, as_sizeof_data := 8192,
    as_vbase_stack := USERTOP, as_npages_stack := 0,
    as_vbase_heap := 0x403000, as_vtop_heap := top,
    pagetable := pt, num_pt_entries := 0, progname := 0 }

/-- A coremap entry of a single frame at physical address `pa`, with the given `valid`. -/
def scenario_frame (pa : Nat) (valid : Int) : coremap_entry :=
  { v_page := none, physical_addr := pa, num_page_frames := 1, starting_page := 1, valid := valid }

/-- Globals of a machine with two page frames at `0x100000` and `0x101000`, whose `valid`
fields are given. -/
def scenario_vm (v0 v1 : Int) : vmstate :=
  { num_page_frames := 2, first_pageframe_addr := 0x100000,
    coremap := [scenario_frame 0x100000 v0, scenario_frame 0x101000 v1], stray := [] }

/-- A present page-table entry of virtual page `vpn` in frame `pfn`. -/
def scenario_page (vpn pfn : Int) : page_entry :=
  { present := 1, virt_frame_num := vpn, page_frame_num := pfn, in_valid_region := 1 }

/-- The value of `HEAPLIMIT` named by the source comment ("16MB limit"). -/
def scenario_heaplimit : Nat := 16 * 1024 * 1024

/-! ## `getppages` -/

/-- Whether the `n` coremap entries from index `k` on exist and are all free. -/
def run_free (cm : List coremap_entry) (k n : Nat) : Bool :=
  (List.range n).all fun j =>
    match cm[k + j]? with
    | some e => decide (e.valid = 0)
    | none => false

/-- First-fit scan of the frame table: the least start index among `i, ..., i + r - 1` of a
run of `n` free frames. -/
def find_run (cm : List coremap_entry) (n : Nat) : Nat → Nat → Option Nat
  | _, 0 => none
  | i, r + 1 => if run_free cm i n then some i else find_run cm n (i + 1) r

/-- Marking of a run of `n` frames from index `k`: every frame in use, the first one the
start of a run of length `n`. -/
def mark_run (cm : List coremap_entry) (k n : Nat) : List coremap_entry :=
  (List.range n).foldl
    (fun acc j =>
      match acc[k + j]? with
      | some e =>
        acc.set (k + j)
          (if j = 0 then { e with valid := 1, starting_page := 1, num_page_frames := (n : Int) }
           else { e with valid := 1 })
      | none => acc)
    cm

/-- Modelled from the spec: the function `getppages` of the frame allocator, which `vm.h`
declares and whose body is not among the sources. The spec (4.1) has it scan the frame table
for `n` physically contiguous free frames, first fit over the fixed-size table, mark the
first as the start of a run of length `n`, mark all `n` as in use, and return the address of
the first; with no such run it fails, which `as_copy` reads as the address `0`. The result is
the address and the coremap after the call. -/
def getppages (npages : Nat) (vm : vmstate) : Nat × List coremap_entry :=
  match find_run vm.coremap npages 0 vm.num_page_frames with
  | some k => (vm.first_pageframe_addr + k * PAGE_SIZE, mark_run vm.coremap k npages)
  | none => (0, vm.coremap)

/-- What `as_copy` takes from a call `getppages(1)`, given as the address returned and the
coremap after the call, on a machine whose first page frame is not at address `0`: the
address `0` means failure and leaves the coremap as it was; any other address is that of a
frame `k` that was free, `first_pageframe_addr + k * PAGE_SIZE`, and the call marks the
frame in use (`valid = 1`) and changes no other coremap entry. -/
def getppages_contract (gp : Nat → vmstate → Nat × List coremap_entry) : Prop :=
  ∀ vm : vmstate, 0 < vm.first_pageframe_addr →
    ((gp 1 vm).1 = 0 → (gp 1 vm).2 = vm.coremap) ∧
    ((gp 1 vm).1 ≠ 0 →
      ∃ k e, vm.coremap[k]? = some e ∧ e.valid = 0 ∧
        (gp 1 vm).1 = vm.first_pageframe_addr + k * PAGE_SIZE ∧
        ∃ e1, e1.valid = 1 ∧ (gp 1 vm).2 = vm.coremap.set k e1)

/-! ## `as_create` -/

/-- The initialising loop of `as_create`, iterations `i, ..., i + r - 1`. -/
def as_create_loop : Nat → Nat → List page_entry → List page_entry
  | _, 0, pt => pt
  | i, r + 1, pt => as_create_loop (i + 1) r (pt.set i page_entry.unset)

/-- The function `as_create`. `blk` is the result of `kmalloc(sizeof (struct addrspace))`
and `ptblk` that of `kmalloc(sizeof (struct page_entry) * num_page_frames * 2)`. The fields
that the function does not assign (`as_sizeof_text`, `as_sizeof_data`, `progname`) keep the
contents of the block. -/
def as_create (vm : vmstate) (blk : Option addrspace) (ptblk : Option (List page_entry)) :
    Option addrspace :=
  match blk with
  | none => none
  | some b =>
    match ptblk with
    | none => none
    | some t =>
      some { b with
        as_vbase_text := 0, as_npages_text := 0, as_vbase_data := 0, as_npages_data := 0,
        as_vbase_stack := 0, as_npages_stack := 0, as_vbase_heap := 0, as_vtop_heap := 0,
        num_pt_entries := 0,
        pagetable := as_create_loop 0 (vm.num_page_frames * 2) t }

/-! ## `as_copy` -/

/-- The physical address `(pfn * PAGE_SIZE) + first_pageframe_addr` of a frame. -/
def frame_paddr (vm : vmstate) (pfn : Int) : Nat :=
  toU32 (pfn * (PAGE_SIZE : Int) + (vm.first_pageframe_addr : Int))

/-- The frame number `(paddr - first_pageframe_addr) / PAGE_SIZE`, an unsigned quotient
stored in an `int`. -/
def frame_index (vm : vmstate) (paddr : Nat) : Int :=
  toInt32 (toU32 ((paddr : Int) - (vm.first_pageframe_addr : Int)) / PAGE_SIZE)

/-- The library function `memmove(dst, src, n)` on physical memory: afterwards the `n` bytes
from `dst` on are the `n` bytes that were at `src`. -/
def memmove (mem : Nat → Nat) (dst src n : Nat) : Nat → Nat :=
  fun x => if dst ≤ x ∧ x < dst + n then mem (src + (x - dst)) else mem x

/-- The state that the loop of `as_copy` works on: the page table of the new address space,
the globals and physical memory. -/
structure copy_state where
  pt : List page_entry
  vm : vmstate
  mem : Nat → Nat

/-- The body of the loop of `as_copy` for slot `i` of the page table `old` of the source.
The result is `Except.error` with the state at the point where `getppages` returned `0`
(the point of `as_destroy(new); return ENOMEM;`), or `Except.ok` with the state at the
end of the iteration. -/
def as_copy_body (gp : Nat → vmstate → Nat × List coremap_entry) (old : List page_entry)
    (i : Nat) (s : copy_state) : Except copy_state copy_state :=
  if (pt_read old i).present = 1 then
    let e1 : page_entry :=
      { pt_read s.pt i with
        present := (pt_read old i).present,
        virt_frame_num := (pt_read old i).virt_frame_num,
        in_valid_region := (pt_read old i).in_valid_region }
    let g := gp 1 s.vm
    let vm1 : vmstate := { s.vm with coremap := g.2 }
    if g.1 = 0 then
      Except.error { pt := s.pt.set i e1, vm := vm1, mem := s.mem }
    else
      let e2 : page_entry := { e1 with page_frame_num := frame_index vm1 g.1 }
      Except.ok
        { pt := s.pt.set i e2, vm := vm1,
          mem := memmove s.mem (frame_paddr vm1 e2.page_frame_num)
            (frame_paddr vm1 (pt_read old i).page_frame_num) PAGE_SIZE }
  else
    Except.ok s

/-- The loop of `as_copy`, iterations `i, ..., i + r - 1`; it stops at the first iteration
in which `getppages` returns `0`. -/
def as_copy_loop (gp : Nat → vmstate → Nat × List coremap_entry) (old : List page_entry) :
    Nat → Nat → copy_state → Except copy_state copy_state
  | _, 0, s => Except.ok s
  | i, r + 1, s =>
    match as_copy_body gp old i s with
    | Except.error s1 => Except.error s1
    | Except.ok s1 => as_copy_loop gp old (i + 1) r s1

/-- What a call of `as_copy` leaves behind: the returned code, the address space stored
through `ret` (`none` when nothing is stored), the globals and physical memory. -/
structure copy_result where
  result : errno
  ret : Option addrspace
  vm : vmstate
  mem : Nat → Nat

/-- The function `as_copy(old, ret)`. `gp` is `getppages`; `blk` and `ptblk` are the results
of the two `kmalloc` calls of `as_create`. -/
def as_copy (gp : Nat → vmstate → Nat × List coremap_entry) (blk : Option addrspace)
    (ptblk : Option (List page_entry)) (old : addrspace) (vm : vmstate) (mem : Nat → Nat) :
    copy_result :=
  match as_create vm blk ptblk with
  | none => { result := errno.ENOMEM, ret := none, vm := vm, mem := mem }
  | some new0 =>
    let new1 : addrspace :=
      { new0 with
        as_vbase_text := old.as_vbase_text, as_npages_text := old.as_npages_text,
        as_vbase_data := old.as_vbase_data, as_npages_data := old.as_npages_data,
        as_vbase_stack := old.as_vbase_stack, as_npages_stack := old.as_npages_stack,
        as_vbase_heap := old.as_vbase_heap, as_vtop_heap := old.as_vtop_heap,
        num_pt_entries := old.num_pt_entries }
    match as_copy_loop gp old.pagetable 0 (vm.num_page_frames * 2)
        { pt := new1.pagetable, vm := vm, mem := mem } with
    | Except.error s =>
      { result := errno.ENOMEM, ret := none,
        vm := as_destroy { new1 with pagetable := s.pt } s.vm, mem := s.mem }
    | Except.ok s =>
      { result := errno.OK, ret := some { new1 with pagetable := s.pt }, vm := s.vm,
        mem := s.mem }

/-! ## Invariant of the loop of `as_copy` -/

/-- What holds of the state `s` of the loop of `as_copy` before iteration `i`, for a table of
`n` slots, the globals `vm0` and the memory `mem0` at the start of the call: the slots from
`i` on and the slots of unpresent source entries are unset; each slot of a present source
entry holds the source's virtual page number and flag and a frame that was free at the start
and is in use now; these frames are pairwise distinct; the coremap entries of the frames in
use at the start are untouched, and so are their bytes; every frame in use now was in
use at the start or is held by a copied slot; and the bytes of a copied slot's frame are the
bytes that the source's frame had at the start, when that frame was in use then. -/
structure copy_inv (old : List page_entry) (n : Nat) (vm0 : vmstate) (mem0 : Nat → Nat)
    (i : Nat) (s : copy_state) : Prop where
  bound : i ≤ n
  len : s.pt.length = n
  npf : s.vm.num_page_frames = vm0.num_page_frames
  fpa : s.vm.first_pageframe_addr = vm0.first_pageframe_addr
  strays : s.vm.stray = vm0.stray
  cmlen : s.vm.coremap.length = vm0.coremap.length
  kept : ∀ k, frame_in_use vm0 k → s.vm.coremap[k]? = vm0.coremap[k]?
  todo : ∀ j, i ≤ j → j < n → s.pt[j]? = some page_entry.unset
  skipped : ∀ j, j < i → (pt_read old j).present ≠ 1 → s.pt[j]? = some page_entry.unset
  copied : ∀ j, j < i → (pt_read old j).present = 1 →
    ∃ k : Nat, s.pt[j]? = some
        { present := 1, virt_frame_num := (pt_read old j).virt_frame_num,
          page_frame_num := (k : Int), in_valid_region := (pt_read old j).in_valid_region } ∧
      frame_free vm0 k ∧ frame_in_use s.vm k
  origin : ∀ k, frame_in_use s.vm k →
    frame_in_use vm0 k ∨
      ∃ j, j < i ∧ (pt_read old j).present = 1 ∧ (pt_read s.pt j).page_frame_num = (k : Int)
  distinct : ∀ j1 j2, j1 < i → j2 < i → (pt_read old j1).present = 1 →
    (pt_read old j2).present = 1 →
    (pt_read s.pt j1).page_frame_num = (pt_read s.pt j2).page_frame_num → j1 = j2
  src_bytes : ∀ k, frame_in_use vm0 k → ∀ b, b < PAGE_SIZE →
    s.mem (vm0.first_pageframe_addr + k * PAGE_SIZE + b)
      = mem0 (vm0.first_pageframe_addr + k * PAGE_SIZE + b)
  new_bytes : ∀ j, j < i → (pt_read old j).present = 1 →
    (∃ ks : Nat, (pt_read old j).page_frame_num = (ks : Int) ∧ frame_in_use vm0 ks) →
    ∀ b, b < PAGE_SIZE →
      s.mem (frame_paddr vm0 (pt_read s.pt j).page_frame_num + b)
        = mem0 (frame_paddr vm0 (pt_read old j).page_frame_num + b)

/-- The state `s1` in which the loop of `as_copy` stops when `getppages` returns `0` in
iteration `i`, in terms of the state `s` before the iteration: slot `i` is marked present
with the source's virtual page number and flag and still has the frame number `-1`. -/
def copy_fail (old : List page_entry) (i : Nat) (s s1 : copy_state) : Prop :=
  (pt_read old i).present = 1 ∧
  s1.pt = s.pt.set i
    { present := 1, virt_frame_num := (pt_read old i).virt_frame_num,
      page_frame_num := -1, in_valid_region := (pt_read old i).in_valid_region } ∧
  s1.vm = s.vm ∧ s1.mem = s.mem

/-- A source address space for `as_copy` on a machine with four page frames: the layout of
the scenario with heap top `0x405000`, heap page `0x403` in frame 0 (slot 0) and heap page
`0x404` in frame 1 (slot 2) of a table of eight slots. -/
def copy_source : addrspace :=
  scenario_as 0x405000
    [scenario_page 0x403 0, page_entry.unset, scenario_page 0x404 1, page_entry.unset,
     page_entry.unset, page_entry.unset, page_entry.unset, page_entry.unset]

/-- Globals of a machine with four page frames from `0x100000` on; frames 0 and 1 are in
use, and the `valid` fields of frames 2 and 3 are given. -/
def copy_vm (v2 v3 : Int) : vmstate :=
  { num_page_frames := 4, first_pageframe_addr := 0x100000,
    coremap := [scenario_frame 0x100000 1, scenario_frame 0x101000 1,
      scenario_frame 0x102000 v2, scenario_frame 0x103000 v3],
    stray := [] }

/-- Contents of physical memory that differ from one frame to the next. -/
def copy_mem : Nat → Nat := fun x => x % 251

/-- Previous contents of the block that `kmalloc` returns for the new `struct addrspace`. -/
def copy_blk : addrspace :=
  { as_vbase_text := 11, as_npages_text := 12, as_sizeof_text := 13, as_vbase_data := 14,
    as_npages_data := 15, as_sizeof_data := 16, as_vbase_stack := 17, as_npages_stack := 18,
    as_vbase_heap := 19, as_vtop_heap := 20, pagetable := [], num_pt_entries := 21,
    progname := 22 }

/-- Previous contents of the block that `kmalloc` returns for the new page table of eight
slots. -/
def copy_ptblk : List page_entry := List.replicate 8 (scenario_page 9 9)

/-! ## Repeated calls of `sys_sbrk` -/

/-- The address space and the globals after `n` successive calls `sys_sbrk(change, retval)`
of the same thread. -/
def sys_sbrk_repeat (HEAPLIMIT : Nat) (change : Int) : Nat → addrspace → vmstate →
    addrspace × vmstate
  | 0, a, vm => (a, vm)
  | n + 1, a, vm =>
    sys_sbrk_repeat HEAPLIMIT change n (sys_sbrk HEAPLIMIT change a vm).as
      (sys_sbrk HEAPLIMIT change a vm).vm

/-! ## `as_define_region` -/

/-- Modelled from the spec: the macro `PAGE_FRAME` of `machine/vm.h`, which is not among the
sources: the mask with which an address is aligned down to its page (4.4: "the virtual
address is page-aligned down"), that is, all bits of a 32-bit word but the 12 bits of the
offset within a page of `PAGE_SIZE` bytes. -/
def PAGE_FRAME : Nat := 0xfffff000

/-- The operator `~` on a 32-bit unsigned word. -/
def not32 (x : Nat) : Nat := 2 ^ 32 - 1 - x % 2 ^ 32

/-- The value of `vaddr` after `vaddr &= PAGE_FRAME;`. -/
def region_vaddr (vaddr : Nat) : Nat := vaddr &&& PAGE_FRAME

/-- The value of `sz` after `sz += vaddr & ~(vaddr_t) PAGE_FRAME;` and
`sz = (sz + PAGE_SIZE - 1) & PAGE_FRAME;`, in `size_t` arithmetic. -/
def region_sz (vaddr sz : Nat) : Nat :=
  toU32 (((toU32 ((sz : Int) + ((vaddr &&& not32 PAGE_FRAME : Nat) : Int)) : Nat) : Int)
    + (PAGE_SIZE : Int) - 1) &&& PAGE_FRAME

/-- The value of `npages = sz / PAGE_SIZE;`. -/
def region_npages (vaddr sz : Nat) : Nat := region_sz vaddr sz / PAGE_SIZE

/-- The function `as_define_region(as, vaddr, sz, readable, writeable, executable)`: the
returned code and the address space after the call. The three permission flags are not
used. The warning printed on the console is not modelled. -/
def as_define_region (a : addrspace) (vaddr sz : Nat) (_readable _writeable _executable : Int) :
    errno × addrspace :=
  if a.as_vbase_text = 0 then
    (errno.OK,
      { a with
        as_vbase_text := region_vaddr vaddr,
        as_npages_text := region_npages vaddr sz,
        as_sizeof_text := sz })
  else if a.as_vbase_data = 0 then
    (errno.OK,
      { a with
        as_vbase_data := region_vaddr vaddr,
        as_npages_data := region_npages vaddr sz,
        as_sizeof_data := sz,
        as_vbase_heap :=
          toU32 ((region_vaddr vaddr : Int)
            + ((toU32 ((region_npages vaddr sz : Int) * (PAGE_SIZE : Int)) : Nat) : Int)),
        as_vtop_heap :=
          toU32 ((region_vaddr vaddr : Int)
            + ((toU32 ((region_npages vaddr sz : Int) * (PAGE_SIZE : Int)) : Nat) : Int)) })
  else
    (errno.EUNIMP, a)

/-! ## `as_activate` -/

/-- The constants of `machine/tlb.h` and `machine/spl.h` that `as_activate` uses; the two
headers are not among the sources, and the constants are parameters: the number of slots
of the translation cache, the two words of the invalid entry of slot `i`, and the interrupt
priority level at which all interrupts are masked. -/
structure mips where
  NUM_TLB : Nat
  TLBHI_INVALID : Nat → Nat
  TLBLO_INVALID : Nat
  SPL_HIGH : Int

/-- The processor state that `as_activate` works on: the slots of the translation cache,
each holding the two words (`entryhi`, `entrylo`), the current interrupt priority level, and
the record, in program order, of the slot written and the priority level in force at each
`TLB_Write`. -/
structure cpustate where
  tlb : List (Nat × Nat)
  ipl : Int
  tlb_writes : List (Nat × Int)
deriving DecidableEq, Repr

/-- Modelled from the spec: the function `splhigh` of `machine/spl.h`, which is not among the
sources: it masks all interrupts, so that what follows runs "with interrupts disabled"
(4.5), and returns the previous priority level. -/
def splhigh (m : mips) (c : cpustate) : Int × cpustate :=
  (c.ipl, { c with ipl := m.SPL_HIGH })

/-- Modelled from the spec: the function `splx` of `machine/spl.h`, which is not among the
sources: it sets the interrupt priority level to the given one and returns the previous
one. -/
def splx (s : Int) (c : cpustate) : Int × cpustate :=
  (c.ipl, { c with ipl := s })

/-- Modelled from the spec: the function `TLB_Write` of `machine/tlb.h`, which is not among
the sources: it stores the entry (`entryhi`, `entrylo`) in the slot `index` of the
translation cache, replacing what the slot cached (4.5: activation invalidates the cached
translation entries by such writes). -/
def TLB_Write (entryhi entrylo index : Nat) (c : cpustate) : cpustate :=
  { c with
    tlb := c.tlb.set index (entryhi, entrylo),
    tlb_writes := c.tlb_writes ++ [(index, c.ipl)] }

/-- The loop of `as_activate`, iterations `i, ..., i + r - 1`. -/
def as_activate_loop (m : mips) : Nat → Nat → cpustate → cpustate
  | _, 0, c => c
  | i, r + 1, c =>
    as_activate_loop m (i + 1) r (TLB_Write (m.TLBHI_INVALID i) m.TLBLO_INVALID i c)

/-- The function `as_activate(as)`; the argument may be `NULL` (`none`) and is not used. -/
def as_activate (m : mips) (_a : Option addrspace) (c : cpustate) : cpustate :=
  let s := splhigh m c
  (splx s.1 (as_activate_loop m 0 m.NUM_TLB s.2)).2

/-- The constants of the MIPS port of OS/161: 64 slots, `TLBHI_INVALID(i)` the page
`0x80000 + i` of the kernel's unmapped segment, `TLBLO_INVALID()` zero, level 15. -/
def mips_r3000 : mips :=
  { NUM_TLB := 64, TLBHI_INVALID := fun i => (0x80000 + i) * 4096, TLBLO_INVALID := 0,
    SPL_HIGH := 15 }

/-- The address space that `as_create` returns on the machine `copy_vm 0 0` when `kmalloc`
returns the blocks `copy_blk` and `copy_ptblk`. -/
def fresh_as : addrspace :=
  { copy_blk with
    as_vbase_text := 0, as_npages_text := 0, as_vbase_data := 0, as_npages_data := 0,
    as_vbase_stack := 0, as_npages_stack := 0, as_vbase_heap := 0, as_vtop_heap := 0,
    num_pt_entries := 0, pagetable := List.replicate 8 page_entry.unset }

/-- What holds of the page table `pt` of the new address space before iteration `i` of the
loop of `as_copy`, whatever `getppages` does: the table has `n` slots; the slots from `i`
on and the slots of unpresent source entries are unset; each slot of a present source entry
is present with the source's virtual page number and flag. -/
structure copy_pt_inv (old : List page_entry) (n i : Nat) (pt : List page_entry) : Prop where
  len : pt.length = n
  todo : ∀ j, i ≤ j → j < n → pt[j]? = some page_entry.unset
  skipped : ∀ j, j < i → (pt_read old j).present ≠ 1 → pt[j]? = some page_entry.unset
  copied : ∀ j, j < i → (pt_read old j).present = 1 →
    ∃ f : Int, pt[j]? = some
      { present := 1, virt_frame_num := (pt_read old j).virt_frame_num,
        page_frame_num := f, in_valid_region := (pt_read old j).in_valid_region }

/-- One iteration of the loop of `as_destroy`, for slot `i`. -/
def as_destroy_slot (pt : List page_entry) (vm : vmstate) (i : Nat) : vmstate :=
  if (pt_read pt i).present = 1 then coremap_release vm (pt_read pt i).page_frame_num else vm

/-- The page table on which `as_copy` calls `as_destroy` when the loop result `r` is a
failure (`none` when the loop completed). -/
def cleanup_table (r : Except copy_state copy_state) : Option (List page_entry) :=
  match r with
  | Except.error s => some s.pt
  | Except.ok _ => none

/-! ## `as_prepare_load`, `as_define_stack` -/

/-- The function `as_prepare_load`: the returned code and the address space after the
call. The function only sets the stack base and the number of stack pages. -/
def as_prepare_load (a : addrspace) : errno × addrspace :=
  (errno.OK, { a with as_vbase_stack := USERTOP, as_npages_stack := 0 })

/-- Modelled from the spec: the macro `USERSTACK` of `machine/vm.h`, which is not among the
sources: the fixed initial stack pointer, the top of the stack's range (4.4), which is the
top of user space. -/
def USERSTACK : Nat := USERTOP

/-- The loop of `as_define_stack`, iterations `i, ..., i + r - 1`: the value of `i` when the
loop is left, which is the first slot among them whose virtual page number is
`(USERTOP / PAGE_SIZE) - 1`, or `i + r` when there is none. The comparison is one of
unsigned words, `USERTOP` being unsigned. -/
def as_define_stack_loop (pt : List page_entry) : Nat → Nat → Nat
  | i, 0 => i
  | i, r + 1 =>
    if toU32 (pt_read pt i).virt_frame_num = toU32 (((USERTOP / PAGE_SIZE : Nat) : Int) - 1) then i
    else as_define_stack_loop pt (i + 1) r

/-- The function `as_define_stack(as, stackptr)`: `none` when the assertion fails, otherwise
the returned code and the value stored in `*stackptr`. When no slot of the table matches,
the loop leaves `i` equal to `num_page_frames * 2` and the assertion reads the entry past
the last slot of the table, whose contents `past` are an input. -/
def as_define_stack (a : addrspace) (vm : vmstate) (past : page_entry) : Option (errno × Nat) :=
  let i := as_define_stack_loop a.pagetable 0 (vm.num_page_frames * 2)
  let e := if i < vm.num_page_frames * 2 then pt_read a.pagetable i else past
  if frame_paddr vm e.page_frame_num ≠ 0 then some (errno.OK, USERSTACK) else none

/-! ## Address spaces and kernel states that the functions produce -/

/-- The address spaces made from the result of `as_create` by `as_define_region` with
regions that end within user space, `as_prepare_load`, `sys_sbrk` with a `change` that is
not negative, and `as_copy`. -/
inductive as_reach (HEAPLIMIT : Nat) : addrspace → Prop where
  | create (vm : vmstate) (blk : Option addrspace) (ptblk : Option (List page_entry))
      (a : addrspace) : as_create vm blk ptblk = some a → as_reach HEAPLIMIT a
  | region (a : addrspace) (vaddr sz : Nat) (r w x : Int) :
      as_reach HEAPLIMIT a → vaddr + sz ≤ USERTOP →
      as_reach HEAPLIMIT (as_define_region a vaddr sz r w x).2
  | load (a : addrspace) : as_reach HEAPLIMIT a → as_reach HEAPLIMIT (as_prepare_load a).2
  | sbrk (a : addrspace) (vm : vmstate) (change : Int) :
      as_reach HEAPLIMIT a → 0 ≤ change → change < 2 ^ 31 →
      as_reach HEAPLIMIT (sys_sbrk HEAPLIMIT change a vm).as
  | copy (gp : Nat → vmstate → Nat × List coremap_entry) (blk : Option addrspace)
      (ptblk : Option (List page_entry)) (old new : addrspace) (vm : vmstate)
      (mem : Nat → Nat) :
      as_reach HEAPLIMIT old → (as_copy gp blk ptblk old vm mem).ret = some new →
      as_reach HEAPLIMIT new

/-- The page tables produced by `as_create` and then changed only by `as_copy`, as its
destination, and by `sys_sbrk`: the table of an address space that `as_create` returns, the
table of an address space that `as_copy` stores through `ret` (the source being any address
space), and the table that a call of `sys_sbrk` leaves of such a table. The blocks that
`kmalloc` returns for a table have the `num_page_frames * 2` slots asked for. -/
inductive table_made (HEAPLIMIT : Nat) : List page_entry → Prop where
  | create (vm : vmstate) (blk : Option addrspace) (ptblk : Option (List page_entry))
      (a : addrspace) :
      (∀ t, ptblk = some t → t.length = vm.num_page_frames * 2) →
      as_create vm blk ptblk = some a → table_made HEAPLIMIT a.pagetable
  | copy (gp : Nat → vmstate → Nat × List coremap_entry) (blk : Option addrspace)
      (ptblk : Option (List page_entry)) (old new : addrspace) (vm : vmstate)
      (mem : Nat → Nat) :
      (∀ t, ptblk = some t → t.length = vm.num_page_frames * 2) →
      (as_copy gp blk ptblk old vm mem).ret = some new → table_made HEAPLIMIT new.pagetable
  | sbrk (a : addrspace) (vm : vmstate) (change : Int) :
      table_made HEAPLIMIT a.pagetable →
      table_made HEAPLIMIT (sys_sbrk HEAPLIMIT change a vm).as.pagetable

/-- The state of the kernel that the memory manager works on: the live address spaces, the
globals and physical memory. -/
structure kernel where
  spaces : List addrspace
  vm : vmstate
  mem : Nat → Nat

/-- A boot state with no user frame in use: no live address space, no coremap entry with
`valid = 1`. -/
def kernel_boot (k : kernel) : Prop :=
  k.spaces = [] ∧ ∀ e, e ∈ k.vm.coremap → e.valid ≠ 1

/-- The live address spaces after a call of `as_copy` that stored `ret`. -/
def spaces_after_copy (spaces : List addrspace) (ret : Option addrspace) : List addrspace :=
  match ret with
  | some new => spaces ++ [new]
  | none => spaces

/-- One call of `as_create`, `as_define_region`, `as_prepare_load`, `sys_sbrk`, `as_copy` or
`as_destroy` on a kernel state; the address space worked on is the live address space
number `i`. `gp` is the kernel's `getppages`; the block that `kmalloc` returns for a page
table has the `num_page_frames * 2` slots asked for. -/
inductive kernel_step (HEAPLIMIT : Nat) (gp : Nat → vmstate → Nat × List coremap_entry) :
    kernel → kernel → Prop where
  | create (k : kernel) (blk : Option addrspace) (ptblk : Option (List page_entry))
      (a : addrspace) :
      (∀ t, ptblk = some t → t.length = k.vm.num_page_frames * 2) →
      as_create k.vm blk ptblk = some a →
      kernel_step HEAPLIMIT gp k { k with spaces := k.spaces ++ [a] }
  | region (k : kernel) (i : Nat) (a : addrspace) (vaddr sz : Nat) (r w x : Int) :
      k.spaces[i]? = some a →
      kernel_step HEAPLIMIT gp k
        { k with spaces := k.spaces.set i (as_define_region a vaddr sz r w x).2 }
  | load (k : kernel) (i : Nat) (a : addrspace) :
      k.spaces[i]? = some a →
      kernel_step HEAPLIMIT gp k { k with spaces := k.spaces.set i (as_prepare_load a).2 }
  | sbrk (k : kernel) (i : Nat) (a : addrspace) (change : Int) :
      k.spaces[i]? = some a →
      kernel_step HEAPLIMIT gp k
        { spaces := k.spaces.set i (sys_sbrk HEAPLIMIT change a k.vm).as,
          vm := (sys_sbrk HEAPLIMIT change a k.vm).vm, mem := k.mem }
  | copy (k : kernel) (i : Nat) (a : addrspace) (blk : Option addrspace)
      (ptblk : Option (List page_entry)) :
      (∀ t, ptblk = some t → t.length = k.vm.num_page_frames * 2) →
      k.spaces[i]? = some a →
      kernel_step HEAPLIMIT gp k
        { spaces := spaces_after_copy k.spaces (as_copy gp blk ptblk a k.vm k.mem).ret,
          vm := (as_copy gp blk ptblk a k.vm k.mem).vm,
          mem := (as_copy gp blk ptblk a k.vm k.mem).mem }
  | destroy (k : kernel) (i : Nat) (a : addrspace) :
      k.spaces[i]? = some a →
      kernel_step HEAPLIMIT gp k
        { spaces := k.spaces.eraseIdx i, vm := as_destroy a k.vm, mem := k.mem }

/-- The kernel states reachable from a boot state with no user frame in use. -/
inductive kernel_reach (HEAPLIMIT : Nat) (gp : Nat → vmstate → Nat × List coremap_entry) :
    kernel → Prop where
  | boot (k : kernel) : kernel_boot k → kernel_reach HEAPLIMIT gp k
  | step (k k1 : kernel) :
      kernel_reach HEAPLIMIT gp k → kernel_step HEAPLIMIT gp k k1 →
      kernel_reach HEAPLIMIT gp k1

/-- Every slot `0, ..., n - 1` of the page table reads as unset. -/
def table_unset (n : Nat) (pt : List page_entry) : Prop :=
  ∀ i, i < n → pt_read pt i = page_entry.unset

/-- The address space that `as_copy` stores for the source `copy_source` on the machine
`copy_vm 0 0` when `kmalloc` returns the blocks `copy_blk` and `copy_ptblk`. -/
def copy_made : addrspace :=
  { copy_source with
    as_sizeof_text := 13, as_sizeof_data := 16, progname := 22,
    pagetable :=
      [scenario_page 0x403 2, page_entry.unset, scenario_page 0x404 3, page_entry.unset,
       page_entry.unset, page_entry.unset, page_entry.unset, page_entry.unset] }

/-- A boot state of a machine with two page frames, both free, and no address space. -/
def boot_kernel : kernel :=
  { spaces := [], vm := scenario_vm 0 0, mem := copy_mem }

/-- The state of the kernel after `as_create`, `sys_sbrk(-4096)` on the new address space
and `as_copy` of it, from `boot_kernel`, when `kmalloc` returns the blocks `copy_blk` and a
block of four slots. -/
def booted_kernel : kernel :=
  { spaces :=
      [{ fresh_as with pagetable := List.replicate 4 page_entry.unset, as_vtop_heap := 4096 },
       { fresh_as with pagetable := List.replicate 4 page_entry.unset, as_vtop_heap := 4096 }],
    vm := { scenario_vm 0 0 with stray := [-1] }, mem := copy_mem }

/-- The page tables of the live address spaces, in their order. -/
def kernel_tables (k : kernel) : List (List page_entry) :=
  k.spaces.map (fun a => a.pagetable)

/-- Slot `i` of the page table number `s`, among tables of `n` slots, is present and holds
the frame number `f`. -/
def slot_holds (tabs : List (List page_entry)) (n s i : Nat) (f : Int) : Prop :=
  ∃ pt, tabs[s]? = some pt ∧ i < n ∧ (pt_read pt i).present = 1 ∧
    (pt_read pt i).page_frame_num = f

/-- The coremap entry of frame `k` has `valid = 1`. -/
def frame_valid (vm : vmstate) (k : Nat) : Prop :=
  ∃ e, vm.coremap[k]? = some e ∧ e.valid = 1

/-- The frame invariant of the data model on the page tables `tabs` of the live address
spaces and the globals `vm`: the frames lie within the 32-bit physical address space above
address `0`; every table has `num_page_frames * 2` slots; a slot that is not present is
unset; every present slot holds a frame whose coremap entry has `valid = 1`; every frame
whose coremap entry has `valid = 1` is held by a present slot; and no frame is held by two
present slots. -/
structure frames_inv (tabs : List (List page_entry)) (vm : vmstate) : Prop where
  fpa : 0 < vm.first_pageframe_addr
  fit : vm.first_pageframe_addr + PAGE_SIZE * vm.coremap.length ≤ 2 ^ 32
  len : ∀ (s : Nat) (pt : List page_entry), tabs[s]? = some pt →
    pt.length = vm.num_page_frames * 2
  unmapped : ∀ (s : Nat) (pt : List page_entry) (i : Nat), tabs[s]? = some pt →
    i < vm.num_page_frames * 2 →
    (pt_read pt i).present ≠ 1 → pt_read pt i = page_entry.unset
  mapped : ∀ s i f, slot_holds tabs (vm.num_page_frames * 2) s i f →
    ∃ k : Nat, f = (k : Int) ∧ frame_valid vm k
  owned : ∀ k, frame_valid vm k →
    ∃ s i, slot_holds tabs (vm.num_page_frames * 2) s i (k : Int)
  distinct : ∀ s1 i1 s2 i2 f, slot_holds tabs (vm.num_page_frames * 2) s1 i1 f →
    slot_holds tabs (vm.num_page_frames * 2) s2 i2 f → s1 = s2 ∧ i1 = i2

/-- A kernel state with one live address space, `copy_source`, on the machine `copy_vm 0 0`:
frames 0 and 1 are held by slots 0 and 2 of its page table, frames 2 and 3 are free. -/
def copy_kernel : kernel :=
  { spaces := [copy_source], vm := copy_vm 0 0, mem := copy_mem }

/-- The kernel states that calls of `as_create`, `as_define_region`, `as_prepare_load`,
`sys_sbrk`, `as_copy` and `as_destroy` reach from the state `k0`. -/
inductive kernel_run (HEAPLIMIT : Nat) (gp : Nat → vmstate → Nat × List coremap_entry)
    (k0 : kernel) : kernel → Prop where
  | start : kernel_run HEAPLIMIT gp k0 k0
  | step (k k1 : kernel) :
      kernel_run HEAPLIMIT gp k0 k → kernel_step HEAPLIMIT gp k k1 →
      kernel_run HEAPLIMIT gp k0 k1

/-- The state of the kernel after `as_copy` of `copy_source` and then `as_destroy` of
`copy_source`, from `copy_kernel`, when `kmalloc` returns the blocks `copy_blk` and
`copy_ptblk`. -/
def copied_kernel : kernel :=
  { spaces := (spaces_after_copy copy_kernel.spaces
        (as_copy getppages (some copy_blk) (some copy_ptblk) copy_source copy_kernel.vm
          copy_kernel.mem).ret).eraseIdx 0,
    vm := as_destroy copy_source
        (as_copy getppages (some copy_blk) (some copy_ptblk) copy_source copy_kernel.vm
          copy_kernel.mem).vm,
    mem := (as_copy getppages (some copy_blk) (some copy_ptblk) copy_source copy_kernel.vm
          copy_kernel.mem).mem }

/-! # Properties -/

/-! ## Word arithmetic -/

theorem toU32_of_range (x : Int) (h0 : 0 ≤ x) (h1 : x < 2 ^ 32) : ((toU32 x : Nat) : Int) = x := by
  unfold toU32
  rw [Int.emod_eq_of_lt h0 h1]
  exact Int.toNat_of_nonneg h0

theorem toU32_lt (x : Int) : toU32 x < 2 ^ 32 := by
  unfold toU32
  have h : x % (2 ^ 32 : Int) < 2 ^ 32 := Int.emod_lt_of_pos x (by norm_num)
  have h0 : 0 ≤ x % (2 ^ 32 : Int) := Int.emod_nonneg x (by norm_num)
  omega

/-! ## `sys_sbrk`, growth branch -/

/-- The growth branch of `sys_sbrk` as one equation. -/
theorem sys_sbrk_pos (H : Nat) (change : Int) (a : addrspace) (vm : vmstate) (hpos : 0 < change) :
    sys_sbrk H change a vm =
      if toU32 ((a.as_vtop_heap : Int) + change) > a.as_vbase_stack then
        { result := errno.ENOMEM, retval := -1, as := a, vm := vm }
      else if toU32 ((toU32 ((a.as_vtop_heap : Int) + change) : Int) - (a.as_vbase_heap : Int))
          > H then
        { result := errno.ENOMEM, retval := -1, as := a, vm := vm }
      else
        { result := errno.OK, retval := toInt32 a.as_vtop_heap,
          as := { a with as_vtop_heap := toU32 ((a.as_vtop_heap : Int) + change) }, vm := vm } := by
  unfold sys_sbrk
  rw [if_neg (by omega), if_neg (by omega)]

/-- C9. For every address space and every positive `change`, `sys_sbrk` fails exactly when
`heap.top + change > stack.base` or `heap.top + change - heap.base > HEAPLIMIT`, the sums and
the difference being those of 32-bit words as the code computes them; when the heap base is
not above the heap top and `heap.top + change` is representable in a 32-bit word (as in every
address space with `heap.base ≤ heap.top ≤ stack.base ≤ USERTOP`) they are the sums and the
difference of the integers. When the call fails it returns `ENOMEM`, stores `-1` in `*retval`,
and leaves the address space (heap top and page table included) and the globals (coremap
included) as they were. -/
theorem sys_sbrk_grow_fails_iff (H : Nat) (change : Int) (a : addrspace) (vm : vmstate)
    (hpos : 0 < change) :
    ((sys_sbrk H change a vm).result ≠ errno.OK ↔
      (toU32 ((a.as_vtop_heap : Int) + change) > a.as_vbase_stack ∨
        toU32 ((toU32 ((a.as_vtop_heap : Int) + change) : Int) - (a.as_vbase_heap : Int)) > H)) ∧
    (a.as_vbase_heap ≤ a.as_vtop_heap → (a.as_vtop_heap : Int) + change < 2 ^ 32 →
      ((sys_sbrk H change a vm).result ≠ errno.OK ↔
        ((a.as_vtop_heap : Int) + change > (a.as_vbase_stack : Int) ∨
          (a.as_vtop_heap : Int) + change - (a.as_vbase_heap : Int) > (H : Int)))) ∧
    ((sys_sbrk H change a vm).result ≠ errno.OK →
      (sys_sbrk H change a vm).result = errno.ENOMEM ∧ (sys_sbrk H change a vm).retval = -1 ∧
      (sys_sbrk H change a vm).as = a ∧ (sys_sbrk H change a vm).vm = vm) := by
  have key : ((sys_sbrk H change a vm).result ≠ errno.OK ↔
      (toU32 ((a.as_vtop_heap : Int) + change) > a.as_vbase_stack ∨
        toU32 ((toU32 ((a.as_vtop_heap : Int) + change) : Int) - (a.as_vbase_heap : Int)) > H)) ∧
      ((sys_sbrk H change a vm).result ≠ errno.OK →
        (sys_sbrk H change a vm).result = errno.ENOMEM ∧ (sys_sbrk H change a vm).retval = -1 ∧
        (sys_sbrk H change a vm).as = a ∧ (sys_sbrk H change a vm).vm = vm) := by
    rw [sys_sbrk_pos H change a vm hpos]
    by_cases c1 : toU32 ((a.as_vtop_heap : Int) + change) > a.as_vbase_stack
    · rw [if_pos c1]
      exact ⟨⟨fun _ => Or.inl c1, fun _ => by simp⟩, fun _ => ⟨rfl, rfl, rfl, rfl⟩⟩
    · rw [if_neg c1]
      by_cases c2 : toU32 ((toU32 ((a.as_vtop_heap : Int) + change) : Int)
          - (a.as_vbase_heap : Int)) > H
      · rw [if_pos c2]
        exact ⟨⟨fun _ => Or.inr c2, fun _ => by simp⟩, fun _ => ⟨rfl, rfl, rfl, rfl⟩⟩
      · rw [if_neg c2]
        refine ⟨⟨fun h => absurd rfl h, fun h => ?_⟩, fun h => absurd rfl h⟩
        rcases h with h | h
        · exact absurd h c1
        · exact absurd h c2
  refine ⟨key.1, fun hbase hrep => ?_, key.2⟩
  have h1 : ((toU32 ((a.as_vtop_heap : Int) + change) : Nat) : Int)
      = (a.as_vtop_heap : Int) + change := toU32_of_range _ (by omega) hrep
  have h2 : ((toU32 ((toU32 ((a.as_vtop_heap : Int) + change) : Int)
      - (a.as_vbase_heap : Int)) : Nat) : Int)
      = (a.as_vtop_heap : Int) + change - (a.as_vbase_heap : Int) := by
    rw [h1]
    exact toU32_of_range _ (by omega) (by omega)
  rw [key.1]
  constructor
  · rintro (h | h)
    · exact Or.inl (by omega)
    · exact Or.inr (by omega)
  · rintro (h | h)
    · exact Or.inl (by omega)
    · exact Or.inr (by omega)

/-- C10. For every positive `change` that `sys_sbrk` accepts, the heap top afterwards is the
32-bit sum of the previous heap top and `change`, which is the previous heap top plus exactly
`change` (no rounding to a page) whenever that sum is representable in a 32-bit word; and
nothing else changes: every other field of the address space, the page table and the globals
(coremap included) are as before. -/
theorem sys_sbrk_grow_exact (H : Nat) (change : Int) (a : addrspace) (vm : vmstate)
    (hpos : 0 < change) (hacc : (sys_sbrk H change a vm).result = errno.OK) :
    (sys_sbrk H change a vm).as.as_vtop_heap = toU32 ((a.as_vtop_heap : Int) + change) ∧
    ((a.as_vtop_heap : Int) + change < 2 ^ 32 →
      ((sys_sbrk H change a vm).as.as_vtop_heap : Int) = (a.as_vtop_heap : Int) + change) ∧
    (sys_sbrk H change a vm).as.pagetable = a.pagetable ∧
    (sys_sbrk H change a vm).as
      = { a with as_vtop_heap := (sys_sbrk H change a vm).as.as_vtop_heap } ∧
    (sys_sbrk H change a vm).vm = vm := by
  rw [sys_sbrk_pos H change a vm hpos] at hacc ⊢
  by_cases c1 : toU32 ((a.as_vtop_heap : Int) + change) > a.as_vbase_stack
  · rw [if_pos c1] at hacc
    exact absurd hacc (by simp)
  · rw [if_neg c1] at hacc ⊢
    by_cases c2 : toU32 ((toU32 ((a.as_vtop_heap : Int) + change) : Int)
        - (a.as_vbase_heap : Int)) > H
    · rw [if_pos c2] at hacc
      exact absurd hacc (by simp)
    · rw [if_neg c2]
      exact ⟨rfl, fun hrep => toU32_of_range _ (by omega) hrep, rfl, rfl, rfl⟩

/-- The failure of growth at a concrete input: from top `0x403000`, a change of `0x7fffffff`
would pass the stack base. -/
theorem sys_sbrk_grow_fails_iff_witness :
    (0 : Int) < 0x7fffffff ∧
    (sys_sbrk scenario_heaplimit 0x7fffffff (scenario_as 0x403000 []) (scenario_vm 0 0)).result
      = errno.ENOMEM ∧
    (sys_sbrk scenario_heaplimit 0x7fffffff (scenario_as 0x403000 []) (scenario_vm 0 0)).retval
      = -1 ∧
    (sys_sbrk scenario_heaplimit 0x7fffffff (scenario_as 0x403000 []) (scenario_vm 0 0)).as
      = scenario_as 0x403000 [] :=
  have h := sys_sbrk_grow_fails_iff scenario_heaplimit 0x7fffffff (scenario_as 0x403000 [])
    (scenario_vm 0 0) (by decide)
  have hf := (h.2.1 (by decide) (by decide)).2 (Or.inl (by decide))
  ⟨by decide, (h.2.2 hf).1, (h.2.2 hf).2.1, (h.2.2 hf).2.2.1⟩

/-- The growth at a concrete input: from top `0x403000`, a change of `8192` gives top
`0x405000`. -/
theorem sys_sbrk_grow_exact_witness :
    ((0 : Int) < 8192 ∧
      (sys_sbrk scenario_heaplimit 8192 (scenario_as 0x403000 []) (scenario_vm 0 0)).result
        = errno.OK) ∧
    (sys_sbrk scenario_heaplimit 8192 (scenario_as 0x403000 []) (scenario_vm 0 0)).as.as_vtop_heap
      = 0x405000 ∧
    (sys_sbrk scenario_heaplimit 8192 (scenario_as 0x403000 []) (scenario_vm 0 0)).vm
      = scenario_vm 0 0 :=
  have h := sys_sbrk_grow_exact scenario_heaplimit 8192 (scenario_as 0x403000 [])
    (scenario_vm 0 0) (by decide) (by decide)
  ⟨⟨by decide, by decide⟩, by exact_mod_cast h.2.1 (by decide), h.2.2.2.2⟩

/-! ## `sys_sbrk`, release branch: the code at concrete inputs -/

/-- C5. The code at the spec's scenario: with heap base and top `0x403000`, `sys_sbrk(+8192)`
succeeds and moves the top to `0x405000`; the following `sys_sbrk(-8192)` returns `0` and
leaves the top at `0x409000`, not at the `0x403000` it had before the growth. -/
theorem sys_sbrk_grow_then_release_top :
    (sys_sbrk scenario_heaplimit 8192 (scenario_as 0x403000 []) (scenario_vm 0 0)).result
      = errno.OK ∧
    (sys_sbrk scenario_heaplimit 8192 (scenario_as 0x403000 []) (scenario_vm 0 0)).as.as_vtop_heap
      = 0x405000 ∧
    (sys_sbrk scenario_heaplimit (-8192)
      (sys_sbrk scenario_heaplimit 8192 (scenario_as 0x403000 []) (scenario_vm 0 0)).as
      (sys_sbrk scenario_heaplimit 8192 (scenario_as 0x403000 []) (scenario_vm 0 0)).vm).result
      = errno.OK ∧
    (sys_sbrk scenario_heaplimit (-8192)
      (sys_sbrk scenario_heaplimit 8192 (scenario_as 0x403000 []) (scenario_vm 0 0)).as
      (sys_sbrk scenario_heaplimit 8192 (scenario_as 0x403000 []) (scenario_vm 0 0)).vm).as.as_vtop_heap
      = 0x409000 := by
  decide

/-- C6. The code at an empty heap (base and top `0x403000`) whose last data page `0x402` is
mapped in frame 0, with `change = -4096`: although `heap.top + change < heap.base`, the call
returns `0` and not `EINVAL`, stores the old top and not `-1`, raises the top to `0x404000`,
resets the page-table entry of the data page and marks frame 0 free. -/
theorem sys_sbrk_release_below_base :
    (0x403000 : Int) + (-4096) < 0x403000 ∧
    (sys_sbrk scenario_heaplimit (-4096)
      (scenario_as 0x403000 [scenario_page 0x402 0, page_entry.unset, page_entry.unset,
        page_entry.unset]) (scenario_vm 1 0)) =
      { result := errno.OK, retval := 0x403000,
        as := scenario_as 0x404000 [page_entry.unset, page_entry.unset, page_entry.unset,
          page_entry.unset],
        vm := { scenario_vm 1 0 with
          coremap := [{ scenario_frame 0x100000 0 with starting_page := 0 },
            scenario_frame 0x101000 0] } } := by
  decide

/-- C7. The code at heap base `0x403000`, top `0x405000` and `change = -8192`, where
`heap.top + change >= heap.base`: the call returns `0`, and the top afterwards is `0x409000`,
which is the old top plus `2 * 8192`, not the old top minus `8192`. -/
theorem sys_sbrk_release_top :
    (0x403000 : Int) ≤ 0x405000 + (-8192) ∧
    (sys_sbrk scenario_heaplimit (-8192) (scenario_as 0x405000 []) (scenario_vm 0 0)).result
      = errno.OK ∧
    (sys_sbrk scenario_heaplimit (-8192) (scenario_as 0x405000 []) (scenario_vm 0 0)).as.as_vtop_heap
      = 0x409000 ∧
    (0x409000 : Int) = 0x405000 + 2 * 8192 := by
  decide

/-- C8. The code at heap base `0x403000`, top `0x405000`, with the two heap pages `0x403` and
`0x404` mapped in frames 0 and 1, and `change = -8192`: only the entry of page `0x404` is
reset and only frame 1 is marked free; the entry of page `0x403`, which lies between
`0x403000` and `0x405000`, is still present in frame 0 and frame 0 is still in use. -/
theorem sys_sbrk_release_entries :
    (sys_sbrk scenario_heaplimit (-8192)
      (scenario_as 0x405000 [scenario_page 0x403 0, scenario_page 0x404 1, page_entry.unset,
        page_entry.unset]) (scenario_vm 1 1)) =
      { result := errno.OK, retval := 0x405000,
        as := scenario_as 0x409000 [scenario_page 0x403 0, page_entry.unset, page_entry.unset,
          page_entry.unset],
        vm := { scenario_vm 1 1 with
          coremap := [scenario_frame 0x100000 1,
            { scenario_frame 0x101000 0 with starting_page := 0 }] } } := by
  decide

/-! ## Releasing coremap entries, `as_destroy` -/

theorem released_released (e : coremap_entry) : e.released.released = e.released := rfl

/-- The coremap entry `k` after the release code has run with index `p`. -/
theorem coremap_release_get (vm : vmstate) (p : Int) (k : Nat) :
    ((coremap_release vm p).coremap[k]? = vm.coremap[k]? ∧ p ≠ (k : Int)) ∨
    ((coremap_release vm p).coremap[k]? = (vm.coremap[k]?).map coremap_entry.released ∧
      p = (k : Int)) := by
  unfold coremap_release
  by_cases hp : 0 ≤ p
  · rw [if_pos hp]
    by_cases hk : p = (k : Int)
    · right
      refine ⟨?_, hk⟩
      subst hk
      rw [Int.toNat_ofNat]
      cases hg : vm.coremap[k]? with
      | none => simpa using hg
      | some e =>
        have hlt : k < vm.coremap.length := by
          rcases List.getElem?_eq_some_iff.mp hg with ⟨h, _⟩
          exact h
        simp [List.getElem?_set_self hlt]
    · left
      refine ⟨?_, hk⟩
      have hne : p.toNat ≠ k := by
        intro h
        apply hk
        rw [← h]
        exact (Int.toNat_of_nonneg hp).symm
      cases hg : vm.coremap[p.toNat]? with
      | none => simp
      | some e => simp [List.getElem?_set_ne hne]
  · rw [if_neg hp]
    left
    exact ⟨rfl, by omega⟩

theorem coremap_release_consts (vm : vmstate) (p : Int) :
    (coremap_release vm p).num_page_frames = vm.num_page_frames ∧
    (coremap_release vm p).first_pageframe_addr = vm.first_pageframe_addr ∧
    (coremap_release vm p).coremap.length = vm.coremap.length := by
  unfold coremap_release
  by_cases hp : 0 ≤ p
  · rw [if_pos hp]
    cases hg : vm.coremap[p.toNat]? with
    | none => simp
    | some e => simp
  · rw [if_neg hp]
    simp

theorem as_destroy_loop_consts (pt : List page_entry) (r : Nat) :
    ∀ (i : Nat) (vm : vmstate),
      (as_destroy_loop pt i r vm).num_page_frames = vm.num_page_frames ∧
      (as_destroy_loop pt i r vm).first_pageframe_addr = vm.first_pageframe_addr ∧
      (as_destroy_loop pt i r vm).coremap.length = vm.coremap.length := by
  induction r with
  | zero => intro i vm; exact ⟨rfl, rfl, rfl⟩
  | succ r ih =>
    intro i vm
    unfold as_destroy_loop
    by_cases hp : (pt_read pt i).present = 1
    · rw [if_pos hp]
      have h1 := ih (i + 1) (coremap_release vm (pt_read pt i).page_frame_num)
      have h2 := coremap_release_consts vm (pt_read pt i).page_frame_num
      exact ⟨h1.1.trans h2.1, h1.2.1.trans h2.2.1, h1.2.2.trans h2.2.2⟩
    · rw [if_neg hp]
      exact ih (i + 1) vm

/-- The coremap entry `k` after the loop of `as_destroy`: released when some slot visited is
present and holds `k`, untouched otherwise. -/
theorem as_destroy_loop_get (pt : List page_entry) (k : Nat) (r : Nat) :
    ∀ (i : Nat) (vm : vmstate),
      ((∃ j, i ≤ j ∧ j < i + r ∧ (pt_read pt j).present = 1 ∧
          (pt_read pt j).page_frame_num = (k : Int)) →
        (as_destroy_loop pt i r vm).coremap[k]? = (vm.coremap[k]?).map coremap_entry.released) ∧
      ((¬ ∃ j, i ≤ j ∧ j < i + r ∧ (pt_read pt j).present = 1 ∧
          (pt_read pt j).page_frame_num = (k : Int)) →
        (as_destroy_loop pt i r vm).coremap[k]? = vm.coremap[k]?) := by
  induction r with
  | zero =>
    intro i vm
    refine ⟨?_, fun _ => rfl⟩
    rintro ⟨j, h1, h2, _⟩
    omega
  | succ r ih =>
    intro i vm
    by_cases hrest : ∃ j, i + 1 ≤ j ∧ j < i + 1 + r ∧ (pt_read pt j).present = 1 ∧
        (pt_read pt j).page_frame_num = (k : Int)
    · -- a later slot holds `k`
      have hall : ∃ j, i ≤ j ∧ j < i + (r + 1) ∧ (pt_read pt j).present = 1 ∧
          (pt_read pt j).page_frame_num = (k : Int) := by
        rcases hrest with ⟨j, h1, h2, h3, h4⟩
        exact ⟨j, by omega, by omega, h3, h4⟩
      refine ⟨fun _ => ?_, fun h => absurd hall h⟩
      unfold as_destroy_loop
      by_cases hp : (pt_read pt i).present = 1
      · rw [if_pos hp, (ih (i + 1) _).1 hrest]
        rcases coremap_release_get vm (pt_read pt i).page_frame_num k with ⟨h, _⟩ | ⟨h, _⟩
        · rw [h]
        · rw [h]
          cases vm.coremap[k]? with
          | none => rfl
          | some e => rfl
      · rw [if_neg hp, (ih (i + 1) _).1 hrest]
    · by_cases hhere : (pt_read pt i).present = 1 ∧ (pt_read pt i).page_frame_num = (k : Int)
      · have hall : ∃ j, i ≤ j ∧ j < i + (r + 1) ∧ (pt_read pt j).present = 1 ∧
            (pt_read pt j).page_frame_num = (k : Int) :=
          ⟨i, le_refl i, by omega, hhere.1, hhere.2⟩
        refine ⟨fun _ => ?_, fun h => absurd hall h⟩
        unfold as_destroy_loop
        rw [if_pos hhere.1, (ih (i + 1) _).2 hrest]
        rcases coremap_release_get vm (pt_read pt i).page_frame_num k with ⟨_, h⟩ | ⟨h, _⟩
        · exact absurd hhere.2 h
        · exact h
      · have hnone : ¬ ∃ j, i ≤ j ∧ j < i + (r + 1) ∧ (pt_read pt j).present = 1 ∧
            (pt_read pt j).page_frame_num = (k : Int) := by
          rintro ⟨j, h1, h2, h3, h4⟩
          by_cases hj : j = i
          · subst hj
            exact hhere ⟨h3, h4⟩
          · exact hrest ⟨j, by omega, by omega, h3, h4⟩
        refine ⟨fun h => absurd h hnone, fun _ => ?_⟩
        unfold as_destroy_loop
        by_cases hp : (pt_read pt i).present = 1
        · rw [if_pos hp, (ih (i + 1) _).2 hrest]
          rcases coremap_release_get vm (pt_read pt i).page_frame_num k with ⟨h, _⟩ | ⟨_, h⟩
          · exact h
          · exact absurd ⟨hp, h⟩ hhere
        · rw [if_neg hp, (ih (i + 1) _).2 hrest]

/-- C4. For every address space, every slot `i` of its page table that is present and every
frame `k` that the slot holds: after `as_destroy` the coremap entry of `k` is the entry it
was with `valid = 0`, the back-reference `v_page` cleared to `NULL` and the run-start flag
`starting_page` cleared to `0` (and the run length set to `1`), so the frame is free and a
later first-fit scan for one frame accepts it. -/
theorem as_destroy_frees_present_frames (a : addrspace) (vm : vmstate) (i k : Nat)
    (e : coremap_entry) (hi : i < vm.num_page_frames * 2)
    (hp : (pt_read a.pagetable i).present = 1)
    (hk : (pt_read a.pagetable i).page_frame_num = (k : Int))
    (he : vm.coremap[k]? = some e) :
    (as_destroy a vm).coremap[k]?
      = some { e with v_page := none, starting_page := 0, num_page_frames := 1, valid := 0 } ∧
    frame_free (as_destroy a vm) k ∧
    run_free (as_destroy a vm).coremap k 1 = true := by
  have hget : (as_destroy a vm).coremap[k]? = some e.released := by
    unfold as_destroy
    rw [(as_destroy_loop_get a.pagetable k (vm.num_page_frames * 2) 0 vm).1
      ⟨i, Nat.zero_le i, by omega, hp, hk⟩, he]
    rfl
  refine ⟨hget, ⟨e.released, hget, rfl⟩, ?_⟩
  simp [run_free, hget, coremap_entry.released]

/-- The release of frames at a concrete input: the second slot of a four-slot table holds
frame 1 of a two-frame machine. -/
theorem as_destroy_frees_present_frames_witness :
    (as_destroy (scenario_as 0x405000 [page_entry.unset, scenario_page 0x404 1,
      page_entry.unset, page_entry.unset]) (scenario_vm 1 1)).coremap[1]?
      = some { scenario_frame 0x101000 0 with starting_page := 0 } :=
  (as_destroy_frees_present_frames (scenario_as 0x405000 [page_entry.unset,
    scenario_page 0x404 1, page_entry.unset, page_entry.unset]) (scenario_vm 1 1) 1 1
    (scenario_frame 0x101000 1) (by decide) (by decide) (by decide) (by decide)).1

/-! ## Frame numbers and frame addresses -/

theorem toInt32_of_lt (n : Nat) (h : n < 2 ^ 31) : toInt32 n = (n : Int) := by
  unfold toInt32
  have h1 : n % 2 ^ 32 = n := Nat.mod_eq_of_lt (by omega)
  rw [h1, if_pos h]

/-- The frame number that `as_copy` computes from the address of frame `k`. -/
theorem frame_index_of_frame (vm : vmstate) (k : Nat) (hk : k < vm.coremap.length)
    (hfit : vm.first_pageframe_addr + PAGE_SIZE * vm.coremap.length ≤ 2 ^ 32) :
    frame_index vm (vm.first_pageframe_addr + k * PAGE_SIZE) = (k : Int) := by
  unfold frame_index
  unfold PAGE_SIZE at hfit ⊢
  have h1 : ((toU32 (((vm.first_pageframe_addr + k * 4096 : Nat) : Int)
      - (vm.first_pageframe_addr : Int)) : Nat) : Int) = ((k * 4096 : Nat) : Int) := by
    rw [toU32_of_range _ (by push_cast; omega) (by push_cast; omega)]
    push_cast
    omega
  have h2 : toU32 (((vm.first_pageframe_addr + k * 4096 : Nat) : Int)
      - (vm.first_pageframe_addr : Int)) = k * 4096 := by exact_mod_cast h1
  rw [h2, Nat.mul_div_cancel k (by norm_num)]
  exact toInt32_of_lt k (by omega)

/-- The physical address that `as_copy` computes for frame `k`. -/
theorem frame_paddr_of_frame (vm : vmstate) (k : Nat) (hk : k < vm.coremap.length)
    (hfit : vm.first_pageframe_addr + PAGE_SIZE * vm.coremap.length ≤ 2 ^ 32) :
    frame_paddr vm (k : Int) = vm.first_pageframe_addr + k * PAGE_SIZE := by
  unfold frame_paddr
  unfold PAGE_SIZE at hfit ⊢
  have h1 : ((toU32 ((k : Int) * ((4096 : Nat) : Int) + (vm.first_pageframe_addr : Int)) : Nat) : Int)
      = ((vm.first_pageframe_addr + k * 4096 : Nat) : Int) := by
    rw [toU32_of_range _ (by push_cast; omega) (by push_cast; omega)]
    push_cast
    omega
  exact_mod_cast h1

theorem pt_read_of_get (pt : List page_entry) (j : Nat) (e : page_entry) (h : pt[j]? = some e) :
    pt_read pt j = e := by
  unfold pt_read
  rw [List.getD_eq_getElem?_getD, h]
  rfl

theorem frame_free_not_in_use (vm : vmstate) (k : Nat) (hf : frame_free vm k)
    (hu : frame_in_use vm k) : False := by
  rcases hf with ⟨e, he, hv⟩
  rcases hu with ⟨e1, he1, hv1⟩
  rw [he] at he1
  cases he1
  exact hv1 hv

theorem frame_free_or_in_use (vm : vmstate) (k : Nat) (hk : k < vm.coremap.length) :
    frame_free vm k ∨ frame_in_use vm k := by
  have h : vm.coremap[k]? = some (vm.coremap[k]) := List.getElem?_eq_getElem hk
  by_cases hv : (vm.coremap[k]).valid = 0
  · exact Or.inl ⟨_, h, hv⟩
  · exact Or.inr ⟨_, h, hv⟩

theorem frame_in_use_lt (vm : vmstate) (k : Nat) (hu : frame_in_use vm k) :
    k < vm.coremap.length := by
  rcases hu with ⟨e, he, _⟩
  rcases List.getElem?_eq_some_iff.mp he with ⟨h, _⟩
  exact h

theorem frame_free_lt (vm : vmstate) (k : Nat) (hu : frame_free vm k) :
    k < vm.coremap.length := by
  rcases hu with ⟨e, he, _⟩
  rcases List.getElem?_eq_some_iff.mp he with ⟨h, _⟩
  exact h

/-! ## `as_create` -/

theorem as_create_loop_length (r : Nat) :
    ∀ (i : Nat) (pt : List page_entry), (as_create_loop i r pt).length = pt.length := by
  induction r with
  | zero => intro i pt; rfl
  | succ r ih =>
    intro i pt
    unfold as_create_loop
    rw [ih, List.length_set]

/-- Every slot that the loop of `as_create` visits is unset afterwards; the others keep
their contents. -/
theorem as_create_loop_get (r : Nat) :
    ∀ (i : Nat) (pt : List page_entry) (j : Nat),
      (i ≤ j → j < i + r → j < pt.length →
        (as_create_loop i r pt)[j]? = some page_entry.unset) ∧
      (j < i → (as_create_loop i r pt)[j]? = pt[j]?) := by
  induction r with
  | zero =>
    intro i pt j
    exact ⟨fun h1 h2 _ => by omega, fun _ => rfl⟩
  | succ r ih =>
    intro i pt j
    unfold as_create_loop
    constructor
    · intro h1 h2 h3
      by_cases hj : j = i
      · subst hj
        rw [(ih (j + 1) (pt.set j page_entry.unset) j).2 (by omega)]
        exact List.getElem?_set_self h3
      · exact (ih (i + 1) (pt.set i page_entry.unset) j).1 (by omega) (by omega)
          (by rw [List.length_set]; exact h3)
    · intro h1
      rw [(ih (i + 1) (pt.set i page_entry.unset) j).2 (by omega)]
      exact List.getElem?_set_ne (by omega)

/-! ## The loop of `as_copy` keeps its invariant -/

theorem pt_read_set_ne (pt : List page_entry) (i j : Nat) (x : page_entry) (h : j ≠ i) :
    pt_read (pt.set i x) j = pt_read pt j := by
  unfold pt_read
  rw [List.getD_eq_getElem?_getD, List.getD_eq_getElem?_getD, List.getElem?_set_ne (Ne.symm h)]

theorem pt_read_set_self (pt : List page_entry) (i : Nat) (x : page_entry) (h : i < pt.length) :
    pt_read (pt.set i x) i = x :=
  pt_read_of_get _ _ _ (List.getElem?_set_self h)

theorem frame_in_use_congr (vm vm1 : vmstate) (k : Nat) (h : vm1.coremap[k]? = vm.coremap[k]?) :
    frame_in_use vm1 k ↔ frame_in_use vm k := by
  unfold frame_in_use
  rw [h]

/-- An iteration of the loop of `as_copy` on an unpresent source slot. -/
theorem copy_inv_skip (old : List page_entry) (n : Nat) (vm0 : vmstate) (mem0 : Nat → Nat)
    (i : Nat) (s : copy_state) (hinv : copy_inv old n vm0 mem0 i s) (hi : i < n)
    (hp : (pt_read old i).present ≠ 1) : copy_inv old n vm0 mem0 (i + 1) s := by
  refine { bound := hi, len := hinv.len, npf := hinv.npf, fpa := hinv.fpa,
           strays := hinv.strays, cmlen := hinv.cmlen, kept := hinv.kept, todo := ?_,
           skipped := ?_, copied := ?_, origin := ?_, distinct := ?_,
           src_bytes := hinv.src_bytes, new_bytes := ?_ }
  · intro j h1 h2
    exact hinv.todo j (by omega) h2
  · intro j h1 h2
    by_cases hj : j = i
    · subst hj
      exact hinv.todo j (le_refl j) hi
    · exact hinv.skipped j (by omega) h2
  · intro j h1 h2
    have hj : j ≠ i := by
      rintro rfl
      exact hp h2
    exact hinv.copied j (by omega) h2
  · intro k hk
    rcases hinv.origin k hk with h | ⟨j, h1, h2, h3⟩
    · exact Or.inl h
    · exact Or.inr ⟨j, by omega, h2, h3⟩
  · intro j1 j2 h1 h2 p1 p2 he
    have hj1 : j1 ≠ i := by
      rintro rfl
      exact hp p1
    have hj2 : j2 ≠ i := by
      rintro rfl
      exact hp p2
    exact hinv.distinct j1 j2 (by omega) (by omega) p1 p2 he
  · intro j h1 h2
    have hj : j ≠ i := by
      rintro rfl
      exact hp h2
    exact hinv.new_bytes j (by omega) h2

/-- An iteration of the loop of `as_copy` on a present source slot, for which the allocator
hands out the free frame `k` and marks it with the entry `e1`. -/
theorem copy_inv_step (old : List page_entry) (n : Nat) (vm0 : vmstate) (mem0 : Nat → Nat)
    (hfit : vm0.first_pageframe_addr + PAGE_SIZE * vm0.coremap.length ≤ 2 ^ 32)
    (i : Nat) (s : copy_state) (hinv : copy_inv old n vm0 mem0 i s) (hi : i < n)
    (hp : (pt_read old i).present = 1) (k : Nat) (e e1 : coremap_entry)
    (hke : s.vm.coremap[k]? = some e) (hev : e.valid = 0) (he1 : e1.valid = 1) :
    copy_inv old n vm0 mem0 (i + 1)
      { pt := s.pt.set i
          { present := 1, virt_frame_num := (pt_read old i).virt_frame_num,
            page_frame_num := (k : Int), in_valid_region := (pt_read old i).in_valid_region },
        vm := { s.vm with coremap := s.vm.coremap.set k e1 },
        mem := memmove s.mem (vm0.first_pageframe_addr + k * PAGE_SIZE)
          (frame_paddr vm0 (pt_read old i).page_frame_num) PAGE_SIZE } := by
  have hfree_s : frame_free s.vm k := ⟨e, hke, hev⟩
  have hklt : k < s.vm.coremap.length := frame_free_lt s.vm k hfree_s
  have hklt0 : k < vm0.coremap.length := by rw [← hinv.cmlen]; exact hklt
  have hfree0 : frame_free vm0 k := by
    rcases frame_free_or_in_use vm0 k hklt0 with h | h
    · exact h
    · exact absurd ((frame_in_use_congr vm0 s.vm k (hinv.kept k h)).mpr h)
        (fun hu => frame_free_not_in_use s.vm k hfree_s hu)
  have hget_ne : ∀ k1, k1 ≠ k → (s.vm.coremap.set k e1)[k1]? = s.vm.coremap[k1]? :=
    fun k1 h => List.getElem?_set_ne (Ne.symm h)
  have hget_self : (s.vm.coremap.set k e1)[k]? = some e1 := List.getElem?_set_self hklt
  have hilt : i < s.pt.length := by rw [hinv.len]; exact hi
  have huse_ne : ∀ k1, frame_in_use s.vm k1 → k1 ≠ k := by
    rintro k1 hu rfl
    exact frame_free_not_in_use s.vm k1 hfree_s hu
  have hcast : ∀ a b : Nat, (a : Int) = (b : Int) → a = b := fun a b h => by exact_mod_cast h
  refine { bound := hi, len := ?_, npf := hinv.npf, fpa := hinv.fpa,
           strays := hinv.strays, cmlen := ?_, kept := ?_, todo := ?_,
           skipped := ?_, copied := ?_, origin := ?_, distinct := ?_,
           src_bytes := ?_, new_bytes := ?_ }
  · show (s.pt.set i _).length = n
    rw [List.length_set]
    exact hinv.len
  · show (s.vm.coremap.set k e1).length = vm0.coremap.length
    rw [List.length_set]
    exact hinv.cmlen
  · intro k1 hu
    show (s.vm.coremap.set k e1)[k1]? = vm0.coremap[k1]?
    have hne : k1 ≠ k := by
      rintro rfl
      exact frame_free_not_in_use vm0 k1 hfree0 hu
    rw [hget_ne k1 hne]
    exact hinv.kept k1 hu
  · intro j h1 h2
    show (s.pt.set i _)[j]? = _
    rw [List.getElem?_set_ne (by omega)]
    exact hinv.todo j (by omega) h2
  · intro j h1 h2
    have hj : j ≠ i := by
      rintro rfl
      exact h2 hp
    show (s.pt.set i _)[j]? = _
    rw [List.getElem?_set_ne (Ne.symm hj)]
    exact hinv.skipped j (by omega) h2
  · intro j h1 h2
    by_cases hj : j = i
    · subst hj
      exact ⟨k, List.getElem?_set_self hilt, hfree0, ⟨e1, hget_self, by rw [he1]; decide⟩⟩
    · rcases hinv.copied j (by omega) h2 with ⟨kj, g1, g2, g3⟩
      refine ⟨kj, ?_, g2, ?_⟩
      · show (s.pt.set i _)[j]? = _
        rw [List.getElem?_set_ne (Ne.symm hj)]
        exact g1
      · exact (frame_in_use_congr s.vm _ kj (hget_ne kj (huse_ne kj g3))).mpr g3
  · intro k1 hu
    by_cases hk1 : k1 = k
    · subst hk1
      right
      refine ⟨i, by omega, hp, ?_⟩
      show (pt_read (s.pt.set i _) i).page_frame_num = _
      rw [pt_read_set_self _ _ _ hilt]
    · have hu1 : frame_in_use s.vm k1 := (frame_in_use_congr s.vm _ k1 (hget_ne k1 hk1)).mp hu
      rcases hinv.origin k1 hu1 with h | ⟨j, g1, g2, g3⟩
      · exact Or.inl h
      · right
        refine ⟨j, by omega, g2, ?_⟩
        show (pt_read (s.pt.set i _) j).page_frame_num = _
        rw [pt_read_set_ne _ _ _ _ (by omega)]
        exact g3
  · intro j1 j2 h1 h2 p1 p2 he
    have hold : ∀ j, j < i → (pt_read old j).present = 1 →
        ∃ kj : Nat, (pt_read s.pt j).page_frame_num = (kj : Int) ∧ kj ≠ k := by
      intro j hj pj
      rcases hinv.copied j hj pj with ⟨kj, g1, _, g3⟩
      exact ⟨kj, by rw [pt_read_of_get _ _ _ g1], huse_ne kj g3⟩
    change (pt_read (s.pt.set i _) j1).page_frame_num
      = (pt_read (s.pt.set i _) j2).page_frame_num at he
    by_cases e1i : j1 = i
    · by_cases e2i : j2 = i
      · rw [e1i, e2i]
      · exfalso
        rcases hold j2 (by omega) p2 with ⟨kj, g1, g2⟩
        rw [e1i, pt_read_set_self _ _ _ hilt, pt_read_set_ne _ _ _ _ e2i, g1] at he
        exact g2 (hcast _ _ he).symm
    · by_cases e2i : j2 = i
      · exfalso
        rcases hold j1 (by omega) p1 with ⟨kj, g1, g2⟩
        rw [e2i, pt_read_set_self _ _ _ hilt, pt_read_set_ne _ _ _ _ e1i, g1] at he
        exact g2 (hcast _ _ he)
      · rw [pt_read_set_ne _ _ _ _ e1i, pt_read_set_ne _ _ _ _ e2i] at he
        exact hinv.distinct j1 j2 (by omega) (by omega) p1 p2 he
  · intro k1 hu b hb
    have hne : k1 ≠ k := by
      rintro rfl
      exact frame_free_not_in_use vm0 k1 hfree0 hu
    show memmove s.mem _ _ _ _ = _
    unfold memmove
    rw [if_neg (by unfold PAGE_SIZE at hb ⊢; omega)]
    exact hinv.src_bytes k1 hu b hb
  · intro j h1 h2 hsrc b hb
    show memmove s.mem _ _ _ (frame_paddr vm0 (pt_read (s.pt.set i _) j).page_frame_num + b) = _
    by_cases hj : j = i
    · subst hj
      rcases hsrc with ⟨ks, g1, g2⟩
      rw [pt_read_set_self _ _ _ hilt]
      show memmove s.mem _ _ _ (frame_paddr vm0 (k : Int) + b) = _
      rw [frame_paddr_of_frame vm0 k hklt0 hfit]
      unfold memmove
      rw [if_pos (by omega), g1,
        frame_paddr_of_frame vm0 ks (frame_in_use_lt vm0 ks g2) hfit]
      have hb1 : vm0.first_pageframe_addr + ks * PAGE_SIZE
          + (vm0.first_pageframe_addr + k * PAGE_SIZE + b
            - (vm0.first_pageframe_addr + k * PAGE_SIZE))
          = vm0.first_pageframe_addr + ks * PAGE_SIZE + b := by omega
      rw [hb1]
      exact hinv.src_bytes ks g2 b hb
    · rcases hinv.copied j (by omega) h2 with ⟨kj, g1, g2, g3⟩
      rw [pt_read_set_ne _ _ _ _ hj]
      have hkj : kj ≠ k := huse_ne kj g3
      have hrd : (pt_read s.pt j).page_frame_num = (kj : Int) := by
        rw [pt_read_of_get _ _ _ g1]
      have hpa : frame_paddr vm0 (pt_read s.pt j).page_frame_num
          = vm0.first_pageframe_addr + kj * PAGE_SIZE := by
        rw [hrd]
        exact frame_paddr_of_frame vm0 kj (frame_free_lt vm0 kj g2) hfit
      unfold memmove
      rw [if_neg (by rw [hpa]; unfold PAGE_SIZE at hb ⊢; omega)]
      exact hinv.new_bytes j (by omega) h2 hsrc b hb

/-- The body of the loop of `as_copy` on a state that satisfies the invariant: when it
completes, the invariant holds for the next iteration; when it stops, the state is the one
described by `copy_fail`. -/
theorem as_copy_body_inv (gp : Nat → vmstate → Nat × List coremap_entry)
    (hgp : getppages_contract gp) (old : List page_entry) (n : Nat) (vm0 : vmstate)
    (mem0 : Nat → Nat)
    (hfpa : 0 < vm0.first_pageframe_addr)
    (hfit : vm0.first_pageframe_addr + PAGE_SIZE * vm0.coremap.length ≤ 2 ^ 32)
    (i : Nat) (s : copy_state) (hinv : copy_inv old n vm0 mem0 i s) (hi : i < n) :
    (∀ s1, as_copy_body gp old i s = Except.ok s1 → copy_inv old n vm0 mem0 (i + 1) s1) ∧
    (∀ s1, as_copy_body gp old i s = Except.error s1 → copy_fail old i s s1) := by
  have hunset : pt_read s.pt i = page_entry.unset :=
    pt_read_of_get _ _ _ (hinv.todo i (le_refl i) hi)
  by_cases hp : (pt_read old i).present = 1
  · rcases hgp s.vm (by rw [hinv.fpa]; exact hfpa) with ⟨hfail, hsucc⟩
    by_cases hz : (gp 1 s.vm).1 = 0
    · have hb : as_copy_body gp old i s = Except.error
          { pt := s.pt.set i
              { present := 1, virt_frame_num := (pt_read old i).virt_frame_num,
                page_frame_num := -1, in_valid_region := (pt_read old i).in_valid_region },
            vm := s.vm, mem := s.mem } := by
        simp only [as_copy_body, if_pos hp, if_pos hz, hunset, hfail hz, hp]
        rfl
      rw [hb]
      refine ⟨fun s1 h => (by cases h), fun s1 h => ?_⟩
      cases h
      exact ⟨hp, rfl, rfl, rfl⟩
    · rcases hsucc hz with ⟨k, e, hke, hev, hpa, e1, he1, hcm⟩
      have hklt : k < s.vm.coremap.length := frame_free_lt s.vm k ⟨e, hke, hev⟩
      have hfit_s : s.vm.first_pageframe_addr + PAGE_SIZE * s.vm.coremap.length ≤ 2 ^ 32 := by
        rw [hinv.fpa, hinv.cmlen]
        exact hfit
      have hidx : frame_index { s.vm with coremap := (gp 1 s.vm).2 } (gp 1 s.vm).1 = (k : Int) := by
        rw [hpa]
        exact frame_index_of_frame s.vm k hklt hfit_s
      have hpad : ∀ x, frame_paddr { s.vm with coremap := (gp 1 s.vm).2 } x = frame_paddr vm0 x := by
        intro x
        unfold frame_paddr
        show toU32 (x * (PAGE_SIZE : Int) + (s.vm.first_pageframe_addr : Int)) = _
        rw [hinv.fpa]
      have hb : as_copy_body gp old i s = Except.ok
          { pt := s.pt.set i
              { present := 1, virt_frame_num := (pt_read old i).virt_frame_num,
                page_frame_num := (k : Int),
                in_valid_region := (pt_read old i).in_valid_region },
            vm := { s.vm with coremap := s.vm.coremap.set k e1 },
            mem := memmove s.mem (vm0.first_pageframe_addr + k * PAGE_SIZE)
              (frame_paddr vm0 (pt_read old i).page_frame_num) PAGE_SIZE } := by
        simp only [as_copy_body, if_pos hp, if_neg hz, hunset, hidx, hpad, hp]
        rw [frame_paddr_of_frame vm0 k (by rw [← hinv.cmlen]; exact hklt) hfit, hcm]
        rfl
      rw [hb]
      refine ⟨fun s1 h => ?_, fun s1 h => by cases h⟩
      cases h
      exact copy_inv_step old n vm0 mem0 hfit i s hinv hi hp k e e1 hke hev he1
  · have hb : as_copy_body gp old i s = Except.ok s := by
      simp only [as_copy_body, if_neg hp]
    rw [hb]
    refine ⟨fun s1 h => ?_, fun s1 h => by cases h⟩
    cases h
    exact copy_inv_skip old n vm0 mem0 i s hinv hi hp

/-- The loop of `as_copy` from a state that satisfies the invariant: when it completes, the
invariant holds after the last slot; when it stops, it stops in some iteration `i1` whose
state before satisfied the invariant. -/
theorem as_copy_loop_inv (gp : Nat → vmstate → Nat × List coremap_entry)
    (hgp : getppages_contract gp) (old : List page_entry) (n : Nat) (vm0 : vmstate)
    (mem0 : Nat → Nat)
    (hfpa : 0 < vm0.first_pageframe_addr)
    (hfit : vm0.first_pageframe_addr + PAGE_SIZE * vm0.coremap.length ≤ 2 ^ 32) (r : Nat) :
    ∀ (i : Nat) (s : copy_state), i + r = n → copy_inv old n vm0 mem0 i s →
      (∀ s1, as_copy_loop gp old i r s = Except.ok s1 → copy_inv old n vm0 mem0 n s1) ∧
      (∀ s1, as_copy_loop gp old i r s = Except.error s1 →
        ∃ i1 s0, i1 < n ∧ copy_inv old n vm0 mem0 i1 s0 ∧ copy_fail old i1 s0 s1) := by
  induction r with
  | zero =>
    intro i s hn hinv
    have hi : i = n := by omega
    subst hi
    refine ⟨fun s1 h => ?_, fun s1 h => ?_⟩
    · unfold as_copy_loop at h
      cases h
      exact hinv
    · unfold as_copy_loop at h
      cases h
  | succ r ih =>
    intro i s hn hinv
    have hi : i < n := by omega
    have hbody := as_copy_body_inv gp hgp old n vm0 mem0 hfpa hfit i s hinv hi
    unfold as_copy_loop
    cases hb : as_copy_body gp old i s with
    | error s2 =>
      refine ⟨fun s1 h => (by cases h), fun s1 h => ?_⟩
      cases h
      exact ⟨i, s, hi, hinv, hbody.2 _ hb⟩
    | ok s2 =>
      exact ih (i + 1) s2 (by omega) (hbody.1 _ hb)

/-! ## `as_copy` -/

/-- The state in which the loop of `as_copy` starts satisfies the invariant. -/
theorem copy_inv_init (old : List page_entry) (vm : vmstate) (mem : Nat → Nat)
    (t : List page_entry) (ht : t.length = vm.num_page_frames * 2) :
    copy_inv old (vm.num_page_frames * 2) vm mem 0
      { pt := as_create_loop 0 (vm.num_page_frames * 2) t, vm := vm, mem := mem } := by
  refine { bound := Nat.zero_le _, len := ?_, npf := rfl, fpa := rfl, strays := rfl,
           cmlen := rfl, kept := fun _ _ => rfl, todo := ?_,
           skipped := fun j h => absurd h (Nat.not_lt_zero j),
           copied := fun j h => absurd h (Nat.not_lt_zero j),
           origin := fun k h => Or.inl h,
           distinct := fun j1 _ h => absurd h (Nat.not_lt_zero j1),
           src_bytes := fun _ _ _ _ => rfl,
           new_bytes := fun j h => absurd h (Nat.not_lt_zero j) }
  · show (as_create_loop 0 (vm.num_page_frames * 2) t).length = _
    rw [as_create_loop_length, ht]
  · intro j h1 h2
    exact (as_create_loop_get (vm.num_page_frames * 2) 0 t j).1 h1 (by omega) (by omega)

/-- The function `as_copy` once both allocations of `as_create` have succeeded. -/
theorem as_copy_some (gp : Nat → vmstate → Nat × List coremap_entry) (b : addrspace)
    (t : List page_entry) (old : addrspace) (vm : vmstate) (mem : Nat → Nat) :
    (∀ s, as_copy_loop gp old.pagetable 0 (vm.num_page_frames * 2)
        { pt := as_create_loop 0 (vm.num_page_frames * 2) t, vm := vm, mem := mem }
        = Except.ok s →
      (as_copy gp (some b) (some t) old vm mem).result = errno.OK ∧
      (∃ new, (as_copy gp (some b) (some t) old vm mem).ret = some new ∧
        new.pagetable = s.pt) ∧
      (as_copy gp (some b) (some t) old vm mem).vm = s.vm ∧
      (as_copy gp (some b) (some t) old vm mem).mem = s.mem) ∧
    (∀ s, as_copy_loop gp old.pagetable 0 (vm.num_page_frames * 2)
        { pt := as_create_loop 0 (vm.num_page_frames * 2) t, vm := vm, mem := mem }
        = Except.error s →
      (as_copy gp (some b) (some t) old vm mem).result = errno.ENOMEM ∧
      (as_copy gp (some b) (some t) old vm mem).ret = none ∧
      (as_copy gp (some b) (some t) old vm mem).vm
        = as_destroy_loop s.pt 0 (s.vm.num_page_frames * 2) s.vm ∧
      (as_copy gp (some b) (some t) old vm mem).mem = s.mem) := by
  constructor
  · intro s hs
    simp [as_copy, as_create, hs]
  · intro s hs
    simp [as_copy, as_create, hs, as_destroy]

/-- A successful `as_copy`: the allocations of `as_create` succeeded, the loop completed, and
the state it ended in, which satisfies the invariant, is what the call leaves behind. -/
theorem as_copy_ok_inv (gp : Nat → vmstate → Nat × List coremap_entry) (blk : Option addrspace)
    (ptblk : Option (List page_entry)) (old : addrspace) (vm : vmstate) (mem : Nat → Nat)
    (hgp : getppages_contract gp) (hfpa : 0 < vm.first_pageframe_addr)
    (hfit : vm.first_pageframe_addr + PAGE_SIZE * vm.coremap.length ≤ 2 ^ 32)
    (hblk : ∀ t, ptblk = some t → t.length = vm.num_page_frames * 2)
    (hok : (as_copy gp blk ptblk old vm mem).result = errno.OK) :
    ∃ new s, (as_copy gp blk ptblk old vm mem).ret = some new ∧ new.pagetable = s.pt ∧
      (as_copy gp blk ptblk old vm mem).vm = s.vm ∧
      (as_copy gp blk ptblk old vm mem).mem = s.mem ∧
      copy_inv old.pagetable (vm.num_page_frames * 2) vm mem (vm.num_page_frames * 2) s := by
  cases blk with
  | none => simp [as_copy, as_create] at hok
  | some b =>
    cases ptblk with
    | none => simp [as_copy, as_create] at hok
    | some t =>
      have hinit := copy_inv_init old.pagetable vm mem t (hblk t rfl)
      have hloop := as_copy_loop_inv gp hgp old.pagetable (vm.num_page_frames * 2) vm mem hfpa hfit
        (vm.num_page_frames * 2) 0 _ (by omega) hinit
      have hsome := as_copy_some gp b t old vm mem
      cases hl : as_copy_loop gp old.pagetable 0 (vm.num_page_frames * 2)
          { pt := as_create_loop 0 (vm.num_page_frames * 2) t, vm := vm, mem := mem } with
      | error s =>
        rw [(hsome.2 s hl).1] at hok
        cases hok
      | ok s =>
        rcases hsome.1 s hl with ⟨_, ⟨new, h1, h2⟩, h3, h4⟩
        exact ⟨new, s, h1, h2, h3, h4, hloop.1 s hl⟩

/-- In a state that satisfies the invariant after the last slot, a present slot of the new
table belongs to a present slot of the source and holds a frame that was free at the start. -/
theorem copy_inv_present (old : List page_entry) (n : Nat) (vm0 : vmstate) (mem0 : Nat → Nat)
    (i : Nat) (s : copy_state) (hinv : copy_inv old n vm0 mem0 i s) (j : Nat) (hj : j < i)
    (hp : (pt_read s.pt j).present = 1) :
    (pt_read old j).present = 1 ∧
    ∃ k : Nat, (pt_read s.pt j).page_frame_num = (k : Int) ∧ frame_free vm0 k ∧
      frame_in_use s.vm k := by
  have hold : (pt_read old j).present = 1 := by
    by_contra hno
    rw [pt_read_of_get _ _ _ (hinv.skipped j hj hno)] at hp
    exact absurd hp (by decide)
  rcases hinv.copied j hj hold with ⟨k, g1, g2, g3⟩
  exact ⟨hold, k, by rw [pt_read_of_get _ _ _ g1], g2, g3⟩

/-- C1. For every source address space whose present entries hold frames that are in use,
on a machine whose frames lie within the 32-bit physical address space above address `0`,
with `getppages` taken to return a frame that was free and to mark it in use: when `as_copy` succeeds, no
frame index held by a present entry of the new page table equals a frame index held by a
present entry of the source page table, and the present entries of the new table hold
pairwise distinct frame indices. -/
theorem as_copy_frames_disjoint (gp : Nat → vmstate → Nat × List coremap_entry)
    (blk : Option addrspace) (ptblk : Option (List page_entry)) (old : addrspace)
    (vm : vmstate) (mem : Nat → Nat) (hgp : getppages_contract gp)
    (hfpa : 0 < vm.first_pageframe_addr)
    (hfit : vm.first_pageframe_addr + PAGE_SIZE * vm.coremap.length ≤ 2 ^ 32)
    (hblk : ∀ t, ptblk = some t → t.length = vm.num_page_frames * 2)
    (hsrc : ∀ j, j < vm.num_page_frames * 2 → (pt_read old.pagetable j).present = 1 →
      ∃ k : Nat, (pt_read old.pagetable j).page_frame_num = (k : Int) ∧ frame_in_use vm k)
    (hok : (as_copy gp blk ptblk old vm mem).result = errno.OK) :
    ∃ new, (as_copy gp blk ptblk old vm mem).ret = some new ∧
      (∀ i j, i < vm.num_page_frames * 2 → j < vm.num_page_frames * 2 →
        (pt_read new.pagetable i).present = 1 → (pt_read old.pagetable j).present = 1 →
        (pt_read new.pagetable i).page_frame_num ≠ (pt_read old.pagetable j).page_frame_num) ∧
      (∀ i j, i < vm.num_page_frames * 2 → j < vm.num_page_frames * 2 →
        (pt_read new.pagetable i).present = 1 → (pt_read new.pagetable j).present = 1 →
        (pt_read new.pagetable i).page_frame_num = (pt_read new.pagetable j).page_frame_num →
        i = j) := by
  rcases as_copy_ok_inv gp blk ptblk old vm mem hgp hfpa hfit hblk hok with
    ⟨new, s, h1, h2, _, _, hinv⟩
  refine ⟨new, h1, ?_, ?_⟩
  · intro i j hi hj pi pj heq
    rw [h2] at pi heq
    rcases copy_inv_present _ _ _ _ _ _ hinv i hi pi with ⟨_, k, g1, g2, _⟩
    rcases hsrc j hj pj with ⟨ks, g3, g4⟩
    rw [g1, g3] at heq
    have hk : k = ks := by exact_mod_cast heq
    rw [hk] at g2
    exact frame_free_not_in_use vm ks g2 g4
  · intro i j hi hj pi pj heq
    rw [h2] at pi pj heq
    exact hinv.distinct i j hi hj (copy_inv_present _ _ _ _ _ _ hinv i hi pi).1
      (copy_inv_present _ _ _ _ _ _ hinv j hj pj).1 heq

/-- C2. For every source address space whose present entries hold frames that are in use,
on a machine whose frames lie within the 32-bit physical address space above address `0`,
with `getppages` taken to return a frame that was free and to mark it in use: when `as_copy`
succeeds, for every page-table slot `i` that is present in the source, each of the
`PAGE_SIZE` bytes of the frame of the new table's entry `i` after the call equals the byte
at the same offset that the frame of the source's entry `i` held when the call started. -/
theorem as_copy_page_contents (gp : Nat → vmstate → Nat × List coremap_entry)
    (blk : Option addrspace) (ptblk : Option (List page_entry)) (old : addrspace)
    (vm : vmstate) (mem : Nat → Nat) (hgp : getppages_contract gp)
    (hfpa : 0 < vm.first_pageframe_addr)
    (hfit : vm.first_pageframe_addr + PAGE_SIZE * vm.coremap.length ≤ 2 ^ 32)
    (hblk : ∀ t, ptblk = some t → t.length = vm.num_page_frames * 2)
    (hsrc : ∀ j, j < vm.num_page_frames * 2 → (pt_read old.pagetable j).present = 1 →
      ∃ k : Nat, (pt_read old.pagetable j).page_frame_num = (k : Int) ∧ frame_in_use vm k)
    (hok : (as_copy gp blk ptblk old vm mem).result = errno.OK) :
    ∃ new, (as_copy gp blk ptblk old vm mem).ret = some new ∧
      ∀ i, i < vm.num_page_frames * 2 → (pt_read old.pagetable i).present = 1 →
        ∀ b, b < PAGE_SIZE →
          (as_copy gp blk ptblk old vm mem).mem
              (frame_paddr vm (pt_read new.pagetable i).page_frame_num + b)
            = mem (frame_paddr vm (pt_read old.pagetable i).page_frame_num + b) := by
  rcases as_copy_ok_inv gp blk ptblk old vm mem hgp hfpa hfit hblk hok with
    ⟨new, s, h1, h2, _, h4, hinv⟩
  refine ⟨new, h1, ?_⟩
  intro i hi pi b hb
  rw [h2, h4]
  exact hinv.new_bytes i hi pi (hsrc i hi pi) b hb

/-! ## The first-fit allocator meets the contract that `as_copy` relies on -/

theorem find_run_free (cm : List coremap_entry) (n : Nat) (r : Nat) :
    ∀ (i k : Nat), find_run cm n i r = some k → run_free cm k n = true := by
  induction r with
  | zero =>
    intro i k h
    unfold find_run at h
    cases h
  | succ r ih =>
    intro i k h
    unfold find_run at h
    by_cases hf : run_free cm i n = true
    · rw [if_pos hf] at h
      cases h
      exact hf
    · rw [if_neg hf] at h
      exact ih (i + 1) k h

theorem run_free_one (cm : List coremap_entry) (k : Nat) (h : run_free cm k 1 = true) :
    ∃ e, cm[k]? = some e ∧ e.valid = 0 := by
  unfold run_free at h
  cases hg : cm[k]? with
  | none => simp [List.range_succ, hg] at h
  | some e =>
    refine ⟨e, rfl, ?_⟩
    simpa [List.range_succ, hg] using h

theorem mark_run_one (cm : List coremap_entry) (k : Nat) (e : coremap_entry)
    (h : cm[k]? = some e) :
    mark_run cm k 1
      = cm.set k { e with valid := 1, starting_page := 1, num_page_frames := 1 } := by
  simp [mark_run, List.range_succ, h]

/-- The allocator modelled from the spec meets `getppages_contract`. -/
theorem getppages_meets_contract : getppages_contract getppages := by
  intro vm hfpa
  unfold getppages
  cases hf : find_run vm.coremap 1 0 vm.num_page_frames with
  | none =>
    exact ⟨fun _ => rfl, fun h => absurd rfl h⟩
  | some k =>
    rcases run_free_one vm.coremap k (find_run_free vm.coremap 1 vm.num_page_frames 0 k hf)
      with ⟨e, he, hv⟩
    constructor
    · intro h
      exfalso
      have h0 : vm.first_pageframe_addr + k * PAGE_SIZE = 0 := h
      omega
    · intro _
      exact ⟨k, e, he, hv, rfl,
        { e with valid := 1, starting_page := 1, num_page_frames := 1 }, rfl,
        mark_run_one vm.coremap k e he⟩

/-! ## `as_copy` when an allocation fails -/

theorem frame_free_iff (vm : vmstate) (k : Nat) :
    frame_free vm k ↔ k < vm.coremap.length ∧ ¬ frame_in_use vm k := by
  constructor
  · intro h
    exact ⟨frame_free_lt vm k h, fun hu => frame_free_not_in_use vm k h hu⟩
  · rintro ⟨h1, h2⟩
    rcases frame_free_or_in_use vm k h1 with h | h
    · exact h
    · exact absurd h h2

/-- The cleanup of `as_copy`: `as_destroy` on the table in which the loop stopped gives back
exactly the frames that the loop had taken. -/
theorem copy_fail_destroy (old : List page_entry) (n : Nat) (vm0 : vmstate) (mem0 : Nat → Nat)
    (i1 : Nat) (s0 s1 : copy_state) (hi1 : i1 < n) (hinv : copy_inv old n vm0 mem0 i1 s0)
    (hf : copy_fail old i1 s0 s1) (k : Nat) :
    frame_in_use (as_destroy_loop s1.pt 0 n s1.vm) k ↔ frame_in_use vm0 k := by
  rcases hf with ⟨hp, hpt, hvm, _⟩
  have hilt : i1 < s0.pt.length := by rw [hinv.len]; exact hi1
  have r1 : ∀ j, j ≠ i1 → pt_read s1.pt j = pt_read s0.pt j := by
    intro j hj
    rw [hpt]
    exact pt_read_set_ne _ _ _ _ hj
  have r2 : (pt_read s1.pt i1).page_frame_num = -1 := by
    rw [hpt, pt_read_set_self _ _ _ hilt]
  have hget := as_destroy_loop_get s1.pt k n 0 s1.vm
  by_cases hex : ∃ j, 0 ≤ j ∧ j < 0 + n ∧ (pt_read s1.pt j).present = 1 ∧
      (pt_read s1.pt j).page_frame_num = (k : Int)
  · have hrel := hget.1 hex
    have hno1 : ¬ frame_in_use (as_destroy_loop s1.pt 0 n s1.vm) k := by
      rintro ⟨e, he, hv⟩
      rw [hrel] at he
      cases hc : s1.vm.coremap[k]? with
      | none => rw [hc] at he; cases he
      | some e0 =>
        rw [hc] at he
        cases he
        exact hv rfl
    have hno0 : ¬ frame_in_use vm0 k := by
      intro hu
      rcases hex with ⟨j, _, hjn, pj, hk⟩
      by_cases hj : j = i1
      · rw [hj, r2] at hk
        omega
      · rw [r1 j hj] at pj hk
        by_cases hlt : j < i1
        · rcases copy_inv_present _ _ _ _ _ _ hinv j hlt pj with ⟨_, kj, g1, g2, _⟩
          rw [g1] at hk
          have hkk : kj = k := by exact_mod_cast hk
          rw [hkk] at g2
          exact frame_free_not_in_use vm0 k g2 hu
        · rw [pt_read_of_get _ _ _ (hinv.todo j (by omega) (by omega))] at pj
          exact absurd pj (by decide)
    exact ⟨fun h => absurd h hno1, fun h => absurd h hno0⟩
  · have hsame : (as_destroy_loop s1.pt 0 n s1.vm).coremap[k]? = s0.vm.coremap[k]? := by
      rw [hget.2 hex, hvm]
    rw [frame_in_use_congr s0.vm _ k hsame]
    constructor
    · intro hu
      rcases hinv.origin k hu with h | ⟨j, hj, pj, hk⟩
      · exact h
      · exfalso
        apply hex
        rcases hinv.copied j hj pj with ⟨kj, g1, _, _⟩
        refine ⟨j, Nat.zero_le j, by omega, ?_, ?_⟩
        · rw [r1 j (by omega), pt_read_of_get _ _ _ g1]
        · rw [r1 j (by omega)]
          exact hk
    · intro hu
      exact (frame_in_use_congr vm0 s0.vm k (hinv.kept k hu)).mpr hu

/-- Every call of `as_copy` that does not return `0`, on a machine whose frames lie within
the 32-bit physical address space above address `0`, with `getppages` taken to return `0`
without effect or a frame that was free, marked in use: it returns `ENOMEM`, stores nothing
through `ret`, and the frames in use after the call are exactly the frames in use before the
call (and the free frames exactly the frames free before). -/
theorem as_copy_not_ok (gp : Nat → vmstate → Nat × List coremap_entry)
    (blk : Option addrspace) (ptblk : Option (List page_entry)) (old : addrspace)
    (vm : vmstate) (mem : Nat → Nat) (hgp : getppages_contract gp)
    (hfpa : 0 < vm.first_pageframe_addr)
    (hfit : vm.first_pageframe_addr + PAGE_SIZE * vm.coremap.length ≤ 2 ^ 32)
    (hblk : ∀ t, ptblk = some t → t.length = vm.num_page_frames * 2)
    (hfail : (as_copy gp blk ptblk old vm mem).result ≠ errno.OK) :
    (as_copy gp blk ptblk old vm mem).result = errno.ENOMEM ∧
    (as_copy gp blk ptblk old vm mem).ret = none ∧
    (as_copy gp blk ptblk old vm mem).vm.coremap.length = vm.coremap.length ∧
    (∀ k, frame_in_use (as_copy gp blk ptblk old vm mem).vm k ↔ frame_in_use vm k) ∧
    (∀ k, frame_free (as_copy gp blk ptblk old vm mem).vm k ↔ frame_free vm k) := by
  have key : (as_copy gp blk ptblk old vm mem).result = errno.ENOMEM ∧
      (as_copy gp blk ptblk old vm mem).ret = none ∧
      (as_copy gp blk ptblk old vm mem).vm.coremap.length = vm.coremap.length ∧
      (∀ k, frame_in_use (as_copy gp blk ptblk old vm mem).vm k ↔ frame_in_use vm k) := by
    cases blk with
    | none => exact ⟨rfl, rfl, rfl, fun _ => Iff.rfl⟩
    | some b =>
      cases ptblk with
      | none => exact ⟨rfl, rfl, rfl, fun _ => Iff.rfl⟩
      | some t =>
        have hinit := copy_inv_init old.pagetable vm mem t (hblk t rfl)
        have hloop := as_copy_loop_inv gp hgp old.pagetable (vm.num_page_frames * 2) vm mem
          hfpa hfit (vm.num_page_frames * 2) 0 _ (by omega) hinit
        have hsome := as_copy_some gp b t old vm mem
        cases hl : as_copy_loop gp old.pagetable 0 (vm.num_page_frames * 2)
            { pt := as_create_loop 0 (vm.num_page_frames * 2) t, vm := vm, mem := mem } with
        | ok s => exact absurd (hsome.1 s hl).1 hfail
        | error s =>
          rcases hsome.2 s hl with ⟨h1, h2, h3, _⟩
          rcases hloop.2 s hl with ⟨i1, s0, hi1, hinv, hcf⟩
          have hnpf : s.vm.num_page_frames = vm.num_page_frames := by
            rw [hcf.2.2.1]
            exact hinv.npf
          rw [hnpf] at h3
          refine ⟨h1, h2, ?_, ?_⟩
          · rw [h3, (as_destroy_loop_consts s.pt (vm.num_page_frames * 2) 0 s.vm).2.2,
              hcf.2.2.1]
            exact hinv.cmlen
          · intro k
            rw [h3]
            exact copy_fail_destroy old.pagetable (vm.num_page_frames * 2) vm mem i1 s0 s hi1
              hinv hcf k
  refine ⟨key.1, key.2.1, key.2.2.1, key.2.2.2, fun k => ?_⟩
  rw [frame_free_iff, frame_free_iff, key.2.2.1, key.2.2.2 k]

/-- A completed run of the first `r1` iterations of the loop of `as_copy` is the start of
every longer run. -/
theorem as_copy_loop_prefix (gp : Nat → vmstate → Nat × List coremap_entry)
    (old : List page_entry) (r2 : Nat) (r1 : Nat) :
    ∀ (i : Nat) (s s1 : copy_state), as_copy_loop gp old i r1 s = Except.ok s1 →
      as_copy_loop gp old i (r1 + r2) s = as_copy_loop gp old (i + r1) r2 s1 := by
  induction r1 with
  | zero =>
    intro i s s1 h
    unfold as_copy_loop at h
    cases h
    rw [Nat.zero_add, Nat.add_zero]
  | succ r1 ih =>
    intro i s s1 h
    have hr : r1 + 1 + r2 = (r1 + r2) + 1 := by omega
    have hstep : ∀ r, as_copy_loop gp old i (r + 1) s
        = (match as_copy_body gp old i s with
          | Except.error s2 => Except.error s2
          | Except.ok s2 => as_copy_loop gp old (i + 1) r s2) := fun _ => rfl
    have hi : i + (r1 + 1) = i + 1 + r1 := by omega
    rw [hr, hstep, hi]
    rw [hstep] at h
    cases hb : as_copy_body gp old i s with
    | error s2 =>
      rw [hb] at h
      cases h
    | ok s2 =>
      rw [hb] at h
      exact ih (i + 1) s2 s1 h

/-- The loop of `as_copy` stops in the iteration of a present source slot in which
`getppages` returns `0`. -/
theorem as_copy_loop_stops (gp : Nat → vmstate → Nat × List coremap_entry)
    (old : List page_entry) (i r : Nat) (s : copy_state) (hp : (pt_read old i).present = 1)
    (hzero : (gp 1 s.vm).1 = 0) :
    ∃ s1, as_copy_loop gp old i (r + 1) s = Except.error s1 := by
  have hb : ∃ s1, as_copy_body gp old i s = Except.error s1 := by
    unfold as_copy_body
    rw [if_pos hp]
    dsimp only
    rw [if_pos hzero]
    exact ⟨_, rfl⟩
  rcases hb with ⟨s1, hb⟩
  have hstep : as_copy_loop gp old i (r + 1) s
      = (match as_copy_body gp old i s with
        | Except.error s2 => Except.error s2
        | Except.ok s2 => as_copy_loop gp old (i + 1) r s2) := rfl
  rw [hstep, hb]
  exact ⟨s1, rfl⟩

/-- C3. `as_copy` is all-or-nothing, on a machine whose frames lie within the 32-bit physical
address space above address `0`, with `getppages` taken to return `0` without effect or a
frame that was free, marked in use. When `getppages` fails for a present source entry, that
is, when the loop of `as_copy` has completed the iterations `0, ..., i1 - 1` and is in the
state `s0`, the source slot `i1` is present and `getppages(1)` returns `0` in that state:
`as_copy` returns `ENOMEM`, stores nothing through `ret`, and the frames in use after the
call are exactly the frames in use before the call (and the free frames exactly the frames
free before), every frame taken for the unfinished copy being free again. -/
theorem as_copy_all_or_nothing (gp : Nat → vmstate → Nat × List coremap_entry)
    (b : addrspace) (t : List page_entry) (old : addrspace) (vm : vmstate) (mem : Nat → Nat)
    (hgp : getppages_contract gp) (hfpa : 0 < vm.first_pageframe_addr)
    (hfit : vm.first_pageframe_addr + PAGE_SIZE * vm.coremap.length ≤ 2 ^ 32)
    (ht : t.length = vm.num_page_frames * 2) (i1 : Nat) (s0 : copy_state)
    (hi1 : i1 < vm.num_page_frames * 2)
    (hrun : as_copy_loop gp old.pagetable 0 i1
      { pt := as_create_loop 0 (vm.num_page_frames * 2) t, vm := vm, mem := mem }
        = Except.ok s0)
    (hp : (pt_read old.pagetable i1).present = 1) (hzero : (gp 1 s0.vm).1 = 0) :
    (as_copy gp (some b) (some t) old vm mem).result = errno.ENOMEM ∧
    (as_copy gp (some b) (some t) old vm mem).ret = none ∧
    (as_copy gp (some b) (some t) old vm mem).vm.coremap.length = vm.coremap.length ∧
    (∀ k, frame_in_use (as_copy gp (some b) (some t) old vm mem).vm k ↔ frame_in_use vm k) ∧
    (∀ k, frame_free (as_copy gp (some b) (some t) old vm mem).vm k ↔ frame_free vm k) := by
  have hn : vm.num_page_frames * 2 = i1 + ((vm.num_page_frames * 2 - i1 - 1) + 1) := by omega
  have hsplit := as_copy_loop_prefix gp old.pagetable ((vm.num_page_frames * 2 - i1 - 1) + 1)
    i1 0 _ s0 hrun
  rw [← hn, Nat.zero_add] at hsplit
  rcases as_copy_loop_stops gp old.pagetable i1 (vm.num_page_frames * 2 - i1 - 1) s0 hp hzero
    with ⟨s1, hs1⟩
  rw [hs1] at hsplit
  have hres := ((as_copy_some gp b t old vm mem).2 s1 hsplit).1
  exact as_copy_not_ok gp (some b) (some t) old vm mem hgp hfpa hfit
    (fun t1 h1 => by cases h1; exact ht) (by rw [hres]; decide)

/-! ## The theorems on `as_copy` at concrete inputs -/

theorem copy_source_in_use (v2 v3 : Int) :
    ∀ j, j < (copy_vm v2 v3).num_page_frames * 2 →
      (pt_read copy_source.pagetable j).present = 1 →
      ∃ k : Nat, (pt_read copy_source.pagetable j).page_frame_num = (k : Int) ∧
        frame_in_use (copy_vm v2 v3) k := by
  intro j hj hp
  have hj8 : j < 8 := hj
  interval_cases j
  · exact ⟨0, rfl, ⟨scenario_frame 0x100000 1, rfl, by decide⟩⟩
  · exact absurd hp (by decide)
  · exact ⟨1, rfl, ⟨scenario_frame 0x101000 1, rfl, by decide⟩⟩
  · exact absurd hp (by decide)
  · exact absurd hp (by decide)
  · exact absurd hp (by decide)
  · exact absurd hp (by decide)
  · exact absurd hp (by decide)

theorem copy_ptblk_length (v2 v3 : Int) :
    ∀ t, some copy_ptblk = some t → t.length = (copy_vm v2 v3).num_page_frames * 2 := by
  intro t h
  cases h
  rfl

/-- The disjointness of frames at a concrete input: the copy of `copy_source` with frames 2 and 3
free succeeds and its two present entries hold frames 2 and 3. -/
theorem as_copy_frames_disjoint_witness :
    ∃ new, (as_copy getppages (some copy_blk) (some copy_ptblk) copy_source (copy_vm 0 0)
        copy_mem).ret = some new ∧
      (∀ i j, i < (copy_vm 0 0).num_page_frames * 2 → j < (copy_vm 0 0).num_page_frames * 2 →
        (pt_read new.pagetable i).present = 1 → (pt_read copy_source.pagetable j).present = 1 →
        (pt_read new.pagetable i).page_frame_num
          ≠ (pt_read copy_source.pagetable j).page_frame_num) ∧
      (∀ i j, i < (copy_vm 0 0).num_page_frames * 2 → j < (copy_vm 0 0).num_page_frames * 2 →
        (pt_read new.pagetable i).present = 1 → (pt_read new.pagetable j).present = 1 →
        (pt_read new.pagetable i).page_frame_num = (pt_read new.pagetable j).page_frame_num →
        i = j) :=
  as_copy_frames_disjoint getppages (some copy_blk) (some copy_ptblk) copy_source (copy_vm 0 0)
    copy_mem getppages_meets_contract (by decide) (by decide) (copy_ptblk_length 0 0)
    (copy_source_in_use 0 0) (by decide)

/-- The page contents at a concrete input: after the copy of `copy_source`, byte 5 of frame 2
(the frame of the new slot 0) is byte 5 of frame 0 (the frame of the source's slot 0). -/
theorem as_copy_page_contents_witness :
    ∃ new, (as_copy getppages (some copy_blk) (some copy_ptblk) copy_source (copy_vm 0 0)
        copy_mem).ret = some new ∧
      ∀ i, i < (copy_vm 0 0).num_page_frames * 2 →
        (pt_read copy_source.pagetable i).present = 1 →
        ∀ b, b < PAGE_SIZE →
          (as_copy getppages (some copy_blk) (some copy_ptblk) copy_source (copy_vm 0 0)
              copy_mem).mem (frame_paddr (copy_vm 0 0) (pt_read new.pagetable i).page_frame_num + b)
            = copy_mem
              (frame_paddr (copy_vm 0 0) (pt_read copy_source.pagetable i).page_frame_num + b) :=
  as_copy_page_contents getppages (some copy_blk) (some copy_ptblk) copy_source (copy_vm 0 0)
    copy_mem getppages_meets_contract (by decide) (by decide) (copy_ptblk_length 0 0)
    (copy_source_in_use 0 0) (by decide)

/-- The failure path at a concrete input: with frame 2 the only free frame, the loop of
`as_copy` completes the iterations 0 and 1 for `copy_source`, taking frame 2 for slot 0, and
`getppages` returns `0` for the present slot 2; the call returns `ENOMEM`, stores nothing, and
frame 2 is free again. -/
theorem as_copy_all_or_nothing_witness :
    (pt_read copy_source.pagetable 2).present = 1 ∧
    (as_copy getppages (some copy_blk) (some copy_ptblk) copy_source (copy_vm 0 1)
      copy_mem).result = errno.ENOMEM ∧
    (as_copy getppages (some copy_blk) (some copy_ptblk) copy_source (copy_vm 0 1)
      copy_mem).ret = none ∧
    (as_copy getppages (some copy_blk) (some copy_ptblk) copy_source (copy_vm 0 1)
      copy_mem).vm.coremap.length = (copy_vm 0 1).coremap.length ∧
    (∀ k, frame_in_use (as_copy getppages (some copy_blk) (some copy_ptblk) copy_source
      (copy_vm 0 1) copy_mem).vm k ↔ frame_in_use (copy_vm 0 1) k) ∧
    (∀ k, frame_free (as_copy getppages (some copy_blk) (some copy_ptblk) copy_source
      (copy_vm 0 1) copy_mem).vm k ↔ frame_free (copy_vm 0 1) k) :=
  ⟨by decide,
   as_copy_all_or_nothing getppages copy_blk copy_ptblk copy_source (copy_vm 0 1) copy_mem
    getppages_meets_contract (by decide) (by decide) rfl 2 _ (by decide) rfl (by decide)
    (by decide)⟩

/-! ## The value stored in `*retval` by `sys_sbrk` -/

theorem toU32_toInt32 (n : Nat) : toU32 (toInt32 n) = n % 2 ^ 32 := by
  unfold toU32 toInt32
  have hlt : n % 2 ^ 32 < 2 ^ 32 := Nat.mod_lt n (by norm_num)
  by_cases h : n % 2 ^ 32 < 2 ^ 31
  · rw [if_pos h]
    omega
  · rw [if_neg h]
    omega

/-- C11. On every call of `sys_sbrk` that returns `0`, whether `change` is zero, positive or
negative, the value stored in `*retval` is the heap top as it was before the call, converted
to `int`: the same 32-bit word, and the same number whenever the top is below `2 ^ 31`. On
every call that does not return `0`, `*retval` is `-1` and the result is one of the error
codes `EINVAL` and `ENOMEM`. -/
theorem sys_sbrk_retval (H : Nat) (change : Int) (a : addrspace) (vm : vmstate) :
    ((sys_sbrk H change a vm).result = errno.OK →
      (sys_sbrk H change a vm).retval = toInt32 a.as_vtop_heap ∧
      toU32 (sys_sbrk H change a vm).retval = a.as_vtop_heap % 2 ^ 32 ∧
      (a.as_vtop_heap < 2 ^ 31 → (sys_sbrk H change a vm).retval = (a.as_vtop_heap : Int))) ∧
    ((sys_sbrk H change a vm).result ≠ errno.OK →
      (sys_sbrk H change a vm).retval = -1 ∧
      ((sys_sbrk H change a vm).result = errno.EINVAL ∨
        (sys_sbrk H change a vm).result = errno.ENOMEM)) := by
  have key : ((sys_sbrk H change a vm).result = errno.OK ∧
        (sys_sbrk H change a vm).retval = toInt32 a.as_vtop_heap) ∨
      ((sys_sbrk H change a vm).retval = -1 ∧
        ((sys_sbrk H change a vm).result = errno.EINVAL ∨
          (sys_sbrk H change a vm).result = errno.ENOMEM)) := by
    unfold sys_sbrk
    by_cases h0 : change = 0
    · rw [if_pos h0]
      exact Or.inl ⟨rfl, rfl⟩
    · rw [if_neg h0]
      by_cases hneg : change < 0
      · rw [if_pos hneg]
        by_cases hg : toU32 ((a.as_vtop_heap : Int) - change) < a.as_vbase_heap
        · rw [if_pos hg]
          exact Or.inr ⟨rfl, Or.inl rfl⟩
        · rw [if_neg hg]
          exact Or.inl ⟨rfl, rfl⟩
      · rw [if_neg hneg]
        by_cases c1 : toU32 ((a.as_vtop_heap : Int) + change) > a.as_vbase_stack
        · rw [if_pos c1]
          exact Or.inr ⟨rfl, Or.inr rfl⟩
        · rw [if_neg c1]
          by_cases c2 : toU32 ((toU32 ((a.as_vtop_heap : Int) + change) : Int)
              - (a.as_vbase_heap : Int)) > H
          · rw [if_pos c2]
            exact Or.inr ⟨rfl, Or.inr rfl⟩
          · rw [if_neg c2]
            exact Or.inl ⟨rfl, rfl⟩
  constructor
  · intro hok
    rcases key with ⟨_, h⟩ | ⟨_, h | h⟩
    · refine ⟨h, ?_, fun hlt => ?_⟩
      · rw [h]
        exact toU32_toInt32 _
      · rw [h]
        exact toInt32_of_lt _ hlt
    · rw [h] at hok
      cases hok
    · rw [h] at hok
      cases hok
  · intro hno
    rcases key with ⟨h, _⟩ | h
    · exact absurd h hno
    · exact h

/-- The value stored by `sys_sbrk` at concrete inputs: the old top `0x405000` on a release
of `8192` bytes, and `-1` with `ENOMEM` on a growth past the stack. -/
theorem sys_sbrk_retval_witness :
    (sys_sbrk scenario_heaplimit (-8192) (scenario_as 0x405000 []) (scenario_vm 0 0)).retval
      = 0x405000 ∧
    (sys_sbrk scenario_heaplimit 0x7fffffff (scenario_as 0x405000 []) (scenario_vm 0 0)).retval
      = -1 :=
  ⟨((sys_sbrk_retval scenario_heaplimit (-8192) (scenario_as 0x405000 [])
      (scenario_vm 0 0)).1 (by decide)).2.2 (by decide),
   ((sys_sbrk_retval scenario_heaplimit 0x7fffffff (scenario_as 0x405000 [])
      (scenario_vm 0 0)).2 (by decide)).1⟩

/-! ## `sys_sbrk(0)` -/

/-- C12. For every address space, `sys_sbrk(0)` returns `0`, stores the current heap top in
`*retval` (converted to `int`: the same number whenever the top is below `2 ^ 31`), and
leaves the address space (heap top and page table included) and the globals (coremap
included) as they were; so after any number `n` of such calls the state is still the one
before the first, and one more call stores the same top. -/
theorem sys_sbrk_zero (H : Nat) (a : addrspace) (vm : vmstate) :
    sys_sbrk H 0 a vm
      = { result := errno.OK, retval := toInt32 a.as_vtop_heap, as := a, vm := vm } ∧
    (a.as_vtop_heap < 2 ^ 31 → (sys_sbrk H 0 a vm).retval = (a.as_vtop_heap : Int)) ∧
    ∀ n : Nat, sys_sbrk_repeat H 0 n a vm = (a, vm) ∧
      sys_sbrk H 0 (sys_sbrk_repeat H 0 n a vm).1 (sys_sbrk_repeat H 0 n a vm).2
        = { result := errno.OK, retval := toInt32 a.as_vtop_heap, as := a, vm := vm } := by
  have h0 : ∀ (b : addrspace) (v : vmstate), sys_sbrk H 0 b v
      = { result := errno.OK, retval := toInt32 b.as_vtop_heap, as := b, vm := v } := by
    intro b v
    unfold sys_sbrk
    rw [if_pos rfl]
  have hrep : ∀ n : Nat, sys_sbrk_repeat H 0 n a vm = (a, vm) := by
    intro n
    induction n with
    | zero => rfl
    | succ n ih =>
      unfold sys_sbrk_repeat
      rw [h0 a vm]
      exact ih
  refine ⟨h0 a vm, fun hlt => ?_, fun n => ⟨hrep n, ?_⟩⟩
  · rw [h0 a vm]
    exact toInt32_of_lt _ hlt
  · rw [hrep n]
    exact h0 a vm

/-! ## Alignment arithmetic of `as_define_region` -/

theorem toU32_natCast (n : Nat) : toU32 ((n : Nat) : Int) = n % 2 ^ 32 := by
  unfold toU32
  omega

theorem and_PAGE_FRAME (x : Nat) : x &&& PAGE_FRAME = x % 2 ^ 32 / 4096 * 4096 := by
  have h1 : PAGE_FRAME = (2 ^ 20 - 1) <<< 12 := by decide
  have h2 : x % 2 ^ 32 / 4096 * 4096 = ((x % 2 ^ 32) >>> 12) <<< 12 := by
    rw [Nat.shiftLeft_eq, Nat.shiftRight_eq_div_pow]
  rw [h1, h2]
  apply Nat.eq_of_testBit_eq
  intro i
  simp only [Nat.testBit_and, Nat.testBit_shiftLeft, Nat.testBit_shiftRight,
    Nat.testBit_two_pow_sub_one, Nat.testBit_mod_two_pow]
  by_cases h : 12 ≤ i
  · have e : 12 + (i - 12) = i := by omega
    by_cases h3 : i < 32
    · have h4 : i - 12 < 20 := by omega
      simp [h, e, h3, h4]
    · have h4 : ¬ (i - 12 < 20) := by omega
      simp [h, e, h3, h4]
  · simp [h]

theorem and_not32_PAGE_FRAME (x : Nat) : x &&& not32 PAGE_FRAME = x % 4096 := by
  have h1 : not32 PAGE_FRAME = 2 ^ 12 - 1 := by decide
  rw [h1, Nat.and_pow_two_sub_one_eq_mod]

/-- The recorded base of a region, as a quotient. -/
theorem region_vaddr_eq (vaddr : Nat) (h : vaddr < 2 ^ 32) :
    region_vaddr vaddr = vaddr / PAGE_SIZE * PAGE_SIZE := by
  unfold region_vaddr PAGE_SIZE
  rw [and_PAGE_FRAME, Nat.mod_eq_of_lt h]

/-- The recorded page count of a region that ends within user space, as a quotient. -/
theorem region_npages_eq (vaddr sz : Nat) (h : vaddr + sz ≤ USERTOP) :
    region_npages vaddr sz = (sz + vaddr % PAGE_SIZE + (PAGE_SIZE - 1)) / PAGE_SIZE := by
  unfold region_npages region_sz
  unfold USERTOP at h
  unfold PAGE_SIZE
  rw [and_not32_PAGE_FRAME]
  have h1 : toU32 ((sz : Int) + ((vaddr % 4096 : Nat) : Int)) = sz + vaddr % 4096 := by
    have e : (sz : Int) + ((vaddr % 4096 : Nat) : Int) = ((sz + vaddr % 4096 : Nat) : Int) := by
      push_cast
      rfl
    rw [e, toU32_natCast]
    omega
  have h2 : toU32 (((sz + vaddr % 4096 : Nat) : Int) + ((4096 : Nat) : Int) - 1)
      = sz + vaddr % 4096 + 4095 := by
    have e : ((sz + vaddr % 4096 : Nat) : Int) + ((4096 : Nat) : Int) - 1
        = ((sz + vaddr % 4096 + 4095 : Nat) : Int) := by
      push_cast
      omega
    rw [e, toU32_natCast]
    omega
  rw [h1, h2, and_PAGE_FRAME]
  have h3 : (sz + vaddr % 4096 + 4095) % 2 ^ 32 = sz + vaddr % 4096 + 4095 := by omega
  rw [h3, Nat.mul_div_cancel _ (by norm_num)]

/-- What `as_create` has assigned in the address space that it returns. -/
theorem as_create_fields (vm : vmstate) (blk : Option addrspace)
    (ptblk : Option (List page_entry)) (a : addrspace) (h : as_create vm blk ptblk = some a) :
    a.as_vbase_text = 0 ∧ a.as_npages_text = 0 ∧ a.as_vbase_data = 0 ∧ a.as_npages_data = 0 ∧
    a.as_vbase_stack = 0 ∧ a.as_npages_stack = 0 ∧ a.as_vbase_heap = 0 ∧ a.as_vtop_heap = 0 ∧
    a.num_pt_entries = 0 ∧
    ∃ t, ptblk = some t ∧ a.pagetable = as_create_loop 0 (vm.num_page_frames * 2) t := by
  cases blk with
  | none => simp [as_create] at h
  | some b =>
    cases ptblk with
    | none => simp [as_create] at h
    | some t =>
      simp only [as_create, Option.some.injEq] at h
      subst h
      exact ⟨rfl, rfl, rfl, rfl, rfl, rfl, rfl, rfl, rfl, t, rfl, rfl⟩

theorem fresh_as_created :
    as_create (copy_vm 0 0) (some copy_blk) (some copy_ptblk) = some fresh_as := by
  decide

/-! ## `as_define_region` -/

/-- The call that defines the text region. -/
theorem as_define_region_text (a : addrspace) (vaddr sz : Nat) (r w x : Int)
    (h : a.as_vbase_text = 0) :
    as_define_region a vaddr sz r w x =
      (errno.OK,
        { a with
          as_vbase_text := region_vaddr vaddr,
          as_npages_text := region_npages vaddr sz,
          as_sizeof_text := sz }) := by
  unfold as_define_region
  rw [if_pos h]

/-- The call that defines the data region and the heap. -/
theorem as_define_region_data (a : addrspace) (vaddr sz : Nat) (r w x : Int)
    (h1 : a.as_vbase_text ≠ 0) (h2 : a.as_vbase_data = 0) :
    as_define_region a vaddr sz r w x =
      (errno.OK,
        { a with
          as_vbase_data := region_vaddr vaddr,
          as_npages_data := region_npages vaddr sz,
          as_sizeof_data := sz,
          as_vbase_heap :=
            toU32 ((region_vaddr vaddr : Int)
              + ((toU32 ((region_npages vaddr sz : Int) * (PAGE_SIZE : Int)) : Nat) : Int)),
          as_vtop_heap :=
            toU32 ((region_vaddr vaddr : Int)
              + ((toU32 ((region_npages vaddr sz : Int) * (PAGE_SIZE : Int)) : Nat) : Int)) }) := by
  unfold as_define_region
  rw [if_neg h1, if_pos h2]

/-- The call that finds both regions defined. -/
theorem as_define_region_full (a : addrspace) (vaddr sz : Nat) (r w x : Int)
    (h1 : a.as_vbase_text ≠ 0) (h2 : a.as_vbase_data ≠ 0) :
    as_define_region a vaddr sz r w x = (errno.EUNIMP, a) := by
  unfold as_define_region
  rw [if_neg h1, if_neg h2]

/-- C13, as amended. For every freshly created address space and every two successive
`as_define_region` calls with arguments `(v1, s1)` and `(v2, s2)`, where the page-aligned
`v1` is not `0` (`v1` is not in the first page): the first call returns `0`, records the text
region from `(v1, s1)` (aligned base, page count, byte size `s1`) and leaves the data region
undefined (base and page count `0`); the second call returns `0`, records the data region
from `(v2, s2)` and leaves the text region as the first call recorded it. -/
theorem as_define_region_text_then_data (vm : vmstate) (blk : Option addrspace)
    (ptblk : Option (List page_entry)) (a : addrspace) (v1 s1 v2 s2 : Nat)
    (r1 w1 x1 r2 w2 x2 : Int) (hfresh : as_create vm blk ptblk = some a)
    (hv1 : region_vaddr v1 ≠ 0) :
    (as_define_region a v1 s1 r1 w1 x1).1 = errno.OK ∧
    (as_define_region a v1 s1 r1 w1 x1).2 =
      { a with
        as_vbase_text := region_vaddr v1, as_npages_text := region_npages v1 s1,
        as_sizeof_text := s1 } ∧
    (as_define_region a v1 s1 r1 w1 x1).2.as_vbase_data = 0 ∧
    (as_define_region a v1 s1 r1 w1 x1).2.as_npages_data = 0 ∧
    (as_define_region (as_define_region a v1 s1 r1 w1 x1).2 v2 s2 r2 w2 x2).1 = errno.OK ∧
    (as_define_region (as_define_region a v1 s1 r1 w1 x1).2 v2 s2 r2 w2 x2).2.as_vbase_data
      = region_vaddr v2 ∧
    (as_define_region (as_define_region a v1 s1 r1 w1 x1).2 v2 s2 r2 w2 x2).2.as_npages_data
      = region_npages v2 s2 ∧
    (as_define_region (as_define_region a v1 s1 r1 w1 x1).2 v2 s2 r2 w2 x2).2.as_sizeof_data
      = s2 ∧
    (as_define_region (as_define_region a v1 s1 r1 w1 x1).2 v2 s2 r2 w2 x2).2.as_vbase_text
      = region_vaddr v1 ∧
    (as_define_region (as_define_region a v1 s1 r1 w1 x1).2 v2 s2 r2 w2 x2).2.as_npages_text
      = region_npages v1 s1 ∧
    (as_define_region (as_define_region a v1 s1 r1 w1 x1).2 v2 s2 r2 w2 x2).2.as_sizeof_text
      = s1 := by
  have hf := as_create_fields vm blk ptblk a hfresh
  have e1 := as_define_region_text a v1 s1 r1 w1 x1 hf.1
  rw [e1]
  have e2 := as_define_region_data
    { a with
      as_vbase_text := region_vaddr v1, as_npages_text := region_npages v1 s1,
      as_sizeof_text := s1 } v2 s2 r2 w2 x2 hv1 hf.2.2.1
  rw [e2]
  exact ⟨rfl, rfl, hf.2.2.1, hf.2.2.2.1, rfl, rfl, rfl, rfl, rfl, rfl, rfl⟩

/-- The spec's scenario: `(0x400000, 4096)` gives the text region at `0x400000` of 1 page,
then `(0x401000, 8192)` gives the data region at `0x401000` of 2 pages. -/
theorem as_define_region_text_then_data_witness :
    (as_define_region fresh_as 0x400000 4096 1 0 1).2.as_vbase_text = 0x400000 ∧
    (as_define_region fresh_as 0x400000 4096 1 0 1).2.as_npages_text = 1 ∧
    (as_define_region (as_define_region fresh_as 0x400000 4096 1 0 1).2
      0x401000 8192 1 1 0).2.as_vbase_data = 0x401000 ∧
    (as_define_region (as_define_region fresh_as 0x400000 4096 1 0 1).2
      0x401000 8192 1 1 0).2.as_npages_data = 2 ∧
    (as_define_region (as_define_region fresh_as 0x400000 4096 1 0 1).2
      0x401000 8192 1 1 0).2.as_vbase_text = 0x400000 :=
  have h := as_define_region_text_then_data (copy_vm 0 0) (some copy_blk) (some copy_ptblk)
    fresh_as 0x400000 4096 0x401000 8192 1 0 1 1 1 0 fresh_as_created (by decide)
  ⟨by decide, by decide, h.2.2.2.2.2.1, by decide, h.2.2.2.2.2.2.2.2.1⟩

/-- C13, the claim as stated fails: on a freshly created address space, after the calls
`(0, 4096)` and `(0x401000, 8192)` the first call has recorded the text region with base `0`,
1 page, 4096 bytes, and the second call has not recorded a data region (its base and page
count are still `0`) but has replaced the text region by base `0x401000`, 2 pages, 8192
bytes. -/
theorem as_define_region_text_in_page_zero :
    as_create (copy_vm 0 0) (some copy_blk) (some copy_ptblk) = some fresh_as ∧
    (as_define_region fresh_as 0 4096 1 0 1).2.as_vbase_text = 0 ∧
    (as_define_region fresh_as 0 4096 1 0 1).2.as_npages_text = 1 ∧
    (as_define_region fresh_as 0 4096 1 0 1).2.as_sizeof_text = 4096 ∧
    (as_define_region (as_define_region fresh_as 0 4096 1 0 1).2
      0x401000 8192 1 1 0).2.as_vbase_data = 0 ∧
    (as_define_region (as_define_region fresh_as 0 4096 1 0 1).2
      0x401000 8192 1 1 0).2.as_npages_data = 0 ∧
    (as_define_region (as_define_region fresh_as 0 4096 1 0 1).2
      0x401000 8192 1 1 0).2.as_vbase_text = 0x401000 ∧
    (as_define_region (as_define_region fresh_as 0 4096 1 0 1).2
      0x401000 8192 1 1 0).2.as_npages_text = 2 ∧
    (as_define_region (as_define_region fresh_as 0 4096 1 0 1).2
      0x401000 8192 1 1 0).2.as_sizeof_text = 8192 := by
  decide

/-- C14. Whenever an `as_define_region` call defines the data region (the text region is
defined and the data region is not), the address space afterwards has `heap.base` equal to
`heap.top` equal to `data.base + data.page_count * PAGE_SIZE`, the sum and the product being
those of 32-bit words as the code computes them; they are the sum and the product of the
integers whenever that sum is representable in a 32-bit word, as it is for every region that
ends within user space. -/
theorem as_define_region_heap (a : addrspace) (vaddr sz : Nat) (r w x : Int)
    (h1 : a.as_vbase_text ≠ 0) (h2 : a.as_vbase_data = 0) :
    (as_define_region a vaddr sz r w x).1 = errno.OK ∧
    (as_define_region a vaddr sz r w x).2.as_vbase_heap
      = (as_define_region a vaddr sz r w x).2.as_vtop_heap ∧
    (as_define_region a vaddr sz r w x).2.as_vbase_heap
      = ((as_define_region a vaddr sz r w x).2.as_vbase_data
          + (as_define_region a vaddr sz r w x).2.as_npages_data * PAGE_SIZE) % 2 ^ 32 ∧
    ((as_define_region a vaddr sz r w x).2.as_vbase_data
        + (as_define_region a vaddr sz r w x).2.as_npages_data * PAGE_SIZE < 2 ^ 32 →
      (as_define_region a vaddr sz r w x).2.as_vbase_heap
        = (as_define_region a vaddr sz r w x).2.as_vbase_data
          + (as_define_region a vaddr sz r w x).2.as_npages_data * PAGE_SIZE) ∧
    (vaddr + sz ≤ USERTOP →
      (as_define_region a vaddr sz r w x).2.as_vbase_heap
        = (as_define_region a vaddr sz r w x).2.as_vbase_data
          + (as_define_region a vaddr sz r w x).2.as_npages_data * PAGE_SIZE) := by
  rw [as_define_region_data a vaddr sz r w x h1 h2]
  have hsum : toU32 ((region_vaddr vaddr : Int)
      + ((toU32 ((region_npages vaddr sz : Int) * (PAGE_SIZE : Int)) : Nat) : Int))
      = (region_vaddr vaddr + region_npages vaddr sz * PAGE_SIZE) % 2 ^ 32 := by
    have e1 : ((region_npages vaddr sz : Int) * (PAGE_SIZE : Int))
        = ((region_npages vaddr sz * PAGE_SIZE : Nat) : Int) := by push_cast; rfl
    rw [e1, toU32_natCast]
    have e2 : (region_vaddr vaddr : Int)
        + (((region_npages vaddr sz * PAGE_SIZE) % 2 ^ 32 : Nat) : Int)
        = ((region_vaddr vaddr + (region_npages vaddr sz * PAGE_SIZE) % 2 ^ 32 : Nat) : Int) := by
      push_cast
      rfl
    rw [e2, toU32_natCast]
    omega
  refine ⟨rfl, rfl, hsum, fun hlt => ?_, fun huser => ?_⟩
  · dsimp only at hlt ⊢
    rw [hsum]
    exact Nat.mod_eq_of_lt hlt
  · dsimp only
    rw [hsum]
    apply Nat.mod_eq_of_lt
    rw [region_vaddr_eq vaddr (by unfold USERTOP at huser; omega),
      region_npages_eq vaddr sz huser]
    unfold USERTOP at huser
    unfold PAGE_SIZE
    omega

/-- The spec's scenario: data at `0x401000` of 8192 bytes gives heap base and top
`0x403000`. -/
theorem as_define_region_heap_witness :
    (as_define_region (as_define_region fresh_as 0x400000 4096 1 0 1).2
      0x401000 8192 1 1 0).2.as_vbase_heap = 0x403000 ∧
    (as_define_region (as_define_region fresh_as 0x400000 4096 1 0 1).2
      0x401000 8192 1 1 0).2.as_vtop_heap = 0x403000 :=
  have h := as_define_region_heap (as_define_region fresh_as 0x400000 4096 1 0 1).2
    0x401000 8192 1 1 0 (by decide) (by decide)
  ⟨by decide, h.2.1 ▸ (by decide)⟩

/-- C15, as amended. For every freshly created address space and every three successive
`as_define_region` calls of which the first two have a page-aligned `vaddr` other than `0`
(neither region starts in the first page), the third call, with any arguments, returns the
unsupported error `EUNIMP` and leaves every field of the address space exactly as the first
two calls left it. -/
theorem as_define_region_third (vm : vmstate) (blk : Option addrspace)
    (ptblk : Option (List page_entry)) (a : addrspace) (v1 s1 v2 s2 v3 s3 : Nat)
    (r1 w1 x1 r2 w2 x2 r3 w3 x3 : Int) (hfresh : as_create vm blk ptblk = some a)
    (hv1 : region_vaddr v1 ≠ 0) (hv2 : region_vaddr v2 ≠ 0) :
    (as_define_region
      (as_define_region (as_define_region a v1 s1 r1 w1 x1).2 v2 s2 r2 w2 x2).2
      v3 s3 r3 w3 x3).1 = errno.EUNIMP ∧
    (as_define_region
      (as_define_region (as_define_region a v1 s1 r1 w1 x1).2 v2 s2 r2 w2 x2).2
      v3 s3 r3 w3 x3).2
      = (as_define_region (as_define_region a v1 s1 r1 w1 x1).2 v2 s2 r2 w2 x2).2 := by
  have hf := as_create_fields vm blk ptblk a hfresh
  have e1 := as_define_region_text a v1 s1 r1 w1 x1 hf.1
  rw [e1]
  have e2 := as_define_region_data
    { a with
      as_vbase_text := region_vaddr v1, as_npages_text := region_npages v1 s1,
      as_sizeof_text := s1 } v2 s2 r2 w2 x2 hv1 hf.2.2.1
  rw [e2]
  rw [as_define_region_full _ v3 s3 r3 w3 x3 hv1 hv2]
  exact ⟨rfl, rfl⟩

/-- The third call after the spec's scenario: a region at `0x500000` is refused. -/
theorem as_define_region_third_witness :
    (as_define_region
      (as_define_region (as_define_region fresh_as 0x400000 4096 1 0 1).2
        0x401000 8192 1 1 0).2
      0x500000 4096 1 1 0).1 = errno.EUNIMP :=
  (as_define_region_third (copy_vm 0 0) (some copy_blk) (some copy_ptblk) fresh_as
    0x400000 4096 0x401000 8192 0x500000 4096 1 0 1 1 1 0 1 1 0 fresh_as_created
    (by decide) (by decide)).1

/-- C15, the claim as stated fails: on a freshly created address space, after the calls
`(0, 4096)` and `(0x400000, 4096)` the third call `(0x401000, 8192)` returns `0`, not
`EUNIMP`, and changes the address space: it records the data region, which the first two
calls had left undefined, and the heap. -/
theorem as_define_region_third_accepted :
    as_create (copy_vm 0 0) (some copy_blk) (some copy_ptblk) = some fresh_as ∧
    (as_define_region (as_define_region fresh_as 0 4096 1 0 1).2
      0x400000 4096 1 0 1).2.as_vbase_data = 0 ∧
    (as_define_region
      (as_define_region (as_define_region fresh_as 0 4096 1 0 1).2 0x400000 4096 1 0 1).2
      0x401000 8192 1 1 0).1 = errno.OK ∧
    (as_define_region
      (as_define_region (as_define_region fresh_as 0 4096 1 0 1).2 0x400000 4096 1 0 1).2
      0x401000 8192 1 1 0).2.as_vbase_data = 0x401000 ∧
    (as_define_region
      (as_define_region (as_define_region fresh_as 0 4096 1 0 1).2 0x400000 4096 1 0 1).2
      0x401000 8192 1 1 0).2.as_vbase_heap = 0x403000 := by
  decide

/-- C16, as amended. For every `vaddr` and `sz` with `vaddr + sz` not exceeding the top of
user space, the region that `as_define_region` records (the text region when none is
defined, the data region when only the text region is) has a base equal to `vaddr` rounded
down to a multiple of `PAGE_SIZE` and a page count that is the least number `n` of whole
pages with `base + n * PAGE_SIZE ≥ vaddr + sz`; when `sz > 0`, this is the least number of
whole pages for which `[base, base + n * PAGE_SIZE)` contains every byte of
`[vaddr, vaddr + sz)`. -/
theorem as_define_region_rounding (a : addrspace) (vaddr sz : Nat) (r w x : Int)
    (h : vaddr + sz ≤ USERTOP) :
    (a.as_vbase_text = 0 →
      (as_define_region a vaddr sz r w x).2.as_vbase_text = region_vaddr vaddr ∧
      (as_define_region a vaddr sz r w x).2.as_npages_text = region_npages vaddr sz) ∧
    (a.as_vbase_text ≠ 0 → a.as_vbase_data = 0 →
      (as_define_region a vaddr sz r w x).2.as_vbase_data = region_vaddr vaddr ∧
      (as_define_region a vaddr sz r w x).2.as_npages_data = region_npages vaddr sz) ∧
    region_vaddr vaddr = vaddr / PAGE_SIZE * PAGE_SIZE ∧
    region_vaddr vaddr ≤ vaddr ∧ vaddr < region_vaddr vaddr + PAGE_SIZE ∧
    vaddr + sz ≤ region_vaddr vaddr + region_npages vaddr sz * PAGE_SIZE ∧
    (∀ n : Nat, vaddr + sz ≤ region_vaddr vaddr + n * PAGE_SIZE → region_npages vaddr sz ≤ n) ∧
    (0 < sz →
      (∀ b : Nat, vaddr ≤ b → b < vaddr + sz →
        region_vaddr vaddr ≤ b ∧ b < region_vaddr vaddr + region_npages vaddr sz * PAGE_SIZE) ∧
      (∀ n : Nat,
        (∀ b : Nat, vaddr ≤ b → b < vaddr + sz →
          region_vaddr vaddr ≤ b ∧ b < region_vaddr vaddr + n * PAGE_SIZE) →
        region_npages vaddr sz ≤ n)) := by
  have hb := region_vaddr_eq vaddr (by unfold USERTOP at h; omega)
  have hn := region_npages_eq vaddr sz h
  unfold PAGE_SIZE at hb hn
  have hmin : ∀ n : Nat, vaddr + sz ≤ region_vaddr vaddr + n * PAGE_SIZE →
      region_npages vaddr sz ≤ n := by
    intro n hle
    rw [hb] at hle
    rw [hn]
    unfold PAGE_SIZE at hle
    omega
  refine ⟨fun h1 => ?_, fun h1 h2 => ?_, ?_, ?_, ?_, ?_, hmin, fun hpos => ⟨?_, ?_⟩⟩
  · rw [as_define_region_text a vaddr sz r w x h1]
    exact ⟨rfl, rfl⟩
  · rw [as_define_region_data a vaddr sz r w x h1 h2]
    exact ⟨rfl, rfl⟩
  · unfold PAGE_SIZE
    exact hb
  · rw [hb]
    omega
  · rw [hb]
    unfold PAGE_SIZE
    omega
  · rw [hb, hn]
    unfold PAGE_SIZE
    omega
  · intro b h1 h2
    rw [hb, hn]
    unfold PAGE_SIZE
    omega
  · intro n hall
    apply hmin
    have hlast := (hall (vaddr + sz - 1) (by omega) (by omega)).2
    omega

/-- The rounding at a concrete input: the 2 bytes from `0x400fff` on lie in the 2 pages from
`0x400000` on. -/
theorem as_define_region_rounding_witness :
    (as_define_region fresh_as 0x400fff 2 1 0 1).2.as_vbase_text = 0x400000 ∧
    (as_define_region fresh_as 0x400fff 2 1 0 1).2.as_npages_text = 2 ∧
    region_npages 0x400fff 2 ≤ 2 :=
  have h := as_define_region_rounding fresh_as 0x400fff 2 1 0 1 (by decide)
  ⟨by decide, by decide, h.2.2.2.2.2.2.1 2 (by decide)⟩

/-- C16, the claim as stated fails: for `vaddr = 0x400001` and `sz = 0`, which end within
user space, the text region that `as_define_region` records on a freshly created address
space has base `0x400000` and 1 page, although 0 pages already contain every byte of the
empty range `[0x400001, 0x400001)`. -/
theorem as_define_region_empty_region :
    as_create (copy_vm 0 0) (some copy_blk) (some copy_ptblk) = some fresh_as ∧
    0x400001 + 0 ≤ USERTOP ∧
    (as_define_region fresh_as 0x400001 0 1 0 1).2.as_vbase_text = 0x400000 ∧
    (as_define_region fresh_as 0x400001 0 1 0 1).2.as_npages_text = 1 ∧
    (∀ b : Nat, 0x400001 ≤ b → b < 0x400001 + 0 →
      0x400000 ≤ b ∧ b < 0x400000 + 0 * PAGE_SIZE) :=
  ⟨by decide, by decide, by decide, by decide, fun b h1 h2 => by omega⟩

/-! ## The page table made by `as_create` -/

/-- C17. For every address space returned by `as_create`, the block for the page table
having `2 * num_page_frames` slots, the page table has `2 * num_page_frames` entries and each
of them is unpresent (`present = 0`), has virtual page number `-1` and frame number `-1`, and
has `in_valid_region = 0`. -/
theorem as_create_entries_unset (vm : vmstate) (blk : Option addrspace)
    (ptblk : Option (List page_entry)) (a : addrspace)
    (hblk : ∀ t, ptblk = some t → t.length = vm.num_page_frames * 2)
    (h : as_create vm blk ptblk = some a) :
    a.pagetable.length = vm.num_page_frames * 2 ∧
    ∀ i, i < vm.num_page_frames * 2 →
      ∃ e, a.pagetable[i]? = some e ∧ e.present = 0 ∧ e.virt_frame_num = -1 ∧
        e.page_frame_num = -1 ∧ e.in_valid_region = 0 := by
  rcases (as_create_fields vm blk ptblk a h).2.2.2.2.2.2.2.2.2 with ⟨t, ht, hpt⟩
  have hlen := hblk t ht
  constructor
  · rw [hpt, as_create_loop_length, hlen]
  · intro i hi
    refine ⟨page_entry.unset, ?_, rfl, rfl, rfl, rfl⟩
    rw [hpt]
    exact (as_create_loop_get (vm.num_page_frames * 2) 0 t i).1 (Nat.zero_le i) (by omega)
      (by omega)

/-- The page table at a concrete input: on a machine with four page frames, slot 5 of the
eight slots that `as_create` initialises is unset, whatever the block held before. -/
theorem as_create_entries_unset_witness :
    fresh_as.pagetable.length = 8 ∧
    ∃ e, fresh_as.pagetable[5]? = some e ∧ e.present = 0 ∧ e.virt_frame_num = -1 ∧
      e.page_frame_num = -1 ∧ e.in_valid_region = 0 :=
  have h := as_create_entries_unset (copy_vm 0 0) (some copy_blk) (some copy_ptblk) fresh_as
    (copy_ptblk_length 0 0) fresh_as_created
  ⟨h.1, h.2 5 (by decide)⟩

/-! ## The region descriptors and the page table of the copy -/

/-- C18. The code at a concrete input: `as_copy` of the source `copy_source`, whose text
region has 4096 bytes and whose data region has 8192 bytes, succeeds and copies the bases,
the page counts, the heap and the stack base, but the new address space has the byte sizes
13 and 16 that the block returned by `kmalloc` held before: `as_copy` assigns neither
`as_sizeof_text` nor `as_sizeof_data`. -/
theorem as_copy_byte_sizes :
    (as_copy getppages (some copy_blk) (some copy_ptblk) copy_source (copy_vm 0 0)
      copy_mem).result = errno.OK ∧
    copy_source.as_sizeof_text = 4096 ∧ copy_source.as_sizeof_data = 8192 ∧
    (as_copy getppages (some copy_blk) (some copy_ptblk) copy_source (copy_vm 0 0)
      copy_mem).ret =
      some { copy_source with
        as_sizeof_text := 13, as_sizeof_data := 16, progname := 22,
        pagetable :=
          [scenario_page 0x403 2, page_entry.unset, scenario_page 0x404 3, page_entry.unset,
           page_entry.unset, page_entry.unset, page_entry.unset, page_entry.unset] } := by
  decide

theorem copy_pt_inv_init (old : List page_entry) (n : Nat) (t : List page_entry)
    (ht : t.length = n) : copy_pt_inv old n 0 (as_create_loop 0 n t) := by
  refine { len := ?_, todo := ?_, skipped := fun j h => absurd h (Nat.not_lt_zero j),
           copied := fun j h => absurd h (Nat.not_lt_zero j) }
  · rw [as_create_loop_length, ht]
  · intro j h1 h2
    exact (as_create_loop_get n 0 t j).1 h1 (by omega) (by omega)

/-- An iteration of the loop of `as_copy` that completes keeps `copy_pt_inv`, whatever
`getppages` returns. -/
theorem as_copy_body_pt (gp : Nat → vmstate → Nat × List coremap_entry)
    (old : List page_entry) (n i : Nat) (s : copy_state) (hinv : copy_pt_inv old n i s.pt)
    (hi : i < n) :
    ∀ s1, as_copy_body gp old i s = Except.ok s1 → copy_pt_inv old n (i + 1) s1.pt := by
  intro s1 h
  have hunset : pt_read s.pt i = page_entry.unset :=
    pt_read_of_get _ _ _ (hinv.todo i (le_refl i) hi)
  have hilt : i < s.pt.length := by rw [hinv.len]; exact hi
  by_cases hp : (pt_read old i).present = 1
  · by_cases hz : (gp 1 s.vm).1 = 0
    · simp only [as_copy_body, if_pos hp, if_pos hz] at h
      cases h
    · simp only [as_copy_body, if_pos hp, if_neg hz, hunset, hp] at h
      cases h
      refine { len := ?_, todo := ?_, skipped := ?_, copied := ?_ }
      · show (s.pt.set i _).length = n
        rw [List.length_set]
        exact hinv.len
      · intro j h1 h2
        show (s.pt.set i _)[j]? = _
        rw [List.getElem?_set_ne (by omega)]
        exact hinv.todo j (by omega) h2
      · intro j h1 h2
        have hj : j ≠ i := by
          rintro rfl
          exact h2 hp
        show (s.pt.set i _)[j]? = _
        rw [List.getElem?_set_ne (Ne.symm hj)]
        exact hinv.skipped j (by omega) h2
      · intro j h1 h2
        by_cases hj : j = i
        · subst hj
          exact ⟨_, List.getElem?_set_self hilt⟩
        · rcases hinv.copied j (by omega) h2 with ⟨f, hf⟩
          refine ⟨f, ?_⟩
          show (s.pt.set i _)[j]? = _
          rw [List.getElem?_set_ne (Ne.symm hj)]
          exact hf
  · simp only [as_copy_body, if_neg hp] at h
    cases h
    refine { len := hinv.len, todo := ?_, skipped := ?_, copied := ?_ }
    · intro j h1 h2
      exact hinv.todo j (by omega) h2
    · intro j h1 h2
      by_cases hj : j = i
      · subst hj
        exact hinv.todo j (le_refl j) hi
      · exact hinv.skipped j (by omega) h2
    · intro j h1 h2
      have hj : j ≠ i := by
        rintro rfl
        exact hp h2
      exact hinv.copied j (by omega) h2

/-- The loop of `as_copy`, when it completes, ends with `copy_pt_inv` after the last slot. -/
theorem as_copy_loop_pt (gp : Nat → vmstate → Nat × List coremap_entry)
    (old : List page_entry) (n : Nat) (r : Nat) :
    ∀ (i : Nat) (s : copy_state), i + r = n → copy_pt_inv old n i s.pt →
      ∀ s1, as_copy_loop gp old i r s = Except.ok s1 → copy_pt_inv old n n s1.pt := by
  induction r with
  | zero =>
    intro i s hn hinv s1 h
    have hi : i = n := by omega
    subst hi
    unfold as_copy_loop at h
    cases h
    exact hinv
  | succ r ih =>
    intro i s hn hinv s1 h
    unfold as_copy_loop at h
    cases hb : as_copy_body gp old i s with
    | error s2 =>
      rw [hb] at h
      cases h
    | ok s2 =>
      rw [hb] at h
      exact ih (i + 1) s2 (by omega) (as_copy_body_pt gp old n i s hinv (by omega) s2 hb) s1 h

/-- C19. When `as_copy` succeeds (whatever `getppages` is, the block for the new page table
having `2 * num_page_frames` slots), for every slot `i` of the page table: if source entry
`i` is present then new entry `i` is present with the same virtual page number and the same
`in_valid_region` flag; if source entry `i` is unpresent then new entry `i` is unpresent
with virtual page number `-1` and frame number `-1` (and `in_valid_region = 0`). -/
theorem as_copy_entries (gp : Nat → vmstate → Nat × List coremap_entry)
    (blk : Option addrspace) (ptblk : Option (List page_entry)) (old : addrspace)
    (vm : vmstate) (mem : Nat → Nat)
    (hblk : ∀ t, ptblk = some t → t.length = vm.num_page_frames * 2)
    (hok : (as_copy gp blk ptblk old vm mem).result = errno.OK) :
    ∃ new, (as_copy gp blk ptblk old vm mem).ret = some new ∧
      new.pagetable.length = vm.num_page_frames * 2 ∧
      ∀ i, i < vm.num_page_frames * 2 →
        ((pt_read old.pagetable i).present = 1 →
          (pt_read new.pagetable i).present = 1 ∧
          (pt_read new.pagetable i).virt_frame_num = (pt_read old.pagetable i).virt_frame_num ∧
          (pt_read new.pagetable i).in_valid_region
            = (pt_read old.pagetable i).in_valid_region) ∧
        ((pt_read old.pagetable i).present ≠ 1 →
          (pt_read new.pagetable i).present = 0 ∧
          (pt_read new.pagetable i).virt_frame_num = -1 ∧
          (pt_read new.pagetable i).page_frame_num = -1 ∧
          (pt_read new.pagetable i).in_valid_region = 0) := by
  cases blk with
  | none => simp [as_copy, as_create] at hok
  | some b =>
    cases ptblk with
    | none => simp [as_copy, as_create] at hok
    | some t =>
      have hsome := as_copy_some gp b t old vm mem
      cases hl : as_copy_loop gp old.pagetable 0 (vm.num_page_frames * 2)
          { pt := as_create_loop 0 (vm.num_page_frames * 2) t, vm := vm, mem := mem } with
      | error s =>
        rw [(hsome.2 s hl).1] at hok
        cases hok
      | ok s =>
        rcases hsome.1 s hl with ⟨_, ⟨new, h1, h2⟩, _, _⟩
        have hinv := as_copy_loop_pt gp old.pagetable (vm.num_page_frames * 2)
          (vm.num_page_frames * 2) 0 _ (by omega)
          (copy_pt_inv_init old.pagetable (vm.num_page_frames * 2) t (hblk t rfl)) s hl
        refine ⟨new, h1, ?_, ?_⟩
        · rw [h2]
          exact hinv.len
        · intro i hi
          rw [h2]
          constructor
          · intro hp
            rcases hinv.copied i hi hp with ⟨f, hf⟩
            rw [pt_read_of_get _ _ _ hf]
            exact ⟨rfl, rfl, rfl⟩
          · intro hp
            rw [pt_read_of_get _ _ _ (hinv.skipped i hi hp)]
            exact ⟨rfl, rfl, rfl, rfl⟩

/-- The page table of the copy at a concrete input: slot 2 of the source `copy_source` is
present for virtual page `0x404`, and so is slot 2 of the copy; slot 1 is unset in both. -/
theorem as_copy_entries_witness :
    ∃ new, (as_copy getppages (some copy_blk) (some copy_ptblk) copy_source (copy_vm 0 0)
        copy_mem).ret = some new ∧
      (pt_read new.pagetable 2).present = 1 ∧
      (pt_read new.pagetable 2).virt_frame_num = 0x404 ∧
      (pt_read new.pagetable 1).present = 0 :=
  match as_copy_entries getppages (some copy_blk) (some copy_ptblk) copy_source (copy_vm 0 0)
      copy_mem (copy_ptblk_length 0 0) (by decide) with
  | ⟨new, h1, _, h3⟩ =>
    ⟨new, h1, ((h3 2 (by decide)).1 (by decide)).1, ((h3 2 (by decide)).1 (by decide)).2.1,
      ((h3 1 (by decide)).2 (by decide)).1⟩

/-! ## `as_activate` -/

theorem TLB_Write_tlb (hi lo index : Nat) (c : cpustate) :
    (TLB_Write hi lo index c).tlb = c.tlb.set index (hi, lo) := rfl

/-- The translation cache after the loop of `as_activate`: the slots visited hold the
invalid entry, the slots before them are untouched. -/
theorem as_activate_loop_tlb (m : mips) (r : Nat) :
    ∀ (i : Nat) (c : cpustate) (j : Nat),
      (as_activate_loop m i r c).tlb.length = c.tlb.length ∧
      (i ≤ j → j < i + r → j < c.tlb.length →
        (as_activate_loop m i r c).tlb[j]? = some (m.TLBHI_INVALID j, m.TLBLO_INVALID)) ∧
      (j < i → (as_activate_loop m i r c).tlb[j]? = c.tlb[j]?) := by
  induction r with
  | zero =>
    intro i c j
    exact ⟨rfl, fun h1 h2 _ => by omega, fun _ => rfl⟩
  | succ r ih =>
    intro i c j
    unfold as_activate_loop
    have h := ih (i + 1) (TLB_Write (m.TLBHI_INVALID i) m.TLBLO_INVALID i c) j
    rw [TLB_Write_tlb, List.length_set] at h
    refine ⟨h.1, fun h1 h2 h3 => ?_, fun h1 => ?_⟩
    · by_cases hj : j = i
      · subst hj
        rw [h.2.2 (by omega)]
        exact List.getElem?_set_self h3
      · exact h.2.1 (by omega) (by omega) h3
    · rw [h.2.2 (by omega)]
      exact List.getElem?_set_ne (by omega)

/-- C20. For every address-space argument (`NULL` included) and every prior content of the
translation cache of `NUM_TLB` slots, after `as_activate` each of the `NUM_TLB` slots `i`
holds the invalid entry `(TLBHI_INVALID(i), TLBLO_INVALID())`; the resulting state does not
depend on the address space passed, and the resulting cache does not depend on the prior
content. -/
theorem as_activate_invalidates (m : mips) (a : Option addrspace) (c : cpustate)
    (hlen : c.tlb.length = m.NUM_TLB) :
    (as_activate m a c).tlb.length = m.NUM_TLB ∧
    (∀ i, i < m.NUM_TLB →
      (as_activate m a c).tlb[i]? = some (m.TLBHI_INVALID i, m.TLBLO_INVALID)) ∧
    (∀ a1 : Option addrspace, as_activate m a1 c = as_activate m a c) ∧
    (∀ c1 : cpustate, c1.tlb.length = m.NUM_TLB →
      (as_activate m a c1).tlb = (as_activate m a c).tlb) := by
  have hall : ∀ c0 : cpustate, c0.tlb.length = m.NUM_TLB →
      (as_activate m a c0).tlb.length = m.NUM_TLB ∧
      ∀ i, i < m.NUM_TLB →
        (as_activate m a c0).tlb[i]? = some (m.TLBHI_INVALID i, m.TLBLO_INVALID) := by
    intro c0 h0
    have hl : ∀ j, (as_activate m a c0).tlb.length = c0.tlb.length ∧
        (0 ≤ j → j < 0 + m.NUM_TLB → j < c0.tlb.length →
          (as_activate m a c0).tlb[j]? = some (m.TLBHI_INVALID j, m.TLBLO_INVALID)) ∧
        (j < 0 → (as_activate m a c0).tlb[j]? = c0.tlb[j]?) :=
      fun j => as_activate_loop_tlb m m.NUM_TLB 0 (splhigh m c0).2 j
    refine ⟨(hl 0).1.trans h0, fun i hi => ?_⟩
    exact (hl i).2.1 (Nat.zero_le i) (by omega) (by omega)
  refine ⟨(hall c hlen).1, (hall c hlen).2, fun _ => rfl, fun c1 h1 => ?_⟩
  apply List.ext_getElem?
  intro i
  by_cases hi : i < m.NUM_TLB
  · rw [(hall c1 h1).2 i hi, (hall c hlen).2 i hi]
  · rw [List.getElem?_eq_none (by rw [(hall c1 h1).1]; omega),
      List.getElem?_eq_none (by rw [(hall c hlen).1]; omega)]

/-- The activation at a concrete input: with the constants of the MIPS port, slot 3 of a
cache that held 64 other entries holds the invalid entry of slot 3 afterwards. -/
theorem as_activate_invalidates_witness :
    (as_activate mips_r3000 (some copy_source)
      { tlb := List.replicate 64 (0x400000, 0x100600), ipl := 0, tlb_writes := [] }).tlb[3]?
      = some (0x80003000, 0) :=
  (as_activate_invalidates mips_r3000 (some copy_source)
    { tlb := List.replicate 64 (0x400000, 0x100600), ipl := 0, tlb_writes := [] }
    (by decide)).2.1 3 (by decide)

/-! ## Interrupt level during `as_activate` -/

/-- The loop of `as_activate` leaves the interrupt priority level as it is and records one
write per slot, in order, each at that level. -/
theorem as_activate_loop_log (m : mips) (r : Nat) :
    ∀ (i : Nat) (c : cpustate),
      (as_activate_loop m i r c).ipl = c.ipl ∧
      (as_activate_loop m i r c).tlb_writes
        = c.tlb_writes ++ (List.range' i r).map (fun j => (j, c.ipl)) := by
  induction r with
  | zero =>
    intro i c
    exact ⟨rfl, by simp [as_activate_loop]⟩
  | succ r ih =>
    intro i c
    unfold as_activate_loop
    have h := ih (i + 1) (TLB_Write (m.TLBHI_INVALID i) m.TLBLO_INVALID i c)
    refine ⟨h.1, ?_⟩
    rw [h.2]
    simp [TLB_Write, List.range'_succ]

/-- C30. During `as_activate` no translation-cache write happens while interrupts are
enabled: the writes that the call adds to the record are one `TLB_Write` per slot
`0, ..., NUM_TLB - 1`, in this order, each made at the priority level `SPL_HIGH` that
`splhigh` has set and that stays in force until `splx`; and on return the interrupt priority
level is the one it was on entry. -/
theorem as_activate_masked (m : mips) (a : Option addrspace) (c : cpustate) :
    (splhigh m c).1 = c.ipl ∧ (splhigh m c).2.ipl = m.SPL_HIGH ∧
    (as_activate m a c).tlb_writes
      = c.tlb_writes ++ (List.range m.NUM_TLB).map (fun i => (i, m.SPL_HIGH)) ∧
    (∀ w, w ∈ (List.range m.NUM_TLB).map (fun i => (i, m.SPL_HIGH)) → w.2 = m.SPL_HIGH) ∧
    (as_activate m a c).ipl = c.ipl := by
  have h := as_activate_loop_log m m.NUM_TLB 0 (splhigh m c).2
  refine ⟨rfl, rfl, ?_, ?_, rfl⟩
  · show (as_activate_loop m 0 m.NUM_TLB (splhigh m c).2).tlb_writes = _
    rw [h.2, List.range_eq_range']
    rfl
  · intro w hw
    rcases List.mem_map.mp hw with ⟨i, _, rfl⟩
    rfl

/-! ## What `as_destroy` changes -/

theorem as_destroy_loop_fold (pt : List page_entry) (r : Nat) :
    ∀ (i : Nat) (vm : vmstate),
      as_destroy_loop pt i r vm = (List.range' i r).foldl (as_destroy_slot pt) vm := by
  induction r with
  | zero =>
    intro i vm
    rfl
  | succ r ih =>
    intro i vm
    unfold as_destroy_loop
    rw [List.range'_succ, List.foldl_cons]
    by_cases hp : (pt_read pt i).present = 1
    · rw [if_pos hp, ih]
      unfold as_destroy_slot
      rw [if_pos hp]
    · rw [if_neg hp, ih]
      unfold as_destroy_slot
      rw [if_neg hp]

/-- C26. `as_destroy` runs its loop body once for each page-table slot
`0, ..., 2 * num_page_frames - 1`, in this order, and changes only the coremap entries whose
index is held by a present entry of the destroyed address space: the coremap keeps its
length, and every coremap entry `k` that no present slot holds, a frame number left in an
unpresent entry included, is the same after the call as before. -/
theorem as_destroy_changes_only_present (a : addrspace) (vm : vmstate) :
    as_destroy a vm
      = (List.range (vm.num_page_frames * 2)).foldl (as_destroy_slot a.pagetable) vm ∧
    (as_destroy a vm).coremap.length = vm.coremap.length ∧
    (as_destroy a vm).num_page_frames = vm.num_page_frames ∧
    (as_destroy a vm).first_pageframe_addr = vm.first_pageframe_addr ∧
    ∀ k : Nat,
      (¬ ∃ i, i < vm.num_page_frames * 2 ∧ (pt_read a.pagetable i).present = 1 ∧
        (pt_read a.pagetable i).page_frame_num = (k : Int)) →
      (as_destroy a vm).coremap[k]? = vm.coremap[k]? := by
  have hc := as_destroy_loop_consts a.pagetable (vm.num_page_frames * 2) 0 vm
  refine ⟨?_, hc.2.2, hc.1, hc.2.1, fun k hno => ?_⟩
  · unfold as_destroy
    rw [as_destroy_loop_fold, List.range_eq_range']
  · unfold as_destroy
    apply (as_destroy_loop_get a.pagetable k (vm.num_page_frames * 2) 0 vm).2
    rintro ⟨j, _, h2, h3, h4⟩
    exact hno ⟨j, by omega, h3, h4⟩

/-! ## Coremap indices outside the array -/

/-- C27. The code at a concrete input: `as_copy` of `copy_source`, whose slots 0 and 2 are
present, with frame 2 the only free frame. The allocation for slot 2 fails; the table on
which `as_destroy` is then called has slot 2 present with frame number `-1`, and the
cleanup writes the coremap at index `-1`, outside the array. -/
theorem as_copy_cleanup_index :
    cleanup_table (as_copy_loop getppages copy_source.pagetable 0
      ((copy_vm 0 1).num_page_frames * 2)
      { pt := fresh_as.pagetable, vm := copy_vm 0 1, mem := copy_mem })
      = some [scenario_page 0x403 2, page_entry.unset,
          { present := 1, virt_frame_num := 0x404, page_frame_num := -1, in_valid_region := 1 },
          page_entry.unset, page_entry.unset, page_entry.unset, page_entry.unset,
          page_entry.unset] ∧
    (as_copy getppages (some copy_blk) (some copy_ptblk) copy_source (copy_vm 0 1)
      copy_mem).result = errno.ENOMEM ∧
    (as_copy getppages (some copy_blk) (some copy_ptblk) copy_source (copy_vm 0 1)
      copy_mem).vm.stray = [-1] := by
  decide

/-- C28. The code at a concrete input: `sys_sbrk(-4096)` on a freshly created address space
(no data region, heap base and top `0`), all of whose page-table entries are unset. The
first unset entry, with virtual page number `-1`, matches the page being released, since
`-1 * PAGE_SIZE` and `0 - PAGE_SIZE` are the same 32-bit word; the call returns `0` and the
release writes the coremap at index `-1`, outside the array. -/
theorem sys_sbrk_release_unset_entry :
    as_create (copy_vm 0 0) (some copy_blk) (some copy_ptblk) = some fresh_as ∧
    fresh_as.as_vtop_heap = 0 ∧
    pt_read fresh_as.pagetable 0 = page_entry.unset ∧
    toU32 ((pt_read fresh_as.pagetable 0).virt_frame_num * (PAGE_SIZE : Int))
      = toU32 ((fresh_as.as_vtop_heap : Int) - (PAGE_SIZE : Int)) ∧
    (sys_sbrk scenario_heaplimit (-4096) fresh_as (copy_vm 0 0)).result = errno.OK ∧
    (sys_sbrk scenario_heaplimit (-4096) fresh_as (copy_vm 0 0)).vm.stray = [-1] := by
  decide

/-! ## `as_define_stack` -/

/-- C21. The code at two concrete inputs. On a freshly created address space, whose eight
slots are all unset, no slot holds the last stack page `USERTOP / PAGE_SIZE - 1`: the loop
ends with `i = 8`, the assertion reads the entry past the table (here an entry with frame
number 9) and holds, and the call returns `0` with `USERSTACK`. On a table whose slot 1
holds the last stack page but is not present (frame number `-1`), the assertion holds as
well and the call returns `0` with `USERSTACK`. In neither case is the page mapped. -/
theorem as_define_stack_unmapped :
    (USERTOP / PAGE_SIZE : Nat) - 1 = 0x7ffff ∧
    as_define_stack_loop fresh_as.pagetable 0 ((copy_vm 0 0).num_page_frames * 2) = 8 ∧
    as_define_stack fresh_as (copy_vm 0 0) (scenario_page 9 9) = some (errno.OK, USERSTACK) ∧
    as_define_stack_loop
      [page_entry.unset,
        { present := 0, virt_frame_num := 0x7ffff, page_frame_num := -1, in_valid_region := 1 },
        page_entry.unset, page_entry.unset] 0 ((scenario_vm 0 0).num_page_frames * 2) = 1 ∧
    as_define_stack
      (scenario_as 0x403000
        [page_entry.unset,
          { present := 0, virt_frame_num := 0x7ffff, page_frame_num := -1,
            in_valid_region := 1 },
          page_entry.unset, page_entry.unset])
      (scenario_vm 0 0) page_entry.unset = some (errno.OK, USERSTACK) := by
  decide

/-! ## Heap bounds -/

/-- C23, the claim as stated fails: on a freshly created address space, after the two
`as_define_region` calls of the spec's scenario and before `as_prepare_load`, the heap top
is `0x403000` and the stack base is still the `0` that `as_create` assigned, so
`heap.top ≤ stack.base` does not hold. -/
theorem heap_top_above_unset_stack_base :
    as_create (copy_vm 0 0) (some copy_blk) (some copy_ptblk) = some fresh_as ∧
    (as_define_region (as_define_region fresh_as 0x400000 4096 1 0 1).2
      0x401000 8192 1 1 0).2.as_vtop_heap = 0x403000 ∧
    (as_define_region (as_define_region fresh_as 0x400000 4096 1 0 1).2
      0x401000 8192 1 1 0).2.as_vbase_stack = 0 ∧
    ¬ ((as_define_region (as_define_region fresh_as 0x400000 4096 1 0 1).2
        0x401000 8192 1 1 0).2.as_vtop_heap
      ≤ (as_define_region (as_define_region fresh_as 0x400000 4096 1 0 1).2
        0x401000 8192 1 1 0).2.as_vbase_stack) := by
  decide

/-- The heap and the stack base of the address space that `as_copy` stores are the
source's. -/
theorem as_copy_ret_heap (gp : Nat → vmstate → Nat × List coremap_entry)
    (blk : Option addrspace) (ptblk : Option (List page_entry)) (old new : addrspace)
    (vm : vmstate) (mem : Nat → Nat)
    (h : (as_copy gp blk ptblk old vm mem).ret = some new) :
    new.as_vbase_heap = old.as_vbase_heap ∧ new.as_vtop_heap = old.as_vtop_heap ∧
    new.as_vbase_stack = old.as_vbase_stack := by
  cases blk with
  | none => simp [as_copy, as_create] at h
  | some b =>
    cases ptblk with
    | none => simp [as_copy, as_create] at h
    | some t =>
      cases hl : as_copy_loop gp old.pagetable 0 (vm.num_page_frames * 2)
          { pt := as_create_loop 0 (vm.num_page_frames * 2) t, vm := vm, mem := mem } with
      | error s => simp [as_copy, as_create, hl] at h
      | ok s =>
        simp only [as_copy, as_create, hl, Option.some.injEq] at h
        subst h
        exact ⟨rfl, rfl, rfl⟩

/-- The heap base that `as_define_region` computes for a data region that ends within user
space. -/
theorem region_heap_eq (vaddr sz : Nat) (huser : vaddr + sz ≤ USERTOP) :
    toU32 ((region_vaddr vaddr : Int)
      + ((toU32 ((region_npages vaddr sz : Int) * (PAGE_SIZE : Int)) : Nat) : Int))
      = vaddr / PAGE_SIZE * PAGE_SIZE
        + (sz + vaddr % PAGE_SIZE + (PAGE_SIZE - 1)) / PAGE_SIZE * PAGE_SIZE := by
  have e1 : ((region_npages vaddr sz : Int) * (PAGE_SIZE : Int))
      = ((region_npages vaddr sz * PAGE_SIZE : Nat) : Int) := by push_cast; rfl
  rw [e1, toU32_natCast]
  have e2 : (region_vaddr vaddr : Int)
      + (((region_npages vaddr sz * PAGE_SIZE) % 2 ^ 32 : Nat) : Int)
      = ((region_vaddr vaddr + (region_npages vaddr sz * PAGE_SIZE) % 2 ^ 32 : Nat) : Int) := by
    push_cast
    rfl
  rw [e2, toU32_natCast, region_vaddr_eq vaddr (by unfold USERTOP at huser; omega),
    region_npages_eq vaddr sz huser]
  unfold USERTOP at huser
  unfold PAGE_SIZE
  omega

/-- What holds of every address space in `as_reach`: the heap bounds, the heap top within
user space, and the stack base either unset or `USERTOP`. -/
theorem as_reach_inv (H : Nat) (a : addrspace) (h : as_reach H a) :
    a.as_vbase_heap ≤ a.as_vtop_heap ∧ a.as_vtop_heap - a.as_vbase_heap ≤ H ∧
    a.as_vtop_heap ≤ USERTOP ∧ (a.as_vbase_stack = 0 ∨ a.as_vbase_stack = USERTOP) := by
  induction h with
  | create vm blk ptblk a hc =>
    have hf := as_create_fields vm blk ptblk a hc
    rw [hf.2.2.2.2.2.2.1, hf.2.2.2.2.2.2.2.1, hf.2.2.2.2.1]
    exact ⟨le_refl 0, Nat.zero_le _, Nat.zero_le _, Or.inl rfl⟩
  | region a vaddr sz r w x _ huser ih =>
    by_cases h1 : a.as_vbase_text = 0
    · rw [as_define_region_text a vaddr sz r w x h1]
      exact ih
    · by_cases h2 : a.as_vbase_data = 0
      · rw [as_define_region_data a vaddr sz r w x h1 h2]
        dsimp only
        rw [region_heap_eq vaddr sz huser]
        refine ⟨le_refl _, by omega, ?_, ih.2.2.2⟩
        unfold USERTOP at huser ⊢
        unfold PAGE_SIZE
        omega
      · rw [as_define_region_full a vaddr sz r w x h1 h2]
        exact ih
  | load a _ ih =>
    exact ⟨ih.1, ih.2.1, ih.2.2.1, Or.inr rfl⟩
  | sbrk a vm change _ h0 hlt ih =>
    by_cases hz : change = 0
    · subst hz
      have e : sys_sbrk H 0 a vm
          = { result := errno.OK, retval := toInt32 a.as_vtop_heap, as := a, vm := vm } := by
        unfold sys_sbrk
        rw [if_pos rfl]
      rw [e]
      exact ih
    · have hpos : 0 < change := by omega
      rw [sys_sbrk_pos H change a vm hpos]
      by_cases c1 : toU32 ((a.as_vtop_heap : Int) + change) > a.as_vbase_stack
      · rw [if_pos c1]
        exact ih
      · rw [if_neg c1]
        by_cases c2 : toU32 ((toU32 ((a.as_vtop_heap : Int) + change) : Int)
            - (a.as_vbase_heap : Int)) > H
        · rw [if_pos c2]
          exact ih
        · rw [if_neg c2]
          have htopu := ih.2.2.1
          unfold USERTOP at htopu
          have e1 : ((toU32 ((a.as_vtop_heap : Int) + change) : Nat) : Int)
              = (a.as_vtop_heap : Int) + change :=
            toU32_of_range _ (by omega) (by omega)
          have e2 : ((toU32 ((toU32 ((a.as_vtop_heap : Int) + change) : Int)
              - (a.as_vbase_heap : Int)) : Nat) : Int)
              = (a.as_vtop_heap : Int) + change - (a.as_vbase_heap : Int) := by
            rw [e1]
            exact toU32_of_range _ (by have := ih.1; omega) (by omega)
          have hst := ih.2.2.2
          refine ⟨?_, ?_, ?_, hst⟩
          · show a.as_vbase_heap ≤ toU32 ((a.as_vtop_heap : Int) + change)
            have := ih.1
            omega
          · show toU32 ((a.as_vtop_heap : Int) + change) - a.as_vbase_heap ≤ H
            have := ih.1
            omega
          · show toU32 ((a.as_vtop_heap : Int) + change) ≤ USERTOP
            unfold USERTOP at hst ⊢
            rcases hst with h | h <;> omega
  | copy gp blk ptblk old new vm mem _ hret ih =>
    have hc := as_copy_ret_heap gp blk ptblk old new vm mem hret
    rw [hc.1, hc.2.1, hc.2.2]
    exact ih

/-- C23, as amended. In every address-space state reachable from `as_create` by
`as_define_region` with regions that end within user space, `as_prepare_load`, `sys_sbrk`
with a `change` that is not negative, and `as_copy`: `heap.base ≤ heap.top` holds and
`heap.top - heap.base ≤ HEAPLIMIT` holds, and `heap.top ≤ stack.base` holds once
`as_prepare_load` has set the stack base (`stack.base = USERTOP`). -/
theorem as_reach_heap_bounds (H : Nat) (a : addrspace) (h : as_reach H a) :
    a.as_vbase_heap ≤ a.as_vtop_heap ∧ a.as_vtop_heap - a.as_vbase_heap ≤ H ∧
    (a.as_vbase_stack = USERTOP →
      a.as_vbase_heap ≤ a.as_vtop_heap ∧ a.as_vtop_heap ≤ a.as_vbase_stack) := by
  have hi := as_reach_inv H a h
  refine ⟨hi.1, hi.2.1, fun hs => ⟨hi.1, ?_⟩⟩
  rw [hs]
  exact hi.2.2.1

/-- The heap bounds at a concrete input: the spec's scenario followed by `as_prepare_load`
and `sys_sbrk(+8192)` gives heap base `0x403000`, heap top `0x405000`, stack base
`USERTOP`. -/
theorem as_reach_heap_bounds_witness :
    (sys_sbrk scenario_heaplimit 8192
      (as_prepare_load
        (as_define_region (as_define_region fresh_as 0x400000 4096 1 0 1).2
          0x401000 8192 1 1 0).2).2 (copy_vm 0 0)).as.as_vtop_heap = 0x405000 ∧
    (sys_sbrk scenario_heaplimit 8192
      (as_prepare_load
        (as_define_region (as_define_region fresh_as 0x400000 4096 1 0 1).2
          0x401000 8192 1 1 0).2).2 (copy_vm 0 0)).as.as_vtop_heap ≤ USERTOP ∧
    (sys_sbrk scenario_heaplimit 8192
      (as_prepare_load
        (as_define_region (as_define_region fresh_as 0x400000 4096 1 0 1).2
          0x401000 8192 1 1 0).2).2 (copy_vm 0 0)).as.as_vtop_heap
      - (sys_sbrk scenario_heaplimit 8192
        (as_prepare_load
          (as_define_region (as_define_region fresh_as 0x400000 4096 1 0 1).2
            0x401000 8192 1 1 0).2).2 (copy_vm 0 0)).as.as_vbase_heap
      ≤ scenario_heaplimit :=
  have h := as_reach_heap_bounds scenario_heaplimit _
    (as_reach.sbrk _ (copy_vm 0 0) 8192
      (as_reach.load _
        (as_reach.region _ 0x401000 8192 1 1 0
          (as_reach.region _ 0x400000 4096 1 0 1
            (as_reach.create (copy_vm 0 0) (some copy_blk) (some copy_ptblk) fresh_as
              fresh_as_created)
            (by decide))
          (by decide)))
      (by decide) (by decide))
  ⟨by decide, by decide, h.2.1⟩

/-! ## Unpresent entries are unset -/

/-- Every entry of the table after the scan of `sys_sbrk` is an entry of the table before
it, or unset. -/
theorem sbrk_scan_mem (target : Nat) (r : Nat) :
    ∀ (i : Nat) (pt : List page_entry) (vm : vmstate) (e : page_entry),
      e ∈ (sbrk_scan target i r pt vm).1 → e ∈ pt ∨ e = page_entry.unset := by
  induction r with
  | zero =>
    intro i pt vm e h
    exact Or.inl h
  | succ r ih =>
    intro i pt vm e h
    unfold sbrk_scan at h
    by_cases hm : toU32 ((pt_read pt i).virt_frame_num * (PAGE_SIZE : Int)) = target
    · rw [if_pos hm] at h
      exact List.mem_or_eq_of_mem_set h
    · rw [if_neg hm] at h
      exact ih (i + 1) pt vm e h

theorem sbrk_release_mem (change : Int) (r : Nat) :
    ∀ (a : addrspace) (vm : vmstate) (e : page_entry),
      e ∈ (sbrk_release change r a vm).1.pagetable → e ∈ a.pagetable ∨ e = page_entry.unset := by
  induction r with
  | zero =>
    intro a vm e h
    exact Or.inl h
  | succ r ih =>
    intro a vm e h
    unfold sbrk_release at h
    rcases ih _ _ e h with h1 | h1
    · exact sbrk_scan_mem _ _ 0 a.pagetable vm e h1
    · exact Or.inr h1

/-- Every entry of the page table after a call of `sys_sbrk` is an entry of the table before
the call, or unset. -/
theorem sys_sbrk_mem (H : Nat) (change : Int) (a : addrspace) (vm : vmstate) (e : page_entry)
    (h : e ∈ (sys_sbrk H change a vm).as.pagetable) : e ∈ a.pagetable ∨ e = page_entry.unset := by
  unfold sys_sbrk at h
  by_cases h0 : change = 0
  · rw [if_pos h0] at h
    exact Or.inl h
  · rw [if_neg h0] at h
    by_cases hneg : change < 0
    · rw [if_pos hneg] at h
      by_cases hg : toU32 ((a.as_vtop_heap : Int) - change) < a.as_vbase_heap
      · rw [if_pos hg] at h
        exact Or.inl h
      · rw [if_neg hg] at h
        exact sbrk_release_mem change _ a vm e h
    · rw [if_neg hneg] at h
      by_cases c1 : toU32 ((a.as_vtop_heap : Int) + change) > a.as_vbase_stack
      · rw [if_pos c1] at h
        exact Or.inl h
      · rw [if_neg c1] at h
        by_cases c2 : toU32 ((toU32 ((a.as_vtop_heap : Int) + change) : Int)
            - (a.as_vbase_heap : Int)) > H
        · rw [if_pos c2] at h
          exact Or.inl h
        · rw [if_neg c2] at h
          exact Or.inl h

/-- The page table of the address space that `as_copy` stores satisfies `copy_pt_inv` after
the last slot. -/
theorem as_copy_ret_pt (gp : Nat → vmstate → Nat × List coremap_entry)
    (blk : Option addrspace) (ptblk : Option (List page_entry)) (old new : addrspace)
    (vm : vmstate) (mem : Nat → Nat)
    (hblk : ∀ t, ptblk = some t → t.length = vm.num_page_frames * 2)
    (h : (as_copy gp blk ptblk old vm mem).ret = some new) :
    copy_pt_inv old.pagetable (vm.num_page_frames * 2) (vm.num_page_frames * 2)
      new.pagetable := by
  cases blk with
  | none => simp [as_copy, as_create] at h
  | some b =>
    cases ptblk with
    | none => simp [as_copy, as_create] at h
    | some t =>
      cases hl : as_copy_loop gp old.pagetable 0 (vm.num_page_frames * 2)
          { pt := as_create_loop 0 (vm.num_page_frames * 2) t, vm := vm, mem := mem } with
      | error s => simp [as_copy, as_create, hl] at h
      | ok s =>
        have hinv := as_copy_loop_pt gp old.pagetable (vm.num_page_frames * 2)
          (vm.num_page_frames * 2) 0 _ (by omega)
          (copy_pt_inv_init old.pagetable (vm.num_page_frames * 2) t (hblk t rfl)) s hl
        simp only [as_copy, as_create, hl, Option.some.injEq] at h
        subst h
        exact hinv

/-- What holds of every table in `table_made`: each entry is unset or present. -/
theorem table_made_inv (H : Nat) (pt : List page_entry) (h : table_made H pt) :
    ∀ e, e ∈ pt → e = page_entry.unset ∨ e.present = 1 := by
  induction h with
  | create vm blk ptblk a hblk hc =>
    intro e he
    rcases (as_create_fields vm blk ptblk a hc).2.2.2.2.2.2.2.2.2 with ⟨t, ht, hpt⟩
    rcases List.mem_iff_getElem?.mp he with ⟨j, hj⟩
    have hlt : j < a.pagetable.length := by
      rcases List.getElem?_eq_some_iff.mp hj with ⟨hl, _⟩
      exact hl
    rw [hpt] at hj hlt
    rw [as_create_loop_length, hblk t ht] at hlt
    rw [(as_create_loop_get (vm.num_page_frames * 2) 0 t j).1 (Nat.zero_le j) (by omega)
      (by rw [hblk t ht]; exact hlt)] at hj
    cases hj
    exact Or.inl rfl
  | copy gp blk ptblk old new vm mem hblk hret =>
    intro e he
    have hinv := as_copy_ret_pt gp blk ptblk old new vm mem hblk hret
    rcases List.mem_iff_getElem?.mp he with ⟨j, hj⟩
    have hlt : j < vm.num_page_frames * 2 := by
      rcases List.getElem?_eq_some_iff.mp hj with ⟨hl, _⟩
      rw [hinv.len] at hl
      exact hl
    by_cases hp : (pt_read old.pagetable j).present = 1
    · rcases hinv.copied j hlt hp with ⟨f, hf⟩
      rw [hf] at hj
      cases hj
      exact Or.inr rfl
    · rw [hinv.skipped j hlt hp] at hj
      cases hj
      exact Or.inl rfl
  | sbrk a vm change _ ih =>
    intro e he
    rcases sys_sbrk_mem H change a vm e he with h1 | h1
    · exact ih e h1
    · exact Or.inl h1

/-- C25. In every page table produced by `as_create` and then changed only by `as_copy`,
as its destination, and by `sys_sbrk`, every entry with `present = 0` has virtual page number
`-1` and frame number `-1`. -/
theorem table_made_unpresent_unset (H : Nat) (pt : List page_entry) (h : table_made H pt)
    (e : page_entry) (he : e ∈ pt) (hp : e.present = 0) :
    e.virt_frame_num = -1 ∧ e.page_frame_num = -1 := by
  rcases table_made_inv H pt h e he with h1 | h1
  · rw [h1]
    exact ⟨rfl, rfl⟩
  · rw [hp] at h1
    exact absurd h1 (by decide)

theorem copy_made_stored :
    (as_copy getppages (some copy_blk) (some copy_ptblk) copy_source (copy_vm 0 0)
      copy_mem).ret = some copy_made := by
  decide

/-- Unpresent entries at a concrete input: the table of the copy of `copy_source` after a
release of 4096 bytes by `sys_sbrk`, in which the entry of page `0x404` has been reset. -/
theorem table_made_unpresent_unset_witness :
    (sys_sbrk scenario_heaplimit (-4096) copy_made (copy_vm 1 1)).as.pagetable
      = [scenario_page 0x403 2, page_entry.unset, page_entry.unset, page_entry.unset,
         page_entry.unset, page_entry.unset, page_entry.unset, page_entry.unset] ∧
    page_entry.unset.virt_frame_num = -1 ∧ page_entry.unset.page_frame_num = -1 :=
  ⟨by decide,
    table_made_unpresent_unset scenario_heaplimit _
      (table_made.sbrk copy_made (copy_vm 1 1) (-4096)
        (table_made.copy getppages (some copy_blk) (some copy_ptblk) copy_source copy_made
          (copy_vm 0 0) copy_mem (copy_ptblk_length 0 0) copy_made_stored))
      page_entry.unset (by decide) (by decide)⟩

/-! ## The coremap entries of the frames that `as_copy` takes -/

/-- An iteration of the loop of `as_copy` on a present source slot that completes: the
allocator has handed out a frame `k` that was free and has marked it with an entry `e1` with
`valid = 1`; the slot holds `k`, and no other coremap entry has changed. -/
theorem as_copy_body_alloc (gp : Nat → vmstate → Nat × List coremap_entry)
    (hgp : getppages_contract gp) (old : List page_entry) (n : Nat) (vm0 : vmstate)
    (mem0 : Nat → Nat) (hfpa : 0 < vm0.first_pageframe_addr)
    (hfit : vm0.first_pageframe_addr + PAGE_SIZE * vm0.coremap.length ≤ 2 ^ 32)
    (i : Nat) (s : copy_state) (hinv : copy_inv old n vm0 mem0 i s) (hi : i < n)
    (hp : (pt_read old i).present = 1) (s1 : copy_state)
    (h : as_copy_body gp old i s = Except.ok s1) :
    ∃ (k : Nat) (e e1 : coremap_entry), s.vm.coremap[k]? = some e ∧ e.valid = 0 ∧
      e1.valid = 1 ∧
      s1.pt = s.pt.set i
        { present := 1, virt_frame_num := (pt_read old i).virt_frame_num,
          page_frame_num := (k : Int), in_valid_region := (pt_read old i).in_valid_region } ∧
      s1.vm.coremap = s.vm.coremap.set k e1 := by
  have hunset : pt_read s.pt i = page_entry.unset :=
    pt_read_of_get _ _ _ (hinv.todo i (le_refl i) hi)
  rcases hgp s.vm (by rw [hinv.fpa]; exact hfpa) with ⟨_, hsucc⟩
  by_cases hz : (gp 1 s.vm).1 = 0
  · simp only [as_copy_body, if_pos hp, if_pos hz] at h
    cases h
  · rcases hsucc hz with ⟨k, e, hke, hev, hpa, e1, he1, hcm⟩
    have hklt : k < s.vm.coremap.length := frame_free_lt s.vm k ⟨e, hke, hev⟩
    have hfit_s : s.vm.first_pageframe_addr + PAGE_SIZE * s.vm.coremap.length ≤ 2 ^ 32 := by
      rw [hinv.fpa, hinv.cmlen]
      exact hfit
    have hidx : frame_index { s.vm with coremap := (gp 1 s.vm).2 } (gp 1 s.vm).1 = (k : Int) := by
      rw [hpa]
      exact frame_index_of_frame s.vm k hklt hfit_s
    simp only [as_copy_body, if_pos hp, if_neg hz, hunset, hidx, hp] at h
    cases h
    exact ⟨k, e, e1, hke, hev, he1, rfl, hcm⟩

/-- Along the loop of `as_copy`, every present slot of the new table holds a frame whose
coremap entry has `valid = 1`. -/
theorem as_copy_loop_valid (gp : Nat → vmstate → Nat × List coremap_entry)
    (hgp : getppages_contract gp) (old : List page_entry) (n : Nat) (vm0 : vmstate)
    (mem0 : Nat → Nat) (hfpa : 0 < vm0.first_pageframe_addr)
    (hfit : vm0.first_pageframe_addr + PAGE_SIZE * vm0.coremap.length ≤ 2 ^ 32) (r : Nat) :
    ∀ (i : Nat) (s : copy_state), i + r = n → copy_inv old n vm0 mem0 i s →
      (∀ j, j < n → (pt_read s.pt j).present = 1 →
        ∃ (k : Nat) (e : coremap_entry), (pt_read s.pt j).page_frame_num = (k : Int) ∧
          s.vm.coremap[k]? = some e ∧ e.valid = 1) →
      ∀ s1, as_copy_loop gp old i r s = Except.ok s1 →
        ∀ j, j < n → (pt_read s1.pt j).present = 1 →
          ∃ (k : Nat) (e : coremap_entry), (pt_read s1.pt j).page_frame_num = (k : Int) ∧
            s1.vm.coremap[k]? = some e ∧ e.valid = 1 := by
  induction r with
  | zero =>
    intro i s _ _ hv s1 h
    unfold as_copy_loop at h
    cases h
    exact hv
  | succ r ih =>
    intro i s hn hinv hv s1 h
    have hi : i < n := by omega
    have hbody := as_copy_body_inv gp hgp old n vm0 mem0 hfpa hfit i s hinv hi
    unfold as_copy_loop at h
    cases hb : as_copy_body gp old i s with
    | error s2 =>
      rw [hb] at h
      cases h
    | ok s2 =>
      rw [hb] at h
      refine ih (i + 1) s2 (by omega) (hbody.1 s2 hb) ?_ s1 h
      by_cases hp : (pt_read old i).present = 1
      · rcases as_copy_body_alloc gp hgp old n vm0 mem0 hfpa hfit i s hinv hi hp s2 hb with
          ⟨k, e, e1, hke, hev, he1, hpt, hcm⟩
        have hklt : k < s.vm.coremap.length := frame_free_lt s.vm k ⟨e, hke, hev⟩
        have hilt : i < s.pt.length := by rw [hinv.len]; exact hi
        intro j hj pj
        rw [hpt] at pj ⊢
        rw [hcm]
        by_cases hji : j = i
        · subst hji
          rw [pt_read_set_self _ _ _ hilt]
          exact ⟨k, e1, rfl, List.getElem?_set_self hklt, he1⟩
        · rw [pt_read_set_ne _ _ _ _ hji] at pj ⊢
          rcases hv j hj pj with ⟨kj, ej, g1, g2, g3⟩
          have hne : k ≠ kj := by
            rintro rfl
            rw [hke] at g2
            cases g2
            rw [hev] at g3
            exact absurd g3 (by decide)
          exact ⟨kj, ej, g1, by rw [List.getElem?_set_ne hne]; exact g2, g3⟩
      · have hs : s2 = s := by
          simp only [as_copy_body, if_neg hp] at hb
          cases hb
          rfl
        rw [hs]
        exact hv

/-- C24, the claim as stated fails: after the successful `as_copy` of `copy_source`, slot 0
of the new page table is present and holds frame 2, and the coremap entry of frame 2 is in
use (`valid = 1`) but its back-reference `v_page` is `NULL`: it points to no page-table
entry. -/
theorem as_copy_no_back_reference :
    (as_copy getppages (some copy_blk) (some copy_ptblk) copy_source (copy_vm 0 0)
      copy_mem).result = errno.OK ∧
    (as_copy getppages (some copy_blk) (some copy_ptblk) copy_source (copy_vm 0 0)
      copy_mem).ret = some copy_made ∧
    pt_read copy_made.pagetable 0 = scenario_page 0x403 2 ∧
    (as_copy getppages (some copy_blk) (some copy_ptblk) copy_source (copy_vm 0 0)
      copy_mem).vm.coremap[2]?
      = some { v_page := none, physical_addr := 0x102000, num_page_frames := 1,
               starting_page := 1, valid := 1 } := by
  decide

/-- C24, as amended. After a successful `as_copy`, with `getppages` taken to return a frame
that was free and to mark it in use on a machine whose frames lie within the 32-bit physical
address space above address `0`: every present entry of the new page table holds a frame
index whose coremap entry is in use (`valid = 1`). -/
theorem as_copy_frames_in_use (gp : Nat → vmstate → Nat × List coremap_entry)
    (blk : Option addrspace) (ptblk : Option (List page_entry)) (old : addrspace)
    (vm : vmstate) (mem : Nat → Nat) (hgp : getppages_contract gp)
    (hfpa : 0 < vm.first_pageframe_addr)
    (hfit : vm.first_pageframe_addr + PAGE_SIZE * vm.coremap.length ≤ 2 ^ 32)
    (hblk : ∀ t, ptblk = some t → t.length = vm.num_page_frames * 2)
    (hok : (as_copy gp blk ptblk old vm mem).result = errno.OK) :
    ∃ new, (as_copy gp blk ptblk old vm mem).ret = some new ∧
      ∀ i, i < vm.num_page_frames * 2 → (pt_read new.pagetable i).present = 1 →
        ∃ (k : Nat) (e : coremap_entry), (pt_read new.pagetable i).page_frame_num = (k : Int) ∧
          (as_copy gp blk ptblk old vm mem).vm.coremap[k]? = some e ∧ e.valid = 1 := by
  cases blk with
  | none => simp [as_copy, as_create] at hok
  | some b =>
    cases ptblk with
    | none => simp [as_copy, as_create] at hok
    | some t =>
      have hinit := copy_inv_init old.pagetable vm mem t (hblk t rfl)
      have hsome := as_copy_some gp b t old vm mem
      cases hl : as_copy_loop gp old.pagetable 0 (vm.num_page_frames * 2)
          { pt := as_create_loop 0 (vm.num_page_frames * 2) t, vm := vm, mem := mem } with
      | error s =>
        rw [(hsome.2 s hl).1] at hok
        cases hok
      | ok s =>
        rcases hsome.1 s hl with ⟨_, ⟨new, h1, h2⟩, h3, _⟩
        refine ⟨new, h1, ?_⟩
        rw [h2, h3]
        refine as_copy_loop_valid gp hgp old.pagetable (vm.num_page_frames * 2) vm mem hfpa
          hfit (vm.num_page_frames * 2) 0 _ (by omega) hinit ?_ s hl
        intro j hj pj
        rw [pt_read_of_get _ _ _ (hinit.todo j (Nat.zero_le j) hj)] at pj
        exact absurd pj (by decide)

/-- The frames of the copy at a concrete input: the copy of `copy_source` holds frames whose
coremap entries have `valid = 1`. -/
theorem as_copy_frames_in_use_witness :
    ∃ new, (as_copy getppages (some copy_blk) (some copy_ptblk) copy_source (copy_vm 0 0)
        copy_mem).ret = some new ∧
      ∀ i, i < (copy_vm 0 0).num_page_frames * 2 → (pt_read new.pagetable i).present = 1 →
        ∃ (k : Nat) (e : coremap_entry), (pt_read new.pagetable i).page_frame_num = (k : Int) ∧
          (as_copy getppages (some copy_blk) (some copy_ptblk) copy_source (copy_vm 0 0)
            copy_mem).vm.coremap[k]? = some e ∧ e.valid = 1 :=
  as_copy_frames_in_use getppages (some copy_blk) (some copy_ptblk) copy_source (copy_vm 0 0)
    copy_mem getppages_meets_contract (by decide) (by decide) (copy_ptblk_length 0 0)
    (by decide)

/-! ## `as_copy` and the frames in use at the start -/

/-- The cleanup of `as_copy` leaves the coremap entries of the frames in use at the start as
they were. -/
theorem copy_fail_destroy_kept (old : List page_entry) (n : Nat) (vm0 : vmstate)
    (mem0 : Nat → Nat) (i1 : Nat) (s0 s1 : copy_state) (hi1 : i1 < n)
    (hinv : copy_inv old n vm0 mem0 i1 s0) (hf : copy_fail old i1 s0 s1) (k : Nat)
    (hu : frame_in_use vm0 k) :
    (as_destroy_loop s1.pt 0 n s1.vm).coremap[k]? = vm0.coremap[k]? := by
  rcases hf with ⟨_, hpt, hvm, _⟩
  have hilt : i1 < s0.pt.length := by rw [hinv.len]; exact hi1
  have hno : ¬ ∃ j, 0 ≤ j ∧ j < 0 + n ∧ (pt_read s1.pt j).present = 1 ∧
      (pt_read s1.pt j).page_frame_num = (k : Int) := by
    rintro ⟨j, _, hjn, pj, hk⟩
    by_cases hj : j = i1
    · rw [hj, hpt, pt_read_set_self _ _ _ hilt] at hk
      have hk1 : (-1 : Int) = (k : Int) := hk
      omega
    · rw [hpt, pt_read_set_ne _ _ _ _ hj] at pj hk
      by_cases hlt : j < i1
      · rcases copy_inv_present _ _ _ _ _ _ hinv j hlt pj with ⟨_, kj, g1, g2, _⟩
        rw [g1] at hk
        have hkk : kj = k := by exact_mod_cast hk
        rw [hkk] at g2
        exact frame_free_not_in_use vm0 k g2 hu
      · rw [pt_read_of_get _ _ _ (hinv.todo j (by omega) (by omega))] at pj
        exact absurd pj (by decide)
  rw [(as_destroy_loop_get s1.pt k n 0 s1.vm).2 hno, hvm]
  exact hinv.kept k hu

/-- C29. `as_copy` leaves its source untouched, whether it succeeds or fails, on a machine
whose frames lie within the 32-bit physical address space above address `0` and with
`getppages` taken to return `0` without effect or a frame that was free, marked in use: the
coremap entry and the `PAGE_SIZE` bytes of every frame that was in use when the call
started are the same after the call as before, and so, for a source whose present entries
hold frames in use, are the coremap entries and the page contents of the frames referenced
by the source's present entries. The source address space itself, its region descriptors
and its page table, is only read by the function. -/
theorem as_copy_source_untouched (gp : Nat → vmstate → Nat × List coremap_entry)
    (blk : Option addrspace) (ptblk : Option (List page_entry)) (old : addrspace)
    (vm : vmstate) (mem : Nat → Nat) (hgp : getppages_contract gp)
    (hfpa : 0 < vm.first_pageframe_addr)
    (hfit : vm.first_pageframe_addr + PAGE_SIZE * vm.coremap.length ≤ 2 ^ 32)
    (hblk : ∀ t, ptblk = some t → t.length = vm.num_page_frames * 2) :
    (∀ k, frame_in_use vm k →
      (as_copy gp blk ptblk old vm mem).vm.coremap[k]? = vm.coremap[k]? ∧
      ∀ b, b < PAGE_SIZE →
        (as_copy gp blk ptblk old vm mem).mem (vm.first_pageframe_addr + k * PAGE_SIZE + b)
          = mem (vm.first_pageframe_addr + k * PAGE_SIZE + b)) ∧
    ((∀ j, j < vm.num_page_frames * 2 → (pt_read old.pagetable j).present = 1 →
        ∃ k : Nat, (pt_read old.pagetable j).page_frame_num = (k : Int) ∧ frame_in_use vm k) →
      ∀ j, j < vm.num_page_frames * 2 → (pt_read old.pagetable j).present = 1 →
        ∃ k : Nat, (pt_read old.pagetable j).page_frame_num = (k : Int) ∧
          (as_copy gp blk ptblk old vm mem).vm.coremap[k]? = vm.coremap[k]? ∧
          ∀ b, b < PAGE_SIZE →
            (as_copy gp blk ptblk old vm mem).mem
                (frame_paddr vm (pt_read old.pagetable j).page_frame_num + b)
              = mem (frame_paddr vm (pt_read old.pagetable j).page_frame_num + b)) := by
  have key : ∀ k, frame_in_use vm k →
      (as_copy gp blk ptblk old vm mem).vm.coremap[k]? = vm.coremap[k]? ∧
      ∀ b, b < PAGE_SIZE →
        (as_copy gp blk ptblk old vm mem).mem (vm.first_pageframe_addr + k * PAGE_SIZE + b)
          = mem (vm.first_pageframe_addr + k * PAGE_SIZE + b) := by
    intro k hu
    cases blk with
    | none => exact ⟨rfl, fun _ _ => rfl⟩
    | some b0 =>
      cases ptblk with
      | none => exact ⟨rfl, fun _ _ => rfl⟩
      | some t =>
        have hinit := copy_inv_init old.pagetable vm mem t (hblk t rfl)
        have hloop := as_copy_loop_inv gp hgp old.pagetable (vm.num_page_frames * 2) vm mem
          hfpa hfit (vm.num_page_frames * 2) 0 _ (by omega) hinit
        have hsome := as_copy_some gp b0 t old vm mem
        cases hl : as_copy_loop gp old.pagetable 0 (vm.num_page_frames * 2)
            { pt := as_create_loop 0 (vm.num_page_frames * 2) t, vm := vm, mem := mem } with
        | ok s =>
          rcases hsome.1 s hl with ⟨_, _, h3, h4⟩
          have hinv := hloop.1 s hl
          rw [h3, h4]
          exact ⟨hinv.kept k hu, hinv.src_bytes k hu⟩
        | error s =>
          rcases hsome.2 s hl with ⟨_, _, h3, h4⟩
          rcases hloop.2 s hl with ⟨i1, s0, hi1, hinv, hcf⟩
          have hnpf : s.vm.num_page_frames = vm.num_page_frames := by
            rw [hcf.2.2.1]
            exact hinv.npf
          rw [hnpf] at h3
          rw [h3, h4, hcf.2.2.2]
          exact ⟨copy_fail_destroy_kept old.pagetable (vm.num_page_frames * 2) vm mem i1 s0 s
            hi1 hinv hcf k hu, hinv.src_bytes k hu⟩
  refine ⟨key, fun hsrc j hj pj => ?_⟩
  rcases hsrc j hj pj with ⟨k, hk, hu⟩
  refine ⟨k, hk, (key k hu).1, fun b hb => ?_⟩
  rw [hk, frame_paddr_of_frame vm k (frame_in_use_lt vm k hu) hfit]
  exact (key k hu).2 b hb

/-- The source's frames at concrete inputs: after the copy of `copy_source` that succeeds
and after the one that fails, the coremap entry of frame 1, which slot 2 of the source
holds, is the one before the call. -/
theorem as_copy_source_untouched_witness :
    (as_copy getppages (some copy_blk) (some copy_ptblk) copy_source (copy_vm 0 0)
      copy_mem).vm.coremap[1]? = (copy_vm 0 0).coremap[1]? ∧
    (as_copy getppages (some copy_blk) (some copy_ptblk) copy_source (copy_vm 0 1)
      copy_mem).vm.coremap[1]? = (copy_vm 0 1).coremap[1]? :=
  ⟨((as_copy_source_untouched getppages (some copy_blk) (some copy_ptblk) copy_source
      (copy_vm 0 0) copy_mem getppages_meets_contract (by decide) (by decide)
      (copy_ptblk_length 0 0)).1 1 ⟨scenario_frame 0x101000 1, rfl, by decide⟩).1,
   ((as_copy_source_untouched getppages (some copy_blk) (some copy_ptblk) copy_source
      (copy_vm 0 1) copy_mem getppages_meets_contract (by decide) (by decide)
      (copy_ptblk_length 0 1)).1 1 ⟨scenario_frame 0x101000 1, rfl, by decide⟩).1⟩

/-! ## Kernel states reachable from boot -/

theorem mem_of_get {α : Type} (l : List α) (i : Nat) (a : α) (h : l[i]? = some a) : a ∈ l := by
  rcases List.getElem?_eq_some.mp h with ⟨hi, rfl⟩
  exact List.getElem_mem hi

theorem pt_read_set_unset (pt : List page_entry) (i j : Nat) :
    pt_read (pt.set i page_entry.unset) j
      = if j = i then page_entry.unset else pt_read pt j := by
  by_cases hj : j = i
  · rw [if_pos hj, hj]
    by_cases hi : i < pt.length
    · exact pt_read_set_self _ _ _ hi
    · unfold pt_read
      rw [List.getD_eq_getElem?_getD, List.getElem?_eq_none (by rw [List.length_set]; omega)]
      rfl
  · rw [if_neg hj]
    exact pt_read_set_ne _ _ _ _ hj

theorem table_unset_set (n : Nat) (pt : List page_entry) (i : Nat) (h : table_unset n pt) :
    table_unset n (pt.set i page_entry.unset) := by
  intro j hj
  rw [pt_read_set_unset]
  by_cases hji : j = i
  · rw [if_pos hji]
  · rw [if_neg hji]
    exact h j hj

theorem coremap_release_stray (vm : vmstate) :
    (coremap_release vm (-1)).coremap = vm.coremap ∧
    (coremap_release vm (-1)).num_page_frames = vm.num_page_frames := by
  unfold coremap_release
  rw [if_neg (by decide)]
  exact ⟨rfl, rfl⟩

/-- On a table whose slots are unset, the scan of `sys_sbrk` leaves the slots unset and the
coremap as it was. -/
theorem sbrk_scan_unset (target n : Nat) (r : Nat) :
    ∀ (i : Nat) (pt : List page_entry) (vm : vmstate), i + r ≤ n → table_unset n pt →
      table_unset n (sbrk_scan target i r pt vm).1 ∧
      (sbrk_scan target i r pt vm).2.coremap = vm.coremap ∧
      (sbrk_scan target i r pt vm).2.num_page_frames = vm.num_page_frames := by
  induction r with
  | zero => intro i pt vm _ h; exact ⟨h, rfl, rfl⟩
  | succ r ih =>
    intro i pt vm hir h
    unfold sbrk_scan
    by_cases hm : toU32 ((pt_read pt i).virt_frame_num * (PAGE_SIZE : Int)) = target
    · rw [if_pos hm]
      dsimp only
      rw [h i (by omega)]
      exact ⟨table_unset_set n pt i h, coremap_release_stray vm⟩
    · rw [if_neg hm]
      exact ih (i + 1) pt vm (by omega) h

theorem sbrk_release_unset (change : Int) (r : Nat) :
    ∀ (a : addrspace) (vm : vmstate), table_unset (vm.num_page_frames * 2) a.pagetable →
      table_unset (vm.num_page_frames * 2) (sbrk_release change r a vm).1.pagetable ∧
      (sbrk_release change r a vm).2.coremap = vm.coremap ∧
      (sbrk_release change r a vm).2.num_page_frames = vm.num_page_frames := by
  induction r with
  | zero => intro a vm h; exact ⟨h, rfl, rfl⟩
  | succ r ih =>
    intro a vm h
    unfold sbrk_release
    dsimp only
    have hs := sbrk_scan_unset (toU32 ((a.as_vtop_heap : Int) - (PAGE_SIZE : Int)))
      (vm.num_page_frames * 2) (vm.num_page_frames * 2) 0 a.pagetable vm (by omega) h
    have hr := ih
      { a with
        pagetable := (sbrk_scan (toU32 ((a.as_vtop_heap : Int) - (PAGE_SIZE : Int))) 0
          (vm.num_page_frames * 2) a.pagetable vm).1,
        as_vtop_heap := toU32 ((a.as_vtop_heap : Int) - change) }
      (sbrk_scan (toU32 ((a.as_vtop_heap : Int) - (PAGE_SIZE : Int))) 0
          (vm.num_page_frames * 2) a.pagetable vm).2
      (by rw [hs.2.2]; exact hs.1)
    rw [hs.2.2] at hr
    exact ⟨hr.1, hr.2.1.trans hs.2.1, hr.2.2⟩

theorem sys_sbrk_unset (H : Nat) (change : Int) (a : addrspace) (vm : vmstate)
    (h : table_unset (vm.num_page_frames * 2) a.pagetable) :
    table_unset (vm.num_page_frames * 2) (sys_sbrk H change a vm).as.pagetable ∧
    (sys_sbrk H change a vm).vm.coremap = vm.coremap ∧
    (sys_sbrk H change a vm).vm.num_page_frames = vm.num_page_frames := by
  unfold sys_sbrk
  split_ifs
  · exact ⟨h, rfl, rfl⟩
  · exact ⟨h, rfl, rfl⟩
  · exact sbrk_release_unset change _ a vm h
  · exact ⟨h, rfl, rfl⟩
  · exact ⟨h, rfl, rfl⟩
  · exact ⟨h, rfl, rfl⟩

theorem as_create_loop_unset (n : Nat) (t : List page_entry) :
    table_unset n (as_create_loop 0 n t) := by
  intro j hj
  by_cases hl : j < t.length
  · exact pt_read_of_get _ _ _ ((as_create_loop_get n 0 t j).1 (by omega) (by omega) hl)
  · unfold pt_read
    rw [List.getD_eq_getElem?_getD,
      List.getElem?_eq_none (by rw [as_create_loop_length]; omega)]
    rfl

/-- With a source whose slots are unset the loop of `as_copy` changes nothing. -/
theorem as_copy_loop_unset (gp : Nat → vmstate → Nat × List coremap_entry)
    (old : List page_entry) (n : Nat) (hold : table_unset n old) (r : Nat) :
    ∀ (i : Nat) (s : copy_state), i + r ≤ n → as_copy_loop gp old i r s = Except.ok s := by
  induction r with
  | zero => intro i s _; rfl
  | succ r ih =>
    intro i s hir
    have hb : as_copy_body gp old i s = Except.ok s := by
      unfold as_copy_body
      rw [hold i (by omega)]
      rw [if_neg (by decide)]
    unfold as_copy_loop
    rw [hb]
    exact ih (i + 1) s (by omega)

theorem as_copy_unset (gp : Nat → vmstate → Nat × List coremap_entry) (blk : Option addrspace)
    (ptblk : Option (List page_entry)) (old : addrspace) (vm : vmstate) (mem : Nat → Nat)
    (hold : table_unset (vm.num_page_frames * 2) old.pagetable) :
    (as_copy gp blk ptblk old vm mem).vm = vm ∧
    ∀ new, (as_copy gp blk ptblk old vm mem).ret = some new →
      table_unset (vm.num_page_frames * 2) new.pagetable := by
  cases blk with
  | none => exact ⟨rfl, fun new h => by cases h⟩
  | some b =>
    cases ptblk with
    | none => exact ⟨rfl, fun new h => by cases h⟩
    | some t =>
      have hl := as_copy_loop_unset gp old.pagetable (vm.num_page_frames * 2) hold
        (vm.num_page_frames * 2) 0
        { pt := as_create_loop 0 (vm.num_page_frames * 2) t, vm := vm, mem := mem } (by omega)
      rcases (as_copy_some gp b t old vm mem).1 _ hl with ⟨_, ⟨new, hn, hpt⟩, hvm, _⟩
      refine ⟨hvm, fun new1 h1 => ?_⟩
      rw [hn] at h1
      cases h1
      rw [hpt]
      exact as_create_loop_unset _ t

theorem as_destroy_loop_unset (pt : List page_entry) (n : Nat) (h : table_unset n pt)
    (r : Nat) : ∀ (i : Nat) (vm : vmstate), i + r ≤ n → as_destroy_loop pt i r vm = vm := by
  induction r with
  | zero => intro i vm _; rfl
  | succ r ih =>
    intro i vm hir
    unfold as_destroy_loop
    rw [h i (by omega), if_neg (by decide)]
    exact ih (i + 1) vm (by omega)

theorem as_define_region_pagetable (a : addrspace) (vaddr sz : Nat) (r w x : Int) :
    (as_define_region a vaddr sz r w x).2.pagetable = a.pagetable := by
  unfold as_define_region
  split_ifs <;> rfl

/-- In a state reachable from boot every slot of every live page table is unset and no
coremap entry has `valid = 1`. -/
theorem kernel_reach_inv (H : Nat) (gp : Nat → vmstate → Nat × List coremap_entry) (k : kernel)
    (h : kernel_reach H gp k) :
    (∀ a, a ∈ k.spaces → table_unset (k.vm.num_page_frames * 2) a.pagetable) ∧
    (∀ e, e ∈ k.vm.coremap → e.valid ≠ 1) := by
  induction h with
  | boot k hb =>
    refine ⟨fun a ha => ?_, hb.2⟩
    rw [hb.1] at ha
    cases ha
  | step k k1 _ hs ih =>
    cases hs with
    | create blk ptblk a _ hc =>
      refine ⟨fun a1 ha1 => ?_, ih.2⟩
      rcases List.mem_append.mp ha1 with h1 | h1
      · exact ih.1 a1 h1
      · rw [List.mem_singleton.mp h1]
        rcases as_create_fields k.vm blk ptblk a hc with ⟨_, _, _, _, _, _, _, _, _, t, _, hpt⟩
        rw [hpt]
        exact as_create_loop_unset _ t
    | region i a vaddr sz r w x hi =>
      refine ⟨fun a1 ha1 => ?_, ih.2⟩
      rcases List.mem_or_eq_of_mem_set ha1 with h1 | h1
      · exact ih.1 a1 h1
      · rw [h1, as_define_region_pagetable]
        exact ih.1 a (mem_of_get _ _ _ hi)
    | load i a hi =>
      refine ⟨fun a1 ha1 => ?_, ih.2⟩
      rcases List.mem_or_eq_of_mem_set ha1 with h1 | h1
      · exact ih.1 a1 h1
      · rw [h1]
        exact ih.1 a (mem_of_get _ _ _ hi)
    | sbrk i a change hi =>
      have hs := sys_sbrk_unset H change a k.vm (ih.1 a (mem_of_get _ _ _ hi))
      dsimp only
      rw [hs.2.1, hs.2.2]
      refine ⟨fun a1 ha1 => ?_, ih.2⟩
      rcases List.mem_or_eq_of_mem_set ha1 with h1 | h1
      · exact ih.1 a1 h1
      · rw [h1]
        exact hs.1
    | copy i a blk ptblk _ hi =>
      have hc := as_copy_unset gp blk ptblk a k.vm k.mem (ih.1 a (mem_of_get _ _ _ hi))
      dsimp only
      rw [hc.1]
      refine ⟨fun a1 ha1 => ?_, ih.2⟩
      cases hr : (as_copy gp blk ptblk a k.vm k.mem).ret with
      | none =>
        rw [hr] at ha1
        exact ih.1 a1 ha1
      | some new =>
        rw [hr] at ha1
        rcases List.mem_append.mp ha1 with h1 | h1
        · exact ih.1 a1 h1
        · rw [List.mem_singleton.mp h1]
          exact hc.2 new hr
    | destroy i a hi =>
      have hd : as_destroy a k.vm = k.vm :=
        as_destroy_loop_unset a.pagetable (k.vm.num_page_frames * 2)
          (ih.1 a (mem_of_get _ _ _ hi)) (k.vm.num_page_frames * 2) 0 k.vm (by omega)
      dsimp only
      rw [hd]
      exact ⟨fun a1 ha1 => ih.1 a1 (List.mem_of_mem_eraseIdx ha1), ih.2⟩

/-- From a boot state with no user frame in use (no live address space, no coremap entry
with `valid = 1`) the calls of `as_create`, `as_define_region`, `as_prepare_load`, `sys_sbrk`,
`as_copy` and `as_destroy` alone map no page, whatever `getppages` does and whatever the
blocks that `kmalloc` returns hold: none of the six functions marks a slot present unless it
copies a present one, so in every state they reach no slot is present and no coremap entry
has `valid = 1`. -/
theorem kernel_reach_nothing_mapped (H : Nat)
    (gp : Nat → vmstate → Nat × List coremap_entry) (k : kernel) (h : kernel_reach H gp k) :
    (∀ f : Nat, (∃ e, k.vm.coremap[f]? = some e ∧ e.valid = 1) ↔
      ∃ (s : Nat) (a : addrspace) (i : Nat), k.spaces[s]? = some a ∧
        i < k.vm.num_page_frames * 2 ∧ (pt_read a.pagetable i).present = 1 ∧
        (pt_read a.pagetable i).page_frame_num = (f : Int)) ∧
    (∀ (s1 s2 : Nat) (a1 a2 : addrspace) (i1 i2 : Nat),
      k.spaces[s1]? = some a1 → k.spaces[s2]? = some a2 →
      i1 < k.vm.num_page_frames * 2 → i2 < k.vm.num_page_frames * 2 →
      (pt_read a1.pagetable i1).present = 1 → (pt_read a2.pagetable i2).present = 1 →
      (pt_read a1.pagetable i1).page_frame_num = (pt_read a2.pagetable i2).page_frame_num →
      s1 = s2 ∧ i1 = i2) ∧
    (∀ e, e ∈ k.vm.coremap → e.valid ≠ 1) ∧
    (∀ a, a ∈ k.spaces → ∀ i, i < k.vm.num_page_frames * 2 →
      (pt_read a.pagetable i).present ≠ 1) := by
  have hinv := kernel_reach_inv H gp k h
  have hnp : ∀ a, a ∈ k.spaces → ∀ i, i < k.vm.num_page_frames * 2 →
      (pt_read a.pagetable i).present ≠ 1 := by
    intro a ha i hi
    rw [hinv.1 a ha i hi]
    decide
  refine ⟨fun f => ⟨?_, ?_⟩, ?_, hinv.2, hnp⟩
  · rintro ⟨e, he, hv⟩
    exact absurd hv (hinv.2 e (mem_of_get _ _ _ he))
  · rintro ⟨s, a, i, hs, hi, hp, _⟩
    exact absurd hp (hnp a (mem_of_get _ _ _ hs) i hi)
  · intro s1 s2 a1 a2 i1 i2 hs1 _ hi1 _ hp1 _ _
    exact absurd hp1 (hnp a1 (mem_of_get _ _ _ hs1) i1 hi1)

theorem booted_kernel_reach : kernel_reach scenario_heaplimit getppages booted_kernel := by
  have h0 : kernel_reach scenario_heaplimit getppages boot_kernel :=
    kernel_reach.boot _ ⟨rfl, by decide⟩
  have h1 := kernel_reach.step _ _ h0
    (kernel_step.create boot_kernel (some copy_blk)
      (some (List.replicate 4 (scenario_page 9 9)))
      { fresh_as with pagetable := List.replicate 4 page_entry.unset }
      (fun t ht => by cases ht; rfl) (by decide))
  have h2 := kernel_reach.step _ _ h1
    (kernel_step.sbrk _ 0 { fresh_as with pagetable := List.replicate 4 page_entry.unset }
      (-4096) (by decide))
  have h3 := kernel_reach.step _ _ h2
    (kernel_step.copy _ 0
      { fresh_as with pagetable := List.replicate 4 page_entry.unset, as_vtop_heap := 4096 }
      (some copy_blk) (some (List.replicate 4 (scenario_page 9 9)))
      (fun t ht => by cases ht; rfl) (by decide))
  exact h3

/-- The state `booted_kernel`, which `as_create`, `sys_sbrk(-4096)` and `as_copy` make from
`boot_kernel`, is reachable, and in it no coremap entry has `valid = 1`. -/
theorem booted_kernel_nothing_mapped :
    kernel_reach scenario_heaplimit getppages booted_kernel ∧
    ∀ e, e ∈ booted_kernel.vm.coremap → e.valid ≠ 1 :=
  ⟨booted_kernel_reach, (kernel_reach_nothing_mapped scenario_heaplimit getppages booted_kernel
    booted_kernel_reach).2.2.1⟩

/-! ## The frame invariant and the calls that keep it -/

theorem list_set_same {α : Type} (l : List α) (s : Nat) (x : α) (h : l[s]? = some x) :
    l.set s x = l := by
  apply List.ext_getElem?
  intro j
  rw [List.getElem?_set]
  split_ifs with h1 h2
  · rw [← h1, h]
  · rw [← h1]
    exact (List.getElem?_eq_none (by omega)).symm
  · rfl

theorem lt_of_get {α : Type} (l : List α) (s : Nat) (x : α) (h : l[s]? = some x) :
    s < l.length := by
  rcases List.getElem?_eq_some.mp h with ⟨hs, _⟩
  exact hs

/-- The slots that hold a frame after slot `i` of table `s` has been reset. -/
theorem slot_holds_release (tabs : List (List page_entry)) (n s : Nat) (pt : List page_entry)
    (i : Nat) (hs : tabs[s]? = some pt) (s1 j : Nat) (f : Int) :
    slot_holds (tabs.set s (pt.set i page_entry.unset)) n s1 j f ↔
      slot_holds tabs n s1 j f ∧ ¬ (s1 = s ∧ j = i) := by
  have hlt := lt_of_get tabs s pt hs
  by_cases h1 : s1 = s
  · rw [h1]
    constructor
    · rintro ⟨pt1, hpt1, hj, hp, hf⟩
      rw [List.getElem?_set_self hlt] at hpt1
      cases hpt1
      rw [pt_read_set_unset] at hp hf
      by_cases hji : j = i
      · rw [if_pos hji] at hp
        exact absurd hp (by decide)
      · rw [if_neg hji] at hp hf
        exact ⟨⟨pt, hs, hj, hp, hf⟩, fun h => hji h.2⟩
    · rintro ⟨⟨pt1, hpt1, hj, hp, hf⟩, hne⟩
      rw [hs] at hpt1
      cases hpt1
      have hji : j ≠ i := fun h => hne ⟨rfl, h⟩
      refine ⟨pt.set i page_entry.unset, List.getElem?_set_self hlt, hj, ?_, ?_⟩
      · rw [pt_read_set_unset, if_neg hji]
        exact hp
      · rw [pt_read_set_unset, if_neg hji]
        exact hf
  · unfold slot_holds
    rw [List.getElem?_set_ne (Ne.symm h1)]
    exact ⟨fun h => ⟨h, fun h2 => h1 h2.1⟩, fun h => h.1⟩

theorem frame_valid_release (vm : vmstate) (p : Int) (k : Nat) :
    frame_valid (coremap_release vm p) k ↔ frame_valid vm k ∧ p ≠ (k : Int) := by
  unfold frame_valid
  rcases coremap_release_get vm p k with ⟨h, hp⟩ | ⟨h, hp⟩
  · rw [h]
    exact ⟨fun h1 => ⟨h1, hp⟩, fun h1 => h1.1⟩
  · rw [h]
    constructor
    · rintro ⟨e, he, hv⟩
      cases hc : vm.coremap[k]? with
      | none => rw [hc] at he; cases he
      | some e0 =>
        rw [hc] at he
        cases he
        have hv1 : (0 : Int) = 1 := hv
        omega
    · rintro ⟨_, hne⟩
      exact absurd hp hne

/-- The release of the frame of a slot together with the reset of the slot keeps the frame
invariant. -/
theorem frames_inv_release (tabs : List (List page_entry)) (vm : vmstate)
    (h : frames_inv tabs vm) (s : Nat) (pt : List page_entry) (i : Nat)
    (hs : tabs[s]? = some pt) (hi : i < vm.num_page_frames * 2) :
    frames_inv (tabs.set s (pt.set i page_entry.unset))
      (coremap_release vm (pt_read pt i).page_frame_num) := by
  have hc := coremap_release_consts vm (pt_read pt i).page_frame_num
  have hlt := lt_of_get tabs s pt hs
  have hsl := slot_holds_release tabs (vm.num_page_frames * 2) s pt i hs
  have hfv := frame_valid_release vm (pt_read pt i).page_frame_num
  have hother : ∀ s1 j (k : Nat), slot_holds tabs (vm.num_page_frames * 2) s1 j (k : Int) →
      ¬ (s1 = s ∧ j = i) → (pt_read pt i).page_frame_num ≠ (k : Int) := by
    intro s1 j k hsh hne hp
    by_cases hpr : (pt_read pt i).present = 1
    · exact hne (h.distinct s1 j s i (k : Int) hsh ⟨pt, hs, hi, hpr, hp⟩)
    · rw [h.unmapped s pt i hs hi hpr] at hp
      have hp1 : (-1 : Int) = (k : Int) := hp
      omega
  refine ⟨?_, ?_, ?_, ?_, ?_, ?_, ?_⟩
  · rw [hc.2.1]
    exact h.fpa
  · rw [hc.2.1, hc.2.2]
    exact h.fit
  · intro s1 pt1 hpt1
    rw [hc.1]
    by_cases h1 : s1 = s
    · rw [h1, List.getElem?_set_self hlt] at hpt1
      cases hpt1
      rw [List.length_set]
      exact h.len s pt hs
    · rw [List.getElem?_set_ne (Ne.symm h1)] at hpt1
      exact h.len s1 pt1 hpt1
  · intro s1 pt1 j hpt1 hj hp
    rw [hc.1] at hj
    by_cases h1 : s1 = s
    · rw [h1, List.getElem?_set_self hlt] at hpt1
      cases hpt1
      rw [pt_read_set_unset] at hp ⊢
      by_cases hji : j = i
      · rw [if_pos hji]
      · rw [if_neg hji] at hp ⊢
        exact h.unmapped s pt j hs hj hp
    · rw [List.getElem?_set_ne (Ne.symm h1)] at hpt1
      exact h.unmapped s1 pt1 j hpt1 hj hp
  · intro s1 j f hsh
    rw [hc.1] at hsh
    rcases (hsl s1 j f).mp hsh with ⟨h0, hne⟩
    rcases h.mapped s1 j f h0 with ⟨k, hk, hv⟩
    rw [hk] at h0
    exact ⟨k, hk, (hfv k).mpr ⟨hv, hother s1 j k h0 hne⟩⟩
  · intro k hv
    rw [hc.1]
    rcases (hfv k).mp hv with ⟨hv0, hne⟩
    rcases h.owned k hv0 with ⟨s1, j, h0⟩
    refine ⟨s1, j, (hsl s1 j (k : Int)).mpr ⟨h0, fun hh => ?_⟩⟩
    rcases h0 with ⟨pt1, hpt1, _, _, hf⟩
    rw [hh.1, hs] at hpt1
    cases hpt1
    rw [hh.2] at hf
    exact hne hf
  · intro s1 i1 s2 i2 f h1 h2
    rw [hc.1] at h1 h2
    exact h.distinct s1 i1 s2 i2 f ((hsl s1 i1 f).mp h1).1 ((hsl s2 i2 f).mp h2).1

/-- The scan of the release branch of `sys_sbrk` keeps the frame invariant. -/
theorem frames_inv_scan (target : Nat) (tabs : List (List page_entry)) (s : Nat) (r : Nat) :
    ∀ (i : Nat) (pt : List page_entry) (vm : vmstate), frames_inv tabs vm →
      tabs[s]? = some pt → i + r ≤ vm.num_page_frames * 2 →
      frames_inv (tabs.set s (sbrk_scan target i r pt vm).1) (sbrk_scan target i r pt vm).2 := by
  induction r with
  | zero =>
    intro i pt vm h hs _
    unfold sbrk_scan
    rw [list_set_same tabs s pt hs]
    exact h
  | succ r ih =>
    intro i pt vm h hs hir
    unfold sbrk_scan
    by_cases hm : toU32 ((pt_read pt i).virt_frame_num * (PAGE_SIZE : Int)) = target
    · rw [if_pos hm]
      exact frames_inv_release tabs vm h s pt i hs (by omega)
    · rw [if_neg hm]
      exact ih (i + 1) pt vm h hs (by omega)

theorem sbrk_scan_consts (target : Nat) (r : Nat) :
    ∀ (i : Nat) (pt : List page_entry) (vm : vmstate),
      (sbrk_scan target i r pt vm).2.num_page_frames = vm.num_page_frames := by
  induction r with
  | zero => intro i pt vm; rfl
  | succ r ih =>
    intro i pt vm
    unfold sbrk_scan
    split_ifs
    · exact (coremap_release_consts vm _).1
    · exact ih (i + 1) pt vm

/-- The release branch of `sys_sbrk` keeps the frame invariant. -/
theorem frames_inv_sbrk_release (change : Int) (s : Nat) (r : Nat) :
    ∀ (tabs : List (List page_entry)) (a : addrspace) (vm : vmstate), frames_inv tabs vm →
      tabs[s]? = some a.pagetable →
      frames_inv (tabs.set s (sbrk_release change r a vm).1.pagetable)
        (sbrk_release change r a vm).2 := by
  induction r with
  | zero =>
    intro tabs a vm h hs
    unfold sbrk_release
    rw [list_set_same tabs s a.pagetable hs]
    exact h
  | succ r ih =>
    intro tabs a vm h hs
    unfold sbrk_release
    dsimp only
    have h1 := frames_inv_scan (toU32 ((a.as_vtop_heap : Int) - (PAGE_SIZE : Int))) tabs s
      (vm.num_page_frames * 2) 0 a.pagetable vm h hs (by omega)
    have h2 := ih _
      { a with
        pagetable := (sbrk_scan (toU32 ((a.as_vtop_heap : Int) - (PAGE_SIZE : Int))) 0
          (vm.num_page_frames * 2) a.pagetable vm).1,
        as_vtop_heap := toU32 ((a.as_vtop_heap : Int) - change) }
      _ h1 (List.getElem?_set_self (lt_of_get tabs s a.pagetable hs))
    rw [List.set_set] at h2
    exact h2

/-- The function `sys_sbrk` keeps the frame invariant, for every `change`. -/
theorem frames_inv_sys_sbrk (H : Nat) (change : Int) (tabs : List (List page_entry))
    (s : Nat) (a : addrspace) (vm : vmstate) (h : frames_inv tabs vm)
    (hs : tabs[s]? = some a.pagetable) :
    frames_inv (tabs.set s (sys_sbrk H change a vm).as.pagetable) (sys_sbrk H change a vm).vm := by
  have hsame : frames_inv (tabs.set s a.pagetable) vm := by
    rw [list_set_same tabs s a.pagetable hs]
    exact h
  unfold sys_sbrk
  split_ifs
  · exact hsame
  · exact hsame
  · exact frames_inv_sbrk_release change s _ tabs a vm h hs
  · exact hsame
  · exact hsame
  · exact hsame

theorem slot_holds_append (tabs : List (List page_entry)) (n : Nat) (pt : List page_entry)
    (s1 j : Nat) (f : Int) :
    slot_holds (tabs ++ [pt]) n s1 j f ↔
      slot_holds tabs n s1 j f ∨
        (s1 = tabs.length ∧ j < n ∧ (pt_read pt j).present = 1 ∧
          (pt_read pt j).page_frame_num = f) := by
  unfold slot_holds
  by_cases h1 : s1 < tabs.length
  · rw [List.getElem?_append_left h1]
    exact ⟨fun h => Or.inl h, fun h => h.elim id (fun h2 => by omega)⟩
  · have hnone : tabs[s1]? = none := List.getElem?_eq_none (by omega)
    rw [List.getElem?_append_right (by omega), hnone]
    constructor
    · rintro ⟨pt1, hpt1, hj, hp, hf⟩
      by_cases h2 : s1 = tabs.length
      · rw [h2, Nat.sub_self] at hpt1
        cases hpt1
        exact Or.inr ⟨h2, hj, hp, hf⟩
      · have h3 : ([pt] : List (List page_entry))[s1 - tabs.length]? = none :=
          List.getElem?_eq_none (by simp only [List.length_singleton]; omega)
        rw [h3] at hpt1
        cases hpt1
    · rintro (⟨pt1, hpt1, _⟩ | ⟨h2, hj, hp, hf⟩)
      · cases hpt1
      · rw [h2, Nat.sub_self]
        exact ⟨pt, rfl, hj, hp, hf⟩

theorem get_append_cases (tabs : List (List page_entry)) (pt pt1 : List page_entry) (s1 : Nat)
    (h : (tabs ++ [pt])[s1]? = some pt1) : tabs[s1]? = some pt1 ∨ pt1 = pt := by
  by_cases h1 : s1 < tabs.length
  · rw [List.getElem?_append_left h1] at h
    exact Or.inl h
  · rw [List.getElem?_append_right (by omega)] at h
    exact Or.inr (List.mem_singleton.mp (mem_of_get _ _ _ h))

/-- A new table whose slots are unset joins the live tables: the frame invariant is kept. -/
theorem frames_inv_append_unset (tabs : List (List page_entry)) (vm : vmstate)
    (h : frames_inv tabs vm) (pt : List page_entry)
    (hlen : pt.length = vm.num_page_frames * 2)
    (hpt : table_unset (vm.num_page_frames * 2) pt) : frames_inv (tabs ++ [pt]) vm := by
  have hold : ∀ s1 j f, slot_holds (tabs ++ [pt]) (vm.num_page_frames * 2) s1 j f →
      slot_holds tabs (vm.num_page_frames * 2) s1 j f := by
    intro s1 j f hsh
    rcases (slot_holds_append tabs _ pt s1 j f).mp hsh with h0 | ⟨_, hj, hp, _⟩
    · exact h0
    · rw [hpt j hj] at hp
      exact absurd hp (by decide)
  refine ⟨h.fpa, h.fit, ?_, ?_, ?_, ?_, ?_⟩
  · intro s1 pt1 hpt1
    rcases get_append_cases tabs pt pt1 s1 hpt1 with h0 | h0
    · exact h.len s1 pt1 h0
    · rw [h0]
      exact hlen
  · intro s1 pt1 j hpt1 hj hp
    rcases get_append_cases tabs pt pt1 s1 hpt1 with h0 | h0
    · exact h.unmapped s1 pt1 j h0 hj hp
    · rw [h0]
      exact hpt j hj
  · intro s1 j f hsh
    exact h.mapped s1 j f (hold s1 j f hsh)
  · intro k hv
    rcases h.owned k hv with ⟨s1, j, h0⟩
    exact ⟨s1, j, (slot_holds_append tabs _ pt s1 j _).mpr (Or.inl h0)⟩
  · intro s1 i1 s2 i2 f h1 h2
    exact h.distinct s1 i1 s2 i2 f (hold s1 i1 f h1) (hold s2 i2 f h2)

/-- The frame invariant depends on the globals only through the constants and through the
set of frames whose coremap entry has `valid = 1`. -/
theorem frames_inv_congr_vm (tabs : List (List page_entry)) (vm vm1 : vmstate)
    (h : frames_inv tabs vm) (hnpf : vm1.num_page_frames = vm.num_page_frames)
    (hfpa : vm1.first_pageframe_addr = vm.first_pageframe_addr)
    (hlen : vm1.coremap.length = vm.coremap.length)
    (hv : ∀ k, frame_valid vm1 k ↔ frame_valid vm k) : frames_inv tabs vm1 := by
  refine ⟨?_, ?_, ?_, ?_, ?_, ?_, ?_⟩
  · rw [hfpa]
    exact h.fpa
  · rw [hfpa, hlen]
    exact h.fit
  · rw [hnpf]
    exact h.len
  · rw [hnpf]
    exact h.unmapped
  · rw [hnpf]
    intro s i f hsh
    rcases h.mapped s i f hsh with ⟨k, hk, hvk⟩
    exact ⟨k, hk, (hv k).mpr hvk⟩
  · rw [hnpf]
    intro k hvk
    exact h.owned k ((hv k).mp hvk)
  · rw [hnpf]
    exact h.distinct

theorem frame_valid_in_use (vm : vmstate) (k : Nat) (h : frame_valid vm k) :
    frame_in_use vm k := by
  rcases h with ⟨e, he, hv⟩
  exact ⟨e, he, by rw [hv]; decide⟩

/-- The table that a completed loop of `as_copy` has built joins the live tables: the frame
invariant is kept. -/
theorem frames_inv_copy_ok (tabs : List (List page_entry)) (vm0 : vmstate) (mem0 : Nat → Nat)
    (h : frames_inv tabs vm0) (old : List page_entry) (s : copy_state)
    (hinv : copy_inv old (vm0.num_page_frames * 2) vm0 mem0 (vm0.num_page_frames * 2) s)
    (hvalid : ∀ j, j < vm0.num_page_frames * 2 → (pt_read s.pt j).present = 1 →
      ∃ (k : Nat) (e : coremap_entry), (pt_read s.pt j).page_frame_num = (k : Int) ∧
        s.vm.coremap[k]? = some e ∧ e.valid = 1) :
    frames_inv (tabs ++ [s.pt]) s.vm := by
  have hkeep : ∀ k, frame_valid vm0 k → frame_valid s.vm k := by
    intro k hv
    unfold frame_valid
    rw [hinv.kept k (frame_valid_in_use vm0 k hv)]
    exact hv
  have hback : ∀ k, frame_valid s.vm k → frame_in_use vm0 k → frame_valid vm0 k := by
    intro k hv hu
    unfold frame_valid at hv
    rw [hinv.kept k hu] at hv
    exact hv
  have hnew : ∀ j, j < vm0.num_page_frames * 2 → (pt_read s.pt j).present = 1 →
      (pt_read old j).present = 1 ∧
      ∃ k : Nat, (pt_read s.pt j).page_frame_num = (k : Int) ∧ frame_free vm0 k := by
    intro j hj hp
    rcases copy_inv_present _ _ _ _ _ _ hinv j hj hp with ⟨h1, k, h2, h3, _⟩
    exact ⟨h1, k, h2, h3⟩
  have hcases := fun s1 j f => (slot_holds_append tabs (vm0.num_page_frames * 2) s.pt s1 j f)
  refine ⟨?_, ?_, ?_, ?_, ?_, ?_, ?_⟩
  · rw [hinv.fpa]
    exact h.fpa
  · rw [hinv.fpa, hinv.cmlen]
    exact h.fit
  · rw [hinv.npf]
    intro s1 pt1 hpt1
    rcases get_append_cases tabs s.pt pt1 s1 hpt1 with h0 | h0
    · exact h.len s1 pt1 h0
    · rw [h0]
      exact hinv.len
  · rw [hinv.npf]
    intro s1 pt1 j hpt1 hj hp
    rcases get_append_cases tabs s.pt pt1 s1 hpt1 with h0 | h0
    · exact h.unmapped s1 pt1 j h0 hj hp
    · rw [h0] at hp ⊢
      by_cases hpo : (pt_read old j).present = 1
      · rcases hinv.copied j hj hpo with ⟨k, hk, _⟩
        rw [pt_read_of_get _ _ _ hk] at hp
        exact absurd rfl hp
      · exact pt_read_of_get _ _ _ (hinv.skipped j hj hpo)
  · rw [hinv.npf]
    intro s1 j f hsh
    rcases (hcases s1 j f).mp hsh with h0 | ⟨_, hj, hp, hf⟩
    · rcases h.mapped s1 j f h0 with ⟨k, hk, hv⟩
      exact ⟨k, hk, hkeep k hv⟩
    · rcases hvalid j hj hp with ⟨k, e, hk, he, hv⟩
      exact ⟨k, by rw [← hf, hk], e, he, hv⟩
  · rw [hinv.npf]
    intro k hv
    rcases hinv.origin k (frame_valid_in_use s.vm k hv) with hu | ⟨j, hj, hpo, hk⟩
    · rcases h.owned k (hback k hv hu) with ⟨s1, j, h0⟩
      exact ⟨s1, j, (hcases s1 j _).mpr (Or.inl h0)⟩
    · refine ⟨tabs.length, j, (hcases _ j _).mpr (Or.inr ⟨rfl, hj, ?_, hk⟩)⟩
      rcases hinv.copied j hj hpo with ⟨k1, hk1, _⟩
      rw [pt_read_of_get _ _ _ hk1]
  · rw [hinv.npf]
    intro s1 i1 s2 i2 f h1 h2
    rcases (hcases s1 i1 f).mp h1 with a1 | ⟨e1, hj1, hp1, hf1⟩
    · rcases (hcases s2 i2 f).mp h2 with a2 | ⟨e2, hj2, hp2, hf2⟩
      · exact h.distinct s1 i1 s2 i2 f a1 a2
      · rcases h.mapped s1 i1 f a1 with ⟨k, hk, hv⟩
        rcases hnew i2 hj2 hp2 with ⟨_, k2, hk2, hfree⟩
        have hkk : k2 = k := by
          have h3 : (k2 : Int) = (k : Int) := by rw [← hk2, hf2, hk]
          exact_mod_cast h3
        rw [hkk] at hfree
        exact absurd (frame_valid_in_use vm0 k hv) (fun hu => frame_free_not_in_use vm0 k hfree hu)
    · rcases (hcases s2 i2 f).mp h2 with a2 | ⟨e2, hj2, hp2, hf2⟩
      · rcases h.mapped s2 i2 f a2 with ⟨k, hk, hv⟩
        rcases hnew i1 hj1 hp1 with ⟨_, k1, hk1, hfree⟩
        have hkk : k1 = k := by
          have h3 : (k1 : Int) = (k : Int) := by rw [← hk1, hf1, hk]
          exact_mod_cast h3
        rw [hkk] at hfree
        exact absurd (frame_valid_in_use vm0 k hv) (fun hu => frame_free_not_in_use vm0 k hfree hu)
      · refine ⟨by rw [e1, e2], ?_⟩
        exact hinv.distinct i1 i2 hj1 hj2 (hnew i1 hj1 hp1).1 (hnew i2 hj2 hp2).1
          (by rw [hf1, hf2])

/-- The function `as_copy` keeps the frame invariant, with the table of the copy joining the
live tables when the call succeeds, for a `getppages` that returns `0` without effect or a
free frame marked in use. -/
theorem frames_inv_as_copy (gp : Nat → vmstate → Nat × List coremap_entry)
    (hgp : getppages_contract gp) (blk : Option addrspace) (ptblk : Option (List page_entry))
    (old : addrspace) (vm : vmstate) (mem : Nat → Nat) (tabs : List (List page_entry))
    (h : frames_inv tabs vm)
    (hblk : ∀ t, ptblk = some t → t.length = vm.num_page_frames * 2) :
    (∀ new, (as_copy gp blk ptblk old vm mem).ret = some new →
      frames_inv (tabs ++ [new.pagetable]) (as_copy gp blk ptblk old vm mem).vm) ∧
    ((as_copy gp blk ptblk old vm mem).ret = none →
      frames_inv tabs (as_copy gp blk ptblk old vm mem).vm) := by
  cases blk with
  | none => exact ⟨fun new hn => (by cases hn), fun _ => h⟩
  | some b0 =>
    cases ptblk with
    | none => exact ⟨fun new hn => (by cases hn), fun _ => h⟩
    | some t =>
      have hinit := copy_inv_init old.pagetable vm mem t (hblk t rfl)
      have hloop := as_copy_loop_inv gp hgp old.pagetable (vm.num_page_frames * 2) vm mem
        h.fpa h.fit (vm.num_page_frames * 2) 0 _ (by omega) hinit
      have hsome := as_copy_some gp b0 t old vm mem
      cases hl : as_copy_loop gp old.pagetable 0 (vm.num_page_frames * 2)
          { pt := as_create_loop 0 (vm.num_page_frames * 2) t, vm := vm, mem := mem } with
      | ok s =>
        rcases hsome.1 s hl with ⟨_, ⟨new, hn, hpt⟩, h3, _⟩
        have hinv := hloop.1 s hl
        have hvalid := as_copy_loop_valid gp hgp old.pagetable (vm.num_page_frames * 2) vm mem
          h.fpa h.fit (vm.num_page_frames * 2) 0 _ (by omega) hinit
          (fun j hj hp => by
            rw [pt_read_of_get _ _ _ (hinit.todo j (by omega) hj)] at hp
            exact absurd hp (by decide))
          s hl
        refine ⟨fun new1 hn1 => ?_, fun hnone => ?_⟩
        · rw [hn] at hn1
          cases hn1
          rw [hpt, h3]
          exact frames_inv_copy_ok tabs vm mem h old.pagetable s hinv hvalid
        · rw [hn] at hnone
          cases hnone
      | error s =>
        rcases hsome.2 s hl with ⟨_, hnone, h3, _⟩
        rcases hloop.2 s hl with ⟨i1, s0, hi1, hinv, hcf⟩
        have hnpf : s.vm.num_page_frames = vm.num_page_frames := by
          rw [hcf.2.2.1]
          exact hinv.npf
        rw [hnpf] at h3
        have hc := as_destroy_loop_consts s.pt (vm.num_page_frames * 2) 0 s.vm
        refine ⟨fun new1 hn1 => ?_, fun _ => ?_⟩
        · rw [hnone] at hn1
          cases hn1
        · rw [h3]
          refine frames_inv_congr_vm tabs vm _ h (by rw [hc.1, hnpf])
            (by rw [hc.2.1, hcf.2.2.1]; exact hinv.fpa)
            (by rw [hc.2.2, hcf.2.2.1]; exact hinv.cmlen) (fun k => ⟨fun hv => ?_, fun hv => ?_⟩)
          · have hu := (copy_fail_destroy old.pagetable (vm.num_page_frames * 2) vm mem i1 s0 s
              hi1 hinv hcf k).mp (frame_valid_in_use _ k hv)
            unfold frame_valid at hv
            rw [copy_fail_destroy_kept old.pagetable (vm.num_page_frames * 2) vm mem i1 s0 s
              hi1 hinv hcf k hu] at hv
            exact hv
          · unfold frame_valid
            rw [copy_fail_destroy_kept old.pagetable (vm.num_page_frames * 2) vm mem i1 s0 s
              hi1 hinv hcf k (frame_valid_in_use vm k hv)]
            exact hv

theorem get_eraseIdx {α : Type} (l : List α) (s s1 : Nat) :
    (l.eraseIdx s)[s1]? = l[if s1 < s then s1 else s1 + 1]? := by
  rw [List.getElem?_eraseIdx]
  split_ifs <;> rfl

/-- The slots that hold a frame after table `s` has been removed. -/
theorem slot_holds_eraseIdx (tabs : List (List page_entry)) (n s s1 j : Nat) (f : Int) :
    slot_holds (tabs.eraseIdx s) n s1 j f ↔
      slot_holds tabs n (if s1 < s then s1 else s1 + 1) j f := by
  unfold slot_holds
  rw [List.getElem?_eraseIdx]
  split_ifs <;> rfl

/-- The function `as_destroy` keeps the frame invariant, the table of the destroyed address
space leaving the live tables. -/
theorem frames_inv_as_destroy (tabs : List (List page_entry)) (vm : vmstate)
    (h : frames_inv tabs vm) (s : Nat) (pt : List page_entry) (hs : tabs[s]? = some pt) :
    frames_inv (tabs.eraseIdx s) (as_destroy_loop pt 0 (vm.num_page_frames * 2) vm) := by
  have hc := as_destroy_loop_consts pt (vm.num_page_frames * 2) 0 vm
  have hget := fun k => as_destroy_loop_get pt k (vm.num_page_frames * 2) 0 vm
  have hsl := slot_holds_eraseIdx tabs (vm.num_page_frames * 2) s
  have hfv : ∀ k, frame_valid (as_destroy_loop pt 0 (vm.num_page_frames * 2) vm) k ↔
      frame_valid vm k ∧ ¬ ∃ j, slot_holds tabs (vm.num_page_frames * 2) s j (k : Int) := by
    intro k
    by_cases hex : ∃ j, 0 ≤ j ∧ j < 0 + vm.num_page_frames * 2 ∧ (pt_read pt j).present = 1 ∧
        (pt_read pt j).page_frame_num = (k : Int)
    · have hheld : ∃ j, slot_holds tabs (vm.num_page_frames * 2) s j (k : Int) := by
        rcases hex with ⟨j, _, hj, hp, hf⟩
        exact ⟨j, pt, hs, by omega, hp, hf⟩
      constructor
      · rintro ⟨e, he, hv⟩
        rw [(hget k).1 hex] at he
        cases hcm : vm.coremap[k]? with
        | none => rw [hcm] at he; cases he
        | some e0 =>
          rw [hcm] at he
          cases he
          have hv1 : (0 : Int) = 1 := hv
          omega
      · rintro ⟨_, hno⟩
        exact absurd hheld hno
    · have hnot : ¬ ∃ j, slot_holds tabs (vm.num_page_frames * 2) s j (k : Int) := by
        rintro ⟨j, pt1, hpt1, hj, hp, hf⟩
        rw [hs] at hpt1
        cases hpt1
        exact hex ⟨j, by omega, by omega, hp, hf⟩
      unfold frame_valid
      rw [(hget k).2 hex]
      exact ⟨fun hv => ⟨hv, hnot⟩, fun hv => hv.1⟩
  refine ⟨?_, ?_, ?_, ?_, ?_, ?_, ?_⟩
  · rw [hc.2.1]
    exact h.fpa
  · rw [hc.2.1, hc.2.2]
    exact h.fit
  · rw [hc.1]
    intro s1 pt1 hpt1
    rw [get_eraseIdx] at hpt1
    exact h.len _ pt1 hpt1
  · rw [hc.1]
    intro s1 pt1 j hpt1 hj hp
    rw [get_eraseIdx] at hpt1
    exact h.unmapped _ pt1 j hpt1 hj hp
  · rw [hc.1]
    intro s1 j f hsh
    have h0 := (hsl s1 j f).mp hsh
    rcases h.mapped _ j f h0 with ⟨k, hk, hv⟩
    refine ⟨k, hk, (hfv k).mpr ⟨hv, ?_⟩⟩
    rintro ⟨j1, h1⟩
    rw [hk] at h0
    have h2 := (h.distinct _ j s j1 (k : Int) h0 h1).1
    split_ifs at h2 <;> omega
  · rw [hc.1]
    intro k hv
    rcases (hfv k).mp hv with ⟨hv0, hno⟩
    rcases h.owned k hv0 with ⟨s0, j, h0⟩
    have hne : s0 ≠ s := by
      intro heq
      rw [heq] at h0
      exact hno ⟨j, h0⟩
    refine ⟨if s0 < s then s0 else s0 - 1, j, (hsl _ j _).mpr ?_⟩
    have hidx : (if (if s0 < s then s0 else s0 - 1) < s then (if s0 < s then s0 else s0 - 1)
        else (if s0 < s then s0 else s0 - 1) + 1) = s0 := by
      split_ifs <;> omega
    rw [hidx]
    exact h0
  · rw [hc.1]
    intro s1 i1 s2 i2 f h1 h2
    have h3 := h.distinct _ i1 _ i2 f ((hsl s1 i1 f).mp h1) ((hsl s2 i2 f).mp h2)
    refine ⟨?_, h3.2⟩
    have h4 := h3.1
    split_ifs at h4 <;> omega

theorem kernel_tables_eraseIdx (spaces : List addrspace) (i : Nat) :
    (spaces.eraseIdx i).map (fun a => a.pagetable)
      = (spaces.map (fun a => a.pagetable)).eraseIdx i := by
  apply List.ext_getElem?
  intro j
  rw [List.getElem?_map, List.getElem?_eraseIdx, List.getElem?_eraseIdx]
  split_ifs <;> rw [List.getElem?_map]

theorem kernel_tables_get (k : kernel) (i : Nat) (a : addrspace) (h : k.spaces[i]? = some a) :
    (kernel_tables k)[i]? = some a.pagetable := by
  unfold kernel_tables
  rw [List.getElem?_map, h]
  rfl

/-- Every call of `as_create`, `as_define_region`, `as_prepare_load`, `sys_sbrk` (with any
`change`), `as_copy` and `as_destroy` on a live address space keeps the frame invariant, from
any kernel state in which it holds, for a `getppages` that returns `0` without effect or a
free frame marked in use: afterwards the frames whose coremap entry has `valid = 1` are
again exactly the frames held by present slots of the live page tables, each by one slot. -/
theorem kernel_step_frames_inv (H : Nat) (gp : Nat → vmstate → Nat × List coremap_entry)
    (hgp : getppages_contract gp) (k k1 : kernel) (hk : frames_inv (kernel_tables k) k.vm)
    (hs : kernel_step H gp k k1) : frames_inv (kernel_tables k1) k1.vm := by
  cases hs with
  | create blk ptblk a hblk hc =>
    rcases as_create_fields k.vm blk ptblk a hc with ⟨_, _, _, _, _, _, _, _, _, t, ht, hpt⟩
    have h1 := frames_inv_append_unset (kernel_tables k) k.vm hk a.pagetable
      (by rw [hpt, as_create_loop_length]; exact hblk t ht)
      (by rw [hpt]; exact as_create_loop_unset _ t)
    unfold kernel_tables at h1 ⊢
    dsimp only
    rw [List.map_append]
    exact h1
  | region i a vaddr sz r w x hi =>
    have hg := kernel_tables_get k i a hi
    unfold kernel_tables at hg hk ⊢
    dsimp only
    rw [List.map_set, as_define_region_pagetable, list_set_same _ i a.pagetable hg]
    exact hk
  | load i a hi =>
    have hg := kernel_tables_get k i a hi
    unfold kernel_tables at hg hk ⊢
    dsimp only
    rw [List.map_set]
    have h1 : (as_prepare_load a).2.pagetable = a.pagetable := rfl
    rw [h1, list_set_same _ i a.pagetable hg]
    exact hk
  | sbrk i a change hi =>
    have h1 := frames_inv_sys_sbrk H change (kernel_tables k) i a k.vm hk
      (kernel_tables_get k i a hi)
    unfold kernel_tables at h1 ⊢
    dsimp only
    rw [List.map_set]
    exact h1
  | copy i a blk ptblk hblk hi =>
    have h1 := frames_inv_as_copy gp hgp blk ptblk a k.vm k.mem (kernel_tables k) hk hblk
    unfold kernel_tables at h1 ⊢
    dsimp only
    cases hr : (as_copy gp blk ptblk a k.vm k.mem).ret with
    | none =>
      unfold spaces_after_copy
      exact h1.2 hr
    | some new =>
      unfold spaces_after_copy
      dsimp only
      rw [List.map_append]
      exact h1.1 new hr
  | destroy i a hi =>
    have h1 := frames_inv_as_destroy (kernel_tables k) k.vm hk i a.pagetable
      (kernel_tables_get k i a hi)
    unfold kernel_tables at h1 ⊢
    dsimp only
    rw [kernel_tables_eraseIdx]
    exact h1

theorem copy_kernel_slots (s i : Nat) (f : Int)
    (h : slot_holds (kernel_tables copy_kernel) (copy_kernel.vm.num_page_frames * 2) s i f) :
    s = 0 ∧ ((i = 0 ∧ f = 0) ∨ (i = 2 ∧ f = 1)) := by
  rcases h with ⟨pt, hpt, hi, hp, hf⟩
  have hi8 : i < 8 := hi
  cases s with
  | succ s =>
    have h1 : (none : Option (List page_entry)) = some pt := hpt
    cases h1
  | zero =>
    have h1 : some copy_source.pagetable = some pt := hpt
    cases h1
    refine ⟨rfl, ?_⟩
    interval_cases i
    · exact Or.inl ⟨rfl, hf.symm⟩
    · exact absurd hp (by decide)
    · exact Or.inr ⟨rfl, hf.symm⟩
    · exact absurd hp (by decide)
    · exact absurd hp (by decide)
    · exact absurd hp (by decide)
    · exact absurd hp (by decide)
    · exact absurd hp (by decide)

/-- The frame invariant holds in the state `copy_kernel`. -/
theorem copy_kernel_frames_inv : frames_inv (kernel_tables copy_kernel) copy_kernel.vm := by
  have hget : ∀ (s : Nat) (pt : List page_entry), (kernel_tables copy_kernel)[s]? = some pt →
      pt = copy_source.pagetable := by
    intro s pt hpt
    cases s with
    | succ s =>
      have h1 : (none : Option (List page_entry)) = some pt := hpt
      cases h1
    | zero =>
      have h1 : some copy_source.pagetable = some pt := hpt
      cases h1
      rfl
  refine ⟨by decide, by decide, ?_, ?_, ?_, ?_, ?_⟩
  · intro s pt hpt
    rw [hget s pt hpt]
    rfl
  · intro s pt i hpt hi hp
    rw [hget s pt hpt] at hp ⊢
    have hi8 : i < 8 := hi
    interval_cases i
    · exact absurd (by decide) hp
    · rfl
    · exact absurd (by decide) hp
    · rfl
    · rfl
    · rfl
    · rfl
    · rfl
  · intro s i f h
    rcases (copy_kernel_slots s i f h).2 with ⟨_, hf⟩ | ⟨_, hf⟩
    · exact ⟨0, hf, scenario_frame 0x100000 1, rfl, rfl⟩
    · exact ⟨1, hf, scenario_frame 0x101000 1, rfl, rfl⟩
  · rintro k ⟨e, he, hv⟩
    have hk : k < 4 := lt_of_get _ k e he
    interval_cases k
    · exact ⟨0, 0, copy_source.pagetable, rfl, by decide, by decide, by decide⟩
    · exact ⟨0, 2, copy_source.pagetable, rfl, by decide, by decide, by decide⟩
    · have h1 : some (scenario_frame 0x102000 0) = some e := he
      cases h1
      exact absurd hv (by decide)
    · have h1 : some (scenario_frame 0x103000 0) = some e := he
      cases h1
      exact absurd hv (by decide)
  · intro s1 i1 s2 i2 f h1 h2
    rcases copy_kernel_slots s1 i1 f h1 with ⟨e1, c1⟩
    rcases copy_kernel_slots s2 i2 f h2 with ⟨e2, c2⟩
    refine ⟨by rw [e1, e2], ?_⟩
    rcases c1 with ⟨a1, b1⟩ | ⟨a1, b1⟩ <;> rcases c2 with ⟨a2, b2⟩ | ⟨a2, b2⟩ <;> omega

/-- The frame invariant after a call at a concrete input: in the state that `as_copy` of
`copy_source` leaves of `copy_kernel`, in which the copy holds frames 2 and 3, the frame
invariant holds. -/
theorem copy_kernel_step_frames_inv :
    frames_inv
      (kernel_tables
        { spaces := spaces_after_copy copy_kernel.spaces
            (as_copy getppages (some copy_blk) (some copy_ptblk) copy_source copy_kernel.vm
              copy_kernel.mem).ret,
          vm := (as_copy getppages (some copy_blk) (some copy_ptblk) copy_source copy_kernel.vm
              copy_kernel.mem).vm,
          mem := (as_copy getppages (some copy_blk) (some copy_ptblk) copy_source copy_kernel.vm
              copy_kernel.mem).mem })
      (as_copy getppages (some copy_blk) (some copy_ptblk) copy_source copy_kernel.vm
        copy_kernel.mem).vm :=
  kernel_step_frames_inv scenario_heaplimit getppages getppages_meets_contract copy_kernel _
    copy_kernel_frames_inv
    (kernel_step.copy copy_kernel 0 copy_source (some copy_blk) (some copy_ptblk)
      (copy_ptblk_length 0 0) rfl)

/-! ## The frames in use and the mapped pages, in every state the calls reach -/

/-- A boot state with no frame in use satisfies the frame invariant. -/
theorem kernel_boot_frames_inv (k : kernel) (hb : kernel_boot k)
    (hfpa : 0 < k.vm.first_pageframe_addr)
    (hfit : k.vm.first_pageframe_addr + PAGE_SIZE * k.vm.coremap.length ≤ 2 ^ 32) :
    frames_inv (kernel_tables k) k.vm := by
  have hnone : ∀ s : Nat, (kernel_tables k)[s]? = none := by
    intro s
    unfold kernel_tables
    rw [hb.1]
    rfl
  have hno : ∀ s i f, ¬ slot_holds (kernel_tables k) (k.vm.num_page_frames * 2) s i f := by
    rintro s i f ⟨pt, hpt, _⟩
    rw [hnone s] at hpt
    cases hpt
  refine ⟨hfpa, hfit, ?_, ?_, ?_, ?_, ?_⟩
  · intro s pt hpt
    rw [hnone s] at hpt
    cases hpt
  · intro s pt i hpt
    rw [hnone s] at hpt
    cases hpt
  · intro s i f h
    exact absurd h (hno s i f)
  · rintro f ⟨e, he, hv⟩
    exact absurd hv (hb.2 e (mem_of_get _ _ _ he))
  · intro s1 i1 s2 i2 f h
    exact absurd h (hno s1 i1 f)

/-- The frame invariant holds in every state that the calls reach from a state in which it
holds. -/
theorem kernel_run_frames_inv (H : Nat) (gp : Nat → vmstate → Nat × List coremap_entry)
    (hgp : getppages_contract gp) (k0 k : kernel)
    (h0 : frames_inv (kernel_tables k0) k0.vm) (hrun : kernel_run H gp k0 k) :
    frames_inv (kernel_tables k) k.vm := by
  induction hrun with
  | start => exact h0
  | step k k1 _ hs ih => exact kernel_step_frames_inv H gp hgp k k1 ih hs

theorem slot_holds_kernel (k : kernel) (n s i : Nat) (f : Int) :
    slot_holds (kernel_tables k) n s i f ↔
      ∃ a, k.spaces[s]? = some a ∧ i < n ∧ (pt_read a.pagetable i).present = 1 ∧
        (pt_read a.pagetable i).page_frame_num = f := by
  unfold slot_holds kernel_tables
  rw [List.getElem?_map]
  constructor
  · rintro ⟨pt, hpt, hi, hp, hf⟩
    cases hk : k.spaces[s]? with
    | none =>
      rw [hk] at hpt
      cases hpt
    | some a =>
      rw [hk] at hpt
      cases hpt
      exact ⟨a, rfl, hi, hp, hf⟩
  · rintro ⟨a, ha, hi, hp, hf⟩
    rw [ha]
    exact ⟨a.pagetable, rfl, hi, hp, hf⟩

/-- C22. In every kernel state reachable by calls of `as_create`, `as_define_region`,
`as_prepare_load`, `sys_sbrk` (with any `change`), `as_copy` and `as_destroy` on live address
spaces from a boot state with no user frame in use (no live address space, no coremap entry
with `valid = 1`), and likewise from any state in which the frame invariant of the data model
holds, pages being mapped: a frame has a coremap entry with `valid = 1` exactly when it is
the frame of a present slot of the page table of a live address space (no leaked frame), and
no frame is the frame of two present slots (no frame claimed twice). The machine's frames
lie within the 32-bit physical address space above address `0`, `getppages` returns `0`
without effect or a free frame marked in use, and the block that `kmalloc` returns for a page
table has the slots asked for. -/
theorem kernel_frames_mapped (H : Nat) (gp : Nat → vmstate → Nat × List coremap_entry)
    (hgp : getppages_contract gp) (k0 k : kernel)
    (hfpa : 0 < k0.vm.first_pageframe_addr)
    (hfit : k0.vm.first_pageframe_addr + PAGE_SIZE * k0.vm.coremap.length ≤ 2 ^ 32)
    (h0 : kernel_boot k0 ∨ frames_inv (kernel_tables k0) k0.vm)
    (hrun : kernel_run H gp k0 k) :
    (∀ f : Nat, (∃ e, k.vm.coremap[f]? = some e ∧ e.valid = 1) ↔
      ∃ (s : Nat) (a : addrspace) (i : Nat), k.spaces[s]? = some a ∧
        i < k.vm.num_page_frames * 2 ∧ (pt_read a.pagetable i).present = 1 ∧
        (pt_read a.pagetable i).page_frame_num = (f : Int)) ∧
    (∀ (s1 s2 : Nat) (a1 a2 : addrspace) (i1 i2 : Nat),
      k.spaces[s1]? = some a1 → k.spaces[s2]? = some a2 →
      i1 < k.vm.num_page_frames * 2 → i2 < k.vm.num_page_frames * 2 →
      (pt_read a1.pagetable i1).present = 1 → (pt_read a2.pagetable i2).present = 1 →
      (pt_read a1.pagetable i1).page_frame_num = (pt_read a2.pagetable i2).page_frame_num →
      s1 = s2 ∧ i1 = i2) := by
  have hstart : frames_inv (kernel_tables k0) k0.vm :=
    h0.elim (fun hb => kernel_boot_frames_inv k0 hb hfpa hfit) id
  have h := kernel_run_frames_inv H gp hgp k0 k hstart hrun
  refine ⟨fun f => ⟨fun hv => ?_, ?_⟩, ?_⟩
  · rcases h.owned f hv with ⟨s, i, hsh⟩
    rcases (slot_holds_kernel k _ s i _).mp hsh with ⟨a, ha, hi, hp, hf⟩
    exact ⟨s, a, i, ha, hi, hp, hf⟩
  · rintro ⟨s, a, i, ha, hi, hp, hf⟩
    rcases h.mapped s i (f : Int) ((slot_holds_kernel k _ s i _).mpr ⟨a, ha, hi, hp, hf⟩)
      with ⟨f1, hf1, hv⟩
    have hff : f1 = f := by exact_mod_cast hf1.symm
    rw [hff] at hv
    exact hv
  · intro s1 s2 a1 a2 i1 i2 hs1 hs2 hi1 hi2 hp1 hp2 heq
    exact h.distinct s1 i1 s2 i2 (pt_read a1.pagetable i1).page_frame_num
      ((slot_holds_kernel k _ s1 i1 _).mpr ⟨a1, hs1, hi1, hp1, rfl⟩)
      ((slot_holds_kernel k _ s2 i2 _).mpr ⟨a2, hs2, hi2, hp2, heq.symm⟩)

theorem copied_kernel_run : kernel_run scenario_heaplimit getppages copy_kernel copied_kernel := by
  have h1 := kernel_run.step _ _ (kernel_run.start : kernel_run scenario_heaplimit getppages
      copy_kernel copy_kernel)
    (kernel_step.copy copy_kernel 0 copy_source (some copy_blk) (some copy_ptblk)
      (copy_ptblk_length 0 0) rfl)
  exact kernel_run.step _ _ h1 (kernel_step.destroy _ 0 copy_source (by decide))

/-- The frames in use and the mapped pages at a concrete input. From `copy_kernel`, in which
`copy_source` holds frames 0 and 1 and the frame invariant holds, `as_copy` of `copy_source`
and then `as_destroy` of `copy_source` reach `copied_kernel`, whose only live address space is
the copy, holding frames 2 and 3, and whose frames 0 and 1 have been released; there the
frames with `valid = 1` are exactly the frames of the present slots. -/
theorem kernel_frames_mapped_witness :
    frames_inv (kernel_tables copy_kernel) copy_kernel.vm ∧
    kernel_run scenario_heaplimit getppages copy_kernel copied_kernel ∧
    copied_kernel.spaces = [copy_made] ∧
    copied_kernel.vm.coremap.map (fun e => e.valid) = [0, 0, 1, 1] ∧
    ∀ f : Nat, (∃ e, copied_kernel.vm.coremap[f]? = some e ∧ e.valid = 1) ↔
      ∃ (s : Nat) (a : addrspace) (i : Nat), copied_kernel.spaces[s]? = some a ∧
        i < copied_kernel.vm.num_page_frames * 2 ∧ (pt_read a.pagetable i).present = 1 ∧
        (pt_read a.pagetable i).page_frame_num = (f : Int) :=
  ⟨copy_kernel_frames_inv, copied_kernel_run, by decide, by decide,
   (kernel_frames_mapped scenario_heaplimit getppages getppages_meets_contract copy_kernel
    copied_kernel (by decide) (by decide) (Or.inr copy_kernel_frames_inv)
    copied_kernel_run).1⟩

end OS161
